import Mathlib

/-!
Verification development for the audio production subsystem of the
OBD-SuperStarAgent repository (`backend/agents/audio_producer.py`).

The Python source is shallowly embedded: pure text processing is modelled on
`List Char`, the procedural music generators are modelled over `ℚ` with the
transcendental oscillator `math.sin (2 * pi * x)` kept as an explicit function
parameter, file-system effects are threaded through an association list from
path names to byte lists, and every network / external-library call is an
explicit oracle parameter returning `Except` (a `.error` result models a raised
Python exception).  Python regular-expression substitutions are realised as
fuelled left-to-right scanners that mirror the behaviour of `re.sub` for the
concrete patterns appearing in the source.
-/

namespace ObdAudio

/-! ## Character classes

Classes used by the regular expressions in `_clean_text_for_tts`
(`audio_producer.py`, lines 111-153).  The Python patterns are ASCII apart
from `\s`/`\b`, whose ASCII fragment is what the embedding models. -/

/-- Python `\s` whitespace class (ASCII fragment): space, tab, newline,
carriage return, vertical tab, form feed. -/
def pyWs (c : Char) : Bool :=
  c = ' ' || c = '\t' || c = '\n' || c = '\r' || c = Char.ofNat 11 || c = Char.ofNat 12

/-- ASCII uppercase letter, the class `[A-Z]`. -/
def isUpperAZ (c : Char) : Bool := 'A' ≤ c && c ≤ 'Z'

/-- ASCII lowercase letter, the class `[a-z]`. -/
def isLowerAZ (c : Char) : Bool := 'a' ≤ c && c ≤ 'z'

/-- ASCII digit. -/
def isDigit09 (c : Char) : Bool := '0' ≤ c && c ≤ '9'

/-- Python `\w` word character (ASCII fragment), used to decide `\b`
word boundaries. -/
def isWordChar (c : Char) : Bool := isUpperAZ c || isLowerAZ c || isDigit09 c || c = '_'

/-- Shorthand turning a string literal into the character list it denotes. -/
def chars (s : String) : List Char := s.data

/-! ## Tag matchers

One matcher per regular expression used in steps 1-3 of
`_clean_text_for_tts`.  A matcher receives the text starting at the current
scan position and returns `some rest` (the text after the match) when the
pattern matches there. -/

/-- Case-insensitive literal prefix: consumes `pat` from the front of the
text, comparing characters after `Char.toLower`. -/
def dropLitCI : List Char → List Char → Option (List Char)
  | [], l => some l
  | _ :: _, [] => none
  | p :: ps, c :: cs => if p.toLower = c.toLower then dropLitCI ps cs else none

/-- Helper for the `s?` suffix of `laughs?`/`gasps?`: an optional `s` (case
insensitive) followed by the closing bracket. -/
def matchOptS : List Char → Option (List Char)
  | ']' :: r => some r
  | c :: ']' :: r => if c.toLower = 's' then some r else none
  | _ => none

/-- Matcher for `\[laughs?\]` (IGNORECASE). -/
def matchLaughTag (l : List Char) : Option (List Char) :=
  (dropLitCI (chars "[laugh") l).bind matchOptS

/-- Matcher for `\[lightlaugh\]` (IGNORECASE). -/
def matchLightTag (l : List Char) : Option (List Char) :=
  dropLitCI (chars "[lightlaugh]") l

/-- Matcher for `\[sigh\]` (IGNORECASE). -/
def matchSighTag (l : List Char) : Option (List Char) :=
  dropLitCI (chars "[sigh]") l

/-- Matcher for `\[gasps?\]` (IGNORECASE). -/
def matchGaspTag (l : List Char) : Option (List Char) :=
  (dropLitCI (chars "[gasp") l).bind matchOptS

/-- Matcher for `\[short\s*pause\]` (IGNORECASE). -/
def matchShortPauseTag (l : List Char) : Option (List Char) :=
  (dropLitCI (chars "[short") l).bind fun r =>
    dropLitCI (chars "pause]") (r.dropWhile pyWs)

/-- Matcher for `\[pause\]` (IGNORECASE). -/
def matchPauseTag (l : List Char) : Option (List Char) :=
  dropLitCI (chars "[pause]") l

/-- Matcher for `_ANY_BRACKET_TAG = \[[^\]]{1,30}\]` (audio_producer.py line
44).  The greedy bounded repetition matches exactly when the run of
non-`]` characters after the `[` has length between 1 and 30 and is followed
by a `]`. -/
def matchBracketTag : List Char → Option (List Char)
  | '[' :: rest =>
    let content := rest.takeWhile (fun c => c ≠ ']')
    if 1 ≤ content.length ∧ content.length ≤ 30 then
      match rest.dropWhile (fun c => c ≠ ']') with
      | ']' :: after => some after
      | _ => none
    else none
  | _ => none

/-- Matcher for `_ANY_XML_TAG = </?[a-zA-Z][^>]{0,80}>` (audio_producer.py
line 46).  The optional `/` can be consumed deterministically: if it is
present the slash-less alternative would need `/` to be a letter. -/
def matchXmlTag : List Char → Option (List Char)
  | '<' :: rest =>
    let rest1 := match rest with
      | '/' :: r => r
      | r => r
    match rest1 with
    | [] => none
    | a :: r2 =>
      if isUpperAZ a || isLowerAZ a then
        let content := r2.takeWhile (fun c => c ≠ '>')
        if content.length ≤ 80 then
          match r2.dropWhile (fun c => c ≠ '>') with
          | '>' :: after => some after
          | _ => none
        else none
      else none
  | _ => none

/-! ## Fuelled substitution engine

`re.sub` scans left to right; at a match it emits the replacement and
resumes after the match, otherwise it copies one character.  Every matcher
above consumes at least one character, so fuel equal to the input length
suffices and the fuel-exhausted branch is never reached from `subM`. -/

/-- Fuelled scanner realising `re.sub(pattern, repl, text)` for a matcher
that consumes at least one character per match. -/
def subF (m : List Char → Option (List Char)) (repl : List Char) :
    Nat → List Char → List Char
  | 0, l => l
  | _ + 1, [] => []
  | fuel + 1, c :: cs =>
    match m (c :: cs) with
    | some rest => repl ++ subF m repl fuel rest
    | none => c :: subF m repl fuel cs

/-- Substitution with adequate fuel. -/
def subM (m : List Char → Option (List Char)) (repl : List Char)
    (l : List Char) : List Char :=
  subF m repl l.length l

/-! ## The seven normalizer steps

Direct translation of `_clean_text_for_tts` (audio_producer.py lines
111-153). -/

/-- Step 1: convert the six known expressive tags to speech sounds. -/
def step1 (l : List Char) : List Char :=
  let t := subM matchLaughTag (chars "ha ha, ") l
  let t := subM matchLightTag (chars "heh, ") t
  let t := subM matchSighTag (chars "hmm, ") t
  let t := subM matchGaspTag (chars "oh! ") t
  let t := subM matchShortPauseTag (chars ", ") t
  subM matchPauseTag (chars "... ") t

/-- Step 2: strip all remaining `[anything]` tags. -/
def step2 (l : List Char) : List Char := subM matchBracketTag [] l

/-- Step 3: strip XML-style tags. -/
def step3 (l : List Char) : List Char := subM matchXmlTag [] l

/-- Step 4: `text.replace("**", "").replace("*", "")` — the composition
removes every asterisk. -/
def step4 (l : List Char) : List Char := l.filter (fun c => c ≠ '*')

/-- The `_KNOWN_ACRONYMS` set of `_clean_text_for_tts` step 5. -/
def KNOWN_ACRONYMS : List (List Char) :=
  [chars "IVR", chars "OBD", chars "CLI", chars "BNG", chars "DTMF",
   chars "USSD", chars "SMS", chars "CTA", chars "AI", chars "EVA", chars "INR"]

/-- Python `str.capitalize` on a run of uppercase letters: first character
kept (it is already uppercase), the rest lowercased. -/
def capWord : List Char → List Char
  | [] => []
  | c :: cs => c :: cs.map Char.toLower

/-- The `_fix_caps` replacement function of step 5. -/
def fixCaps (w : List Char) : List Char :=
  if w ∈ KNOWN_ACRONYMS then w else capWord w

/-- Flush a candidate all-caps run at a closing word boundary: the pattern
`\b[A-Z]{2,}\b` additionally requires length at least 2. -/
def flushRun (acc : List Char) : List Char :=
  if 2 ≤ acc.length then fixCaps acc else acc

/-- Scanner for `re.sub(r"\b[A-Z]{2,}\b", _fix_caps, text)`.  The first
component is the uppercase run currently being collected (it always started
at a word boundary); the boolean records whether the previous character was
a word character, which decides `\b` at the current position. -/
def recaseA : Option (List Char) → Bool → List Char → List Char
  | none, _, [] => []
  | some acc, _, [] => flushRun acc
  | none, prevW, c :: cs =>
    if !prevW && isUpperAZ c then recaseA (some [c]) true cs
    else c :: recaseA none (isWordChar c) cs
  | some acc, _, c :: cs =>
    if isUpperAZ c then recaseA (some (acc ++ [c])) true cs
    else if isWordChar c then acc ++ c :: recaseA none true cs
    else flushRun acc ++ c :: recaseA none false cs

/-- Step 5: re-case ALL-CAPS words outside the acronym allow-list. -/
def step5 (l : List Char) : List Char := recaseA none false l

/-- Literal (case-sensitive) prefix test. -/
def litPre : List Char → List Char → Bool
  | [], _ => true
  | _ :: _, [] => false
  | p :: ps, c :: cs => p = c && litPre ps cs

/-- The `_PRONUNCIATION_FIXES` table (audio_producer.py lines 99-108). -/
def PRONUNCIATION_FIXES : List (List Char × List Char) :=
  [(chars "IVR", chars "I V R"), (chars "OBD", chars "O B D"),
   (chars "CLI", chars "C L I"), (chars "BNG", chars "B N G"),
   (chars "DTMF", chars "D T M F"), (chars "USSD", chars "U S S D"),
   (chars "SMS", chars "S M S"), (chars "CTA", chars "C T A")]

/-- Fuelled scanner for `re.sub(r"\bPAT\b", repl, text)` with a literal
word `PAT` whose characters are letters.  After a match the scan resumes
after the matched word, whose last character is a word character. -/
def wordSubF (pat repl : List Char) : Nat → Bool → List Char → List Char
  | 0, _, l => l
  | _ + 1, _, [] => []
  | fuel + 1, prevW, c :: cs =>
    if !prevW && litPre pat (c :: cs) &&
        (match (c :: cs).drop pat.length with
         | [] => true
         | d :: _ => !isWordChar d) then
      repl ++ wordSubF pat repl fuel true ((c :: cs).drop pat.length)
    else
      c :: wordSubF pat repl fuel (isWordChar c) cs

/-- Whole-word substitution with adequate fuel. -/
def wordSub (pat repl l : List Char) : List Char :=
  wordSubF pat repl l.length false l

/-- Step 6: apply the pronunciation fixes in table order. -/
def step6 (l : List Char) : List Char :=
  PRONUNCIATION_FIXES.foldl (fun t pr => wordSub pr.1 pr.2 t) l

/-- State of the whitespace-collapsing scanner: outside whitespace, after
exactly one pending whitespace character, or inside a run of length at
least two. -/
inductive WsState
  | norm
  | pend (c : Char)
  | run
deriving Repr, DecidableEq

/-- Scanner for `re.sub(r"\s{2,}", " ", text)`: a whitespace run of length
at least two becomes a single space, a single whitespace character is kept
as itself. -/
def collapseA : WsState → List Char → List Char
  | .norm, [] => []
  | .pend w, [] => [w]
  | .run, [] => [' ']
  | .norm, c :: cs => if pyWs c then collapseA (.pend c) cs else c :: collapseA .norm cs
  | .pend w, c :: cs => if pyWs c then collapseA .run cs else w :: c :: collapseA .norm cs
  | .run, c :: cs => if pyWs c then collapseA .run cs else ' ' :: c :: collapseA .norm cs

/-- Whitespace collapse with initial state. -/
def collapseWs (l : List Char) : List Char := collapseA .norm l

/-- Python `str.strip()`: drop whitespace from both ends. -/
def stripEnds (l : List Char) : List Char :=
  ((l.dropWhile pyWs).reverse.dropWhile pyWs).reverse

/-- The punctuation class `[,.]` of step 7. -/
def isPunct (c : Char) : Bool := c = ',' || c = '.'

/-- Scanner for `re.sub(r"\s+([,.])", r"\1", text)`.  The first argument
holds the pending whitespace run (reversed); it is dropped when a comma or
period follows, and re-emitted otherwise. -/
def fixPunctA : List Char → List Char → List Char
  | pend, [] => pend.reverse
  | pend, c :: cs =>
    if pyWs c then fixPunctA (c :: pend) cs
    else if isPunct c && !pend.isEmpty then c :: fixPunctA [] cs
    else pend.reverse ++ c :: fixPunctA [] cs

/-- Whitespace-before-punctuation fix with empty initial pending run. -/
def fixPunct (l : List Char) : List Char := fixPunctA [] l

/-- Step 7: collapse repeated whitespace and `strip()`, fix orphaned
punctuation spacing, strip the leading `[,.\s]+` run. -/
def step7 (l : List Char) : List Char :=
  let t := stripEnds (collapseWs l)
  let t := fixPunct t
  t.dropWhile (fun c => isPunct c || pyWs c)

/-- Embedding of `_clean_text_for_tts` (audio_producer.py lines 111-153):
the seven steps applied in source order, step 6 only when
`apply_pronunciation_hacks` is set. -/
def cleanTextForTTS (applyPronunciationHacks : Bool) (l : List Char) : List Char :=
  let t := step1 l
  let t := step2 t
  let t := step3 t
  let t := step4 t
  let t := step5 t
  let t := if applyPronunciationHacks then step6 t else t
  step7 t

end ObdAudio

namespace ObdAudio

/-! ## Procedural music generators

Embedding of `_generate_upbeat_music`, `_generate_calm_music` and
`_generate_corporate_music` (audio_producer.py lines 429-598).  Python's
IEEE-double arithmetic is modelled exactly over `ℚ`; the only
transcendental ingredient, `math.sin(2 * math.pi * x)`, is kept as an
explicit parameter `osc` (every sine call in the source has a `2*pi*…`
argument).  The unseeded global PRNG behind `random.random()` is an
explicit stream `rand`, read at the sample index where the source calls
it; the calm and corporate generators never read it, matching the source.
-/

/-- Python `int()` on a (real) number: truncation toward zero, written
with floors only. -/
def ratTrunc (x : ℚ) : ℤ := if 0 ≤ x then ⌊x⌋ else -⌊-x⌋

/-- Python `%` on floats: floored modulo. -/
def qmod (a b : ℚ) : ℚ := a - b * ⌊a / b⌋

/-- Clipping to the valid signed 16-bit range,
`max(-32768, min(32767, v))`. -/
def clamp16 (x : ℤ) : ℤ := max (-32768) (min 32767 x)

/-- Little-endian packing of one clipped sample, `struct.pack("<h", v)`. -/
def pack16 (v : ℤ) : List ℕ :=
  let u := (v % 65536).toNat
  [u % 256, u / 256]

/-- Two bytes little-endian. -/
def le16 (n : ℕ) : List ℕ := [n % 256, n / 256 % 256]

/-- Four bytes little-endian. -/
def le32 (n : ℕ) : List ℕ :=
  [n % 256, n / 256 % 256, n / 65536 % 256, n / 16777216 % 256]

/-- ASCII bytes of a literal string. -/
def asciiBytes (s : String) : List ℕ := s.data.map Char.toNat

/-- Header bytes produced by the Python `wave` module for a 16-bit stereo
PCM file with the given sample rate and frame count. -/
def wavHeader (sampleRate numFrames : ℕ) : List ℕ :=
  let dataSize := numFrames * 4
  asciiBytes "RIFF" ++ le32 (36 + dataSize) ++ asciiBytes "WAVE" ++
  asciiBytes "fmt " ++ le32 16 ++ le16 1 ++ le16 2 ++ le32 sampleRate ++
  le32 (sampleRate * 4) ++ le16 4 ++ le16 16 ++ asciiBytes "data" ++ le32 dataSize

/-- One stereo frame of `_generate_upbeat_music` (lines 449-493). -/
def upbeatFrame (osc : ℚ → ℚ) (rand : ℕ → ℚ) (durationMs sampleRate : ℕ)
    (beatSamples : ℤ) (i : ℕ) : ℤ × ℤ :=
  let t : ℚ := (i : ℚ) / (sampleRate : ℚ)
  let beatPos : ℚ := (((i : ℤ) % beatSamples : ℤ) : ℚ) / ((beatSamples : ℤ) : ℚ)
  let fadeIn := min 1 (t / 1)
  let fadeOut := min 1 (((durationMs : ℚ) / 1000 - t) / (3/2))
  let masterEnv := fadeIn * fadeOut
  let bass0 := (osc (13081/100 * t) + osc (16481/100 * t) + osc (196 * t)) / 3
  let bassLfo := 7/10 + 3/10 * osc (1/5 * t)
  let bass := bass0 * bassLfo * (35/100)
  let arpFreqs : List ℚ := [52325/100, 65925/100, 78399/100, 65925/100]
  let arpIdx := ((ratTrunc (t * 4)) % 4).toNat
  let arpFreq := arpFreqs.getD arpIdx 0
  let arpEnv := max 0 (1 - qmod (t * 4) 1 * (5/2))
  let shimmer := osc (arpFreq * t) * arpEnv * (12/100)
  let kick :=
    if beatPos < 8/100 ∨ (1/2 ≤ beatPos ∧ beatPos < 58/100) then
      let kickEnv := max 0 (if beatPos < 1/2 then 1 - beatPos * 12 else 1 - (beatPos - 1/2) * 12)
      osc (60 * t * (1 + kickEnv * 2)) * kickEnv * (1/4)
    else 0
  let halfBeat : ℤ := beatSamples / 2
  let eighthPos : ℚ := (((i : ℤ) % halfBeat : ℤ) : ℚ) / ((halfBeat : ℤ) : ℚ)
  let hihat :=
    if eighthPos < 3/100 then
      (rand i * 2 - 1) * (6/100) * (1 - eighthPos / (3/100))
    else 0
  let sample := (bass + shimmer + kick + hihat) * masterEnv
  let left := sample + shimmer * (5/100)
  let right := sample - shimmer * (5/100)
  (clamp16 (ratTrunc (left * 28000)), clamp16 (ratTrunc (right * 28000)))

/-- Byte output of `_generate_upbeat_music`: WAV header plus interleaved
packed stereo frames. -/
def upbeatBytes (osc : ℚ → ℚ) (rand : ℕ → ℚ) (durationMs sampleRate : ℕ) : List ℕ :=
  let numSamples := (ratTrunc ((sampleRate : ℚ) * (durationMs : ℚ) / 1000)).toNat
  let beatSamples := ratTrunc ((sampleRate : ℚ) * 60 / 110)
  wavHeader sampleRate numSamples ++
    ((List.range numSamples).map (fun i =>
      let fr := upbeatFrame osc rand durationMs sampleRate beatSamples i
      pack16 fr.1 ++ pack16 fr.2)).flatten

/-- One stereo frame of `_generate_calm_music` (lines 511-536); the source
reads no randomness here. -/
def calmFrame (osc : ℚ → ℚ) (durationMs sampleRate : ℕ) (i : ℕ) : ℤ × ℤ :=
  let t : ℚ := (i : ℚ) / (sampleRate : ℚ)
  let fadeIn := min 1 (t / 2)
  let fadeOut := min 1 (((durationMs : ℚ) / 1000 - t) / (5/2))
  let masterEnv := fadeIn * fadeOut
  let arpFreqs : List ℚ := [220, 26163/100, 32963/100, 392, 32963/100, 26163/100]
  let arpIdx := ((ratTrunc (t * (3/2))) % 6).toNat
  let arpFreq := arpFreqs.getD arpIdx 0
  let arpEnv := max 0 (1 - qmod (t * (3/2)) 1 * (6/5))
  let phase := qmod (arpFreq * t) 1
  let tri := 2 * |2 * phase - 1| - 1
  let note := tri * arpEnv * (30/100)
  let pad0 := (osc (110 * t) + osc (13081/100 * t)) * (10/100)
  let pad := pad0 * (6/10 + 4/10 * osc (2/25 * t))
  let sample := (note + pad) * masterEnv
  let left := sample + note * (6/100)
  let right := sample - note * (6/100)
  (clamp16 (ratTrunc (left * 28000)), clamp16 (ratTrunc (right * 28000)))

/-- Byte output of `_generate_calm_music`. -/
def calmBytes (osc : ℚ → ℚ) (durationMs sampleRate : ℕ) : List ℕ :=
  let numSamples := (ratTrunc ((sampleRate : ℚ) * (durationMs : ℚ) / 1000)).toNat
  wavHeader sampleRate numSamples ++
    ((List.range numSamples).map (fun i =>
      let fr := calmFrame osc durationMs sampleRate i
      pack16 fr.1 ++ pack16 fr.2)).flatten

/-- One stereo frame of `_generate_corporate_music` (lines 555-588); the
source reads no randomness here. -/
def corporateFrame (osc : ℚ → ℚ) (durationMs sampleRate : ℕ)
    (beatSamples : ℤ) (i : ℕ) : ℤ × ℤ :=
  let t : ℚ := (i : ℚ) / (sampleRate : ℚ)
  let beatPos : ℚ := (((i : ℤ) % beatSamples : ℤ) : ℚ) / ((beatSamples : ℤ) : ℚ)
  let fadeIn := min 1 (t / 1)
  let fadeOut := min 1 (((durationMs : ℚ) / 1000 - t) / (3/2))
  let masterEnv := fadeIn * fadeOut
  let pad0 := (osc (29366/100 * t) + osc (36999/100 * t) + osc (440 * t)) / 3
  let pad := pad0 * ((8/10 + 2/10 * osc (3/10 * t)) * (30/100))
  let click :=
    if beatPos < 15/1000 then
      let clickEnv := 1 - beatPos / (15/1000)
      osc (1200 * t) * clickEnv * (15/100)
    else 0
  let sub :=
    if beatPos < 8/100 ∨ (1/2 ≤ beatPos ∧ beatPos < 58/100) then
      let subEnv := max 0 (if beatPos < 1/2 then 1 - beatPos * 10 else 1 - (beatPos - 1/2) * 10)
      osc (55 * t) * subEnv * (18/100)
    else 0
  let fourBeat : ℚ := (((i : ℤ) % (beatSamples * 4) : ℤ) : ℚ) / (((beatSamples * 4 : ℤ)) : ℚ)
  let rise := osc ((600 + 200 * fourBeat) * t) * (3/100) * (1 - fourBeat)
  let sample := (pad + click + sub + rise) * masterEnv
  let left := sample + rise * (4/100)
  let right := sample - rise * (4/100)
  (clamp16 (ratTrunc (left * 28000)), clamp16 (ratTrunc (right * 28000)))

/-- Byte output of `_generate_corporate_music`. -/
def corporateBytes (osc : ℚ → ℚ) (durationMs sampleRate : ℕ) : List ℕ :=
  let numSamples := (ratTrunc ((sampleRate : ℚ) * (durationMs : ℚ) / 1000)).toNat
  let beatSamples := ratTrunc ((sampleRate : ℚ) * 60 / 100)
  wavHeader sampleRate numSamples ++
    ((List.range numSamples).map (fun i =>
      let fr := corporateFrame osc durationMs sampleRate beatSamples i
      pack16 fr.1 ++ pack16 fr.2)).flatten

/-- The `BGM_GENERATORS` dispatch (lines 594-598), including the
`.get(style, _generate_upbeat_music)` default used by the mixer. -/
def bgmGenerate (osc : ℚ → ℚ) (rand : ℕ → ℚ) (style : String)
    (durationMs sampleRate : ℕ) : List ℕ :=
  if style = "upbeat" then upbeatBytes osc rand durationMs sampleRate
  else if style = "calm" then calmBytes osc durationMs sampleRate
  else if style = "corporate" then corporateBytes osc durationMs sampleRate
  else upbeatBytes osc rand durationMs sampleRate

/-- The everywhere-zero oscillator; it satisfies the sine bound `|osc x| ≤ 1`. -/
def oscZero : ℚ → ℚ := fun _ => 0

/-- PRNG stream that always returned 0. -/
def randZero : ℕ → ℚ := fun _ => 0

/-- PRNG stream that always returned one half. -/
def randHalf : ℕ → ℚ := fun _ => 1/2

end ObdAudio

namespace ObdAudio

/-! ## Claims C6 (counterexample) and C2 -/

/-- Input exhibiting non-idempotence of the normalizer: an outer bracket tag
whose content is too long for the 30-character bound of `_ANY_BRACKET_TAG`
until an inner tag has been stripped by the first pass. -/
def c6Input : List Char := '[' :: (List.replicate 29 'a' ++ chars "[x]]")

/-- Claim C6, as stated — for all input text `x` and a fixed value of the
`apply_pronunciation_hacks` flag, `_clean_text_for_tts` is idempotent — is
false: on `c6Input` the first pass strips only the inner `[x]` tag, leaving
a bracket tag of content length 29 which the second pass strips as well. -/
theorem c6_counterexample :
    ¬ ∀ (hacks : Bool) (x : List Char),
        cleanTextForTTS hacks (cleanTextForTTS hacks x) = cleanTextForTTS hacks x := by
  intro h
  exact absurd (h true c6Input) (by decide)

/-- Length of a flattened list of constant-length chunks. -/
theorem length_flatten_chunks (L : ℕ) (f : ℕ → List ℕ)
    (hf : ∀ i, (f i).length = L) :
    ∀ n, (((List.range n).map f).flatten).length = n * L := by
  intro n
  induction n with
  | zero => simp
  | succ n ih =>
    rw [List.range_succ]
    simp [ih, hf, Nat.succ_mul]

/-- Two flattenings of equally many constant-length chunks agree chunkwise
when they are equal. -/
theorem flatten_chunks_eq_of (L : ℕ) (f g : ℕ → List ℕ)
    (hf : ∀ i, (f i).length = L) (hg : ∀ i, (g i).length = L) :
    ∀ n, ((List.range n).map f).flatten = ((List.range n).map g).flatten →
      ∀ k, k < n → f k = g k := by
  intro n
  induction n with
  | zero => exact fun _ k hk => absurd hk (Nat.not_lt_zero k)
  | succ n ih =>
    intro h k hk
    rw [List.range_succ, List.map_append, List.map_append,
      List.flatten_append, List.flatten_append] at h
    have hlen : (((List.range n).map f).flatten).length
        = (((List.range n).map g).flatten).length := by
      rw [length_flatten_chunks L f hf, length_flatten_chunks L g hg]
    rcases List.append_inj h hlen with ⟨h1, h2⟩
    rcases Nat.lt_succ_iff_lt_or_eq.mp hk with hk2 | rfl
    · exact ih h1 k hk2
    · simpa using h2

/-- Claim C2, as stated — for every duration, style and sample rate, two
calls of the generator (any two PRNG states drawn from `[0,1)`) produce
byte-identical output — is false for the upbeat style: the hi-hat layer
multiplies a fresh `random.random()` value into the sample.  The oscillator
is universally quantified under the sine bound and instantiated with the
zero function; with duration 5000 ms and sample rate 11 the two runs differ
at sample index 3. -/
theorem c2_counterexample :
    ¬ ∀ (osc : ℚ → ℚ), (∀ x, |osc x| ≤ 1) →
      ∀ (style : String) (d sr : ℕ) (r₁ r₂ : ℕ → ℚ),
        (∀ n, 0 ≤ r₁ n ∧ r₁ n < 1) → (∀ n, 0 ≤ r₂ n ∧ r₂ n < 1) →
        bgmGenerate osc r₁ style d sr = bgmGenerate osc r₂ style d sr := by
  intro h
  have hz : ∀ x : ℚ, |oscZero x| ≤ 1 := fun x => by norm_num [oscZero]
  have h0 : ∀ n, 0 ≤ randZero n ∧ randZero n < 1 := fun n => by norm_num [randZero]
  have hh : ∀ n, 0 ≤ randHalf n ∧ randHalf n < 1 := fun n => by norm_num [randHalf]
  have heq := h oscZero hz "upbeat" 5000 11 randZero randHalf h0 hh
  rw [bgmGenerate, bgmGenerate, if_pos rfl, if_pos rfl, upbeatBytes, upbeatBytes] at heq
  have hfl := List.append_cancel_left heq
  have hnum : (ratTrunc (((11 : ℕ) : ℚ) * ((5000 : ℕ) : ℚ) / 1000)).toNat = 55 := by
    have h55 : ratTrunc (((11 : ℕ) : ℚ) * ((5000 : ℕ) : ℚ) / 1000) = 55 := by
      norm_num [ratTrunc]
    rw [h55]
    decide
  have hchunk := flatten_chunks_eq_of 4 _ _
    (fun i => by simp [pack16]) (fun i => by simp [pack16]) _ hfl 3 (by rw [hnum]; norm_num)
  have hB : ratTrunc (((11 : ℕ) : ℚ) * 60 / 110) = 6 := by norm_num [ratTrunc]
  rw [hB] at hchunk
  have hz1 : upbeatFrame oscZero randZero 5000 11 6 3 = (-458, -458) := by
    norm_num [upbeatFrame, oscZero, randZero, ratTrunc, qmod, clamp16, min_def, max_def]
  have hz2 : upbeatFrame oscZero randHalf 5000 11 6 3 = (0, 0) := by
    norm_num [upbeatFrame, oscZero, randHalf, ratTrunc, qmod, clamp16, min_def, max_def]
  rw [hz1, hz2] at hchunk
  simp only [pack16] at hchunk
  rcases List.cons.inj hchunk with ⟨h1, -⟩
  omega

/-- Claim C2, amended: the calm and corporate generators are deterministic
functions of duration, style and sample rate — they never read the PRNG
stream — so two calls with any two PRNG states are byte-identical.  (The
upbeat generator is excluded: its hi-hat layer reads the PRNG.) -/
theorem c2_amended (osc : ℚ → ℚ) (d sr : ℕ) (r₁ r₂ : ℕ → ℚ) :
    bgmGenerate osc r₁ "calm" d sr = bgmGenerate osc r₂ "calm" d sr ∧
    bgmGenerate osc r₁ "corporate" d sr = bgmGenerate osc r₂ "corporate" d sr := by
  constructor <;> simp [bgmGenerate]

end ObdAudio

namespace ObdAudio

/-! ## Voice tables

Literal translations of the module-level tables of `audio_producer.py`, in
source order (Python dicts preserve insertion order, which the
language-substring fallback loops rely on). -/

/-- Association-list lookup modelling a Python dict key lookup. -/
def lookupA {α : Type} : List (String × α) → String → Option α
  | [], _ => none
  | (k, v) :: t, key => if k = key then some v else lookupA t key

/-- Python substring test `p in l`. -/
def litSub (p : List Char) : List Char → Bool
  | [] => p.isEmpty
  | c :: cs => litPre p (c :: cs) || litSub p cs

/-- Python `str.lower()` (ASCII). -/
def pyLower (s : String) : String := String.mk (s.data.map Char.toLower)

/-- Python `str.strip()`. -/
def pyStrip (s : String) : String := String.mk (stripEnds s.data)

/-- The `EDGE_VOICE_MAP` table (lines 48-75). -/
def EDGE_VOICE_MAP : List (String × String) :=
  [("en-IN", "en-IN-NeerjaNeural"), ("en-NG", "en-NG-EzinneNeural"),
   ("en-KE", "en-KE-AsiliaNeural"), ("en-TZ", "en-TZ-ImaniNeural"),
   ("en-ZA", "en-ZA-LeahNeural"), ("en-GH", "en-GH-EsiNeural"),
   ("en-US", "en-US-AriaNeural"), ("en-GB", "en-GB-SoniaNeural"),
   ("fr-FR", "fr-FR-DeniseNeural"), ("fr-CM", "fr-FR-DeniseNeural"),
   ("fr-SN", "fr-FR-DeniseNeural"), ("fr-CD", "fr-FR-DeniseNeural"),
   ("sw-KE", "sw-KE-ZuriNeural"), ("sw-TZ", "sw-TZ-RehemaNeural"),
   ("am-ET", "am-ET-MekdesNeural"), ("hi-IN", "hi-IN-SwaraNeural"),
   ("bn-IN", "bn-IN-TanishaaNeural"), ("ta-IN", "ta-IN-PallaviNeural"),
   ("te-IN", "te-IN-ShrutiNeural"), ("ur-PK", "ur-PK-UzmaNeural"),
   ("id-ID", "id-ID-GadisNeural"), ("fil-PH", "fil-PH-BlessicaNeural"),
   ("pt-BR", "pt-BR-FranciscaNeural"), ("ar-SA", "ar-SA-ZariyahNeural"),
   ("zu-ZA", "zu-ZA-ThandoNeural"), ("so-SO", "so-SO-UbaxNeural")]

/-- The `COUNTRY_LOCALE` table (lines 77-86). -/
def COUNTRY_LOCALE : List (String × String) :=
  [("India", "en-IN"), ("Nigeria", "en-NG"), ("Kenya", "en-KE"),
   ("Tanzania", "en-TZ"), ("South Africa", "en-ZA"), ("Ghana", "en-GH"),
   ("Cameroon", "fr-CM"), ("Senegal", "fr-SN"), ("Congo (DRC)", "fr-CD"),
   ("Congo (Republic)", "fr-CD"), ("Ethiopia", "am-ET"),
   ("Mozambique", "pt-BR"), ("Rwanda", "en-KE"), ("Uganda", "en-KE"),
   ("Zambia", "en-ZA"), ("Zimbabwe", "en-ZA"), ("Botswana", "en-ZA"),
   ("Somalia", "so-SO"), ("Bangladesh", "bn-IN"), ("Pakistan", "ur-PK"),
   ("Indonesia", "id-ID"), ("Philippines", "fil-PH")]

/-- The `SECTION_PROSODY` table (lines 89-94): section type to
(rate, pitch). -/
def SECTION_PROSODY : List (String × (String × String)) :=
  [("main", ("-3%", "+2Hz")), ("fallback1", ("+0%", "+3Hz")),
   ("fallback2", ("-2%", "+1Hz")), ("closure", ("-5%", "-1Hz"))]

/-- The `LANGUAGE_TO_LOCALE` table (lines 157-164). -/
def LANGUAGE_TO_LOCALE : List (String × String) :=
  [("hindi", "hi-IN"), ("hinglish", "hi-IN"), ("english", "en-US"),
   ("tamil", "ta-IN"), ("telugu", "te-IN"), ("bengali", "bn-IN"),
   ("urdu", "ur-PK"), ("swahili", "sw-KE"), ("kiswahili", "sw-KE"),
   ("amharic", "am-ET"), ("french", "fr-FR"), ("arabic", "ar-SA"),
   ("portuguese", "pt-BR"), ("indonesian", "id-ID"), ("filipino", "fil-PH"),
   ("somali", "so-SO"), ("zulu", "zu-ZA"), ("afrikaans", "en-ZA")]

/-- The `EDGE_VOICE_POOL` table (lines 169-240): locale to three
(voice id, label) pairs. -/
def EDGE_VOICE_POOL : List (String × List (String × String)) :=
  [("en-IN",
    [("en-IN-NeerjaNeural", "Neerja (Female)"),
     ("en-IN-PrabhatNeural", "Prabhat (Male)"),
     ("en-IN-NeerjaExpressiveNeural", "Neerja Expressive (Female)")]),
   ("hi-IN",
    [("hi-IN-SwaraNeural", "Swara (Female)"),
     ("hi-IN-MadhurNeural", "Madhur (Male)"),
     ("hi-IN-SwaraNeural", "Swara Alt (Female)")]),
   ("ta-IN",
    [("ta-IN-PallaviNeural", "Pallavi (Female)"),
     ("ta-IN-ValluvarNeural", "Valluvar (Male)"),
     ("ta-IN-PallaviNeural", "Pallavi Alt (Female)")]),
   ("te-IN",
    [("te-IN-ShrutiNeural", "Shruti (Female)"),
     ("te-IN-MohanNeural", "Mohan (Male)"),
     ("te-IN-ShrutiNeural", "Shruti Alt (Female)")]),
   ("bn-IN",
    [("bn-IN-TanishaaNeural", "Tanishaa (Female)"),
     ("bn-IN-BashkarNeural", "Bashkar (Male)"),
     ("bn-IN-TanishaaNeural", "Tanishaa Alt (Female)")]),
   ("en-NG",
    [("en-NG-EzinneNeural", "Ezinne (Female)"),
     ("en-NG-AbeoNeural", "Abeo (Male)"),
     ("en-NG-EzinneNeural", "Ezinne Alt (Female)")]),
   ("en-KE",
    [("en-KE-AsiliaNeural", "Asilia (Female)"),
     ("en-KE-ChilembaNeural", "Chilemba (Male)"),
     ("en-KE-AsiliaNeural", "Asilia Alt (Female)")]),
   ("en-US",
    [("en-US-AriaNeural", "Aria (Female)"),
     ("en-US-GuyNeural", "Guy (Male)"),
     ("en-US-JennyNeural", "Jenny (Female)")]),
   ("en-GB",
    [("en-GB-SoniaNeural", "Sonia (Female)"),
     ("en-GB-RyanNeural", "Ryan (Male)"),
     ("en-GB-LibbyNeural", "Libby (Female)")]),
   ("fr-FR",
    [("fr-FR-DeniseNeural", "Denise (Female)"),
     ("fr-FR-HenriNeural", "Henri (Male)"),
     ("fr-FR-EloiseNeural", "Eloise (Female)")]),
   ("pt-BR",
    [("pt-BR-FranciscaNeural", "Francisca (Female)"),
     ("pt-BR-AntonioNeural", "Antonio (Male)"),
     ("pt-BR-FranciscaNeural", "Francisca Alt (Female)")]),
   ("ur-PK",
    [("ur-PK-UzmaNeural", "Uzma (Female)"),
     ("ur-PK-AsadNeural", "Asad (Male)"),
     ("ur-PK-UzmaNeural", "Uzma Alt (Female)")]),
   ("id-ID",
    [("id-ID-GadisNeural", "Gadis (Female)"),
     ("id-ID-ArdiNeural", "Ardi (Male)"),
     ("id-ID-GadisNeural", "Gadis Alt (Female)")]),
   ("sw-KE",
    [("sw-KE-ZuriNeural", "Zuri (Female)"),
     ("sw-KE-RafikiNeural", "Rafiki (Male)"),
     ("sw-KE-ZuriNeural", "Zuri Alt (Female)")])]

/-- The `MURF_VOICE_POOL` table (lines 242-284): language to three
(voice id, locale, style, label) tuples. -/
def MURF_VOICE_POOL : List (String × List (String × String × String × String)) :=
  [("hindi",
    [("hi-IN-ayushi", "hi-IN", "Conversational", "Ayushi (Female)"),
     ("hi-IN-kabir", "hi-IN", "Conversational", "Kabir (Male)"),
     ("en-IN-arohi", "en-IN", "Promo", "Arohi (Female)")]),
   ("hinglish",
    [("hi-IN-ayushi", "hi-IN", "Conversational", "Ayushi (Female)"),
     ("hi-IN-kabir", "hi-IN", "Conversational", "Kabir (Male)"),
     ("en-IN-arohi", "en-IN", "Promo", "Arohi (Female)")]),
   ("english",
    [("en-IN-arohi", "en-IN", "Promo", "Arohi (Female)"),
     ("en-US-zion", "en-US", "Conversational", "Zion (Male)"),
     ("en-US-samantha", "en-US", "Promo", "Samantha (Female)")]),
   ("tamil",
    [("ta-IN-iniya", "ta-IN", "Conversational", "Iniya (Female)"),
     ("en-IN-arohi", "en-IN", "Promo", "Arohi (Female)"),
     ("en-US-zion", "en-US", "Conversational", "Zion (Male)")]),
   ("telugu",
    [("en-IN-arohi", "en-IN", "Promo", "Arohi (Female)"),
     ("en-US-zion", "en-US", "Conversational", "Zion (Male)"),
     ("en-US-samantha", "en-US", "Promo", "Samantha (Female)")]),
   ("bengali",
    [("bn-IN-anwesha", "bn-IN", "Conversational", "Anwesha (Female)"),
     ("en-IN-arohi", "en-IN", "Promo", "Arohi (Female)"),
     ("en-US-zion", "en-US", "Conversational", "Zion (Male)")]),
   ("french",
    [("fr-FR-adélie", "fr-FR", "Narration", "Adélie (Female)"),
     ("fr-FR-axel", "fr-FR", "Narration", "Axel (Male)"),
     ("fr-FR-louise", "fr-FR", "Narration", "Louise (Female)")]),
   ("portuguese",
    [("pt-BR-isadora", "pt-BR", "Conversational", "Isadora (Female)"),
     ("en-US-zion", "en-US", "Conversational", "Zion (Male)"),
     ("en-US-samantha", "en-US", "Promo", "Samantha (Female)")])]

/-- The `MURF_VOICE_MAP` table (lines 359-377): language to
(voice id, locale, style). -/
def MURF_VOICE_MAP : List (String × (String × String × String)) :=
  [("hindi", ("hi-IN-ayushi", "hi-IN", "Conversational")),
   ("hinglish", ("hi-IN-ayushi", "hi-IN", "Conversational")),
   ("tamil", ("ta-IN-iniya", "ta-IN", "Conversational")),
   ("telugu", ("en-IN-arohi", "te-IN", "Promo")),
   ("bengali", ("bn-IN-anwesha", "bn-IN", "Conversational")),
   ("kannada", ("en-UK-hazel", "kn-IN", "Conversational")),
   ("malayalam", ("en-IN-arohi", "en-IN", "Promo")),
   ("marathi", ("en-IN-arohi", "en-IN", "Promo")),
   ("punjabi", ("en-IN-arohi", "en-IN", "Promo")),
   ("gujarati", ("bn-IN-anwesha", "gu-IN", "Conversational")),
   ("english", ("en-IN-arohi", "en-IN", "Promo")),
   ("french", ("fr-FR-adélie", "fr-FR", "Narration")),
   ("portuguese", ("pt-BR-isadora", "pt-BR", "Conversational")),
   ("indonesian", ("en-US-zion", "id-ID", "Conversational")),
   ("filipino", ("en-IN-arohi", "en-IN", "Promo")),
   ("german", ("de-DE-josephine", "de-DE", "Promo")),
   ("spanish", ("en-US-samantha", "es-ES", "Promo"))]

/-- The `MURF_COUNTRY_VOICE` table (lines 379-395). -/
def MURF_COUNTRY_VOICE : List (String × (String × String × String)) :=
  [("India", ("en-IN-arohi", "en-IN", "Promo")),
   ("Nigeria", ("en-US-samantha", "en-US", "Promo")),
   ("Kenya", ("en-US-samantha", "en-US", "Promo")),
   ("Tanzania", ("en-US-samantha", "en-US", "Promo")),
   ("South Africa", ("en-US-samantha", "en-US", "Promo")),
   ("Ghana", ("en-US-samantha", "en-US", "Promo")),
   ("Ethiopia", ("en-US-samantha", "en-US", "Promo")),
   ("Cameroon", ("fr-FR-adélie", "fr-FR", "Narration")),
   ("Senegal", ("fr-FR-adélie", "fr-FR", "Narration")),
   ("Congo (DRC)", ("fr-FR-adélie", "fr-FR", "Narration")),
   ("Mozambique", ("pt-BR-isadora", "pt-BR", "Conversational")),
   ("Bangladesh", ("bn-IN-anwesha", "bn-IN", "Conversational")),
   ("Pakistan", ("en-US-samantha", "en-US", "Promo")),
   ("Indonesia", ("en-US-zion", "id-ID", "Conversational")),
   ("Philippines", ("en-IN-arohi", "en-IN", "Promo"))]

/-- The `lang_for_country` fallback mapping inside `_get_murf_voice_pool`
(lines 326-330). -/
def MURF_LANG_FOR_COUNTRY : List (String × String) :=
  [("India", "english"), ("Nigeria", "english"), ("Kenya", "english"),
   ("Cameroon", "french"), ("Senegal", "french"), ("Mozambique", "portuguese"),
   ("Bangladesh", "bengali")]

/-! ## Locale resolution and voice pools -/

/-- Language-to-locale resolution inside `_get_edge_voice_pool` (lines
289-298): exact key lookup first, then the first key that is a substring
of the lowered language. -/
def findLangLocale (ll : String) : Option String :=
  match lookupA LANGUAGE_TO_LOCALE ll with
  | some loc => some loc
  | none =>
    (LANGUAGE_TO_LOCALE.find? (fun kv => litSub kv.1.data ll.data)).map (fun kv => kv.2)

/-- Locale choice of `_get_edge_voice_pool` (lines 289-300); an absent or
empty language string falls back to the country table with default
`en-US`. -/
def localeFor (country : String) (language : Option String) : String :=
  let viaLang : Option String :=
    match language with
    | some lg => if lg ≠ "" then findLangLocale (pyStrip (pyLower lg)) else none
    | none => none
  match viaLang with
  | some loc => loc
  | none => (lookupA COUNTRY_LOCALE country).getD "en-US"

/-- Python `locale.split("-")[0]`: the prefix before the first dash. -/
def headDash (s : String) : String := String.mk (s.data.takeWhile (fun c => c ≠ '-'))

/-- Embedding of `_get_edge_voice_pool` (lines 287-312). -/
def getEdgeVoicePool (country : String) (language : Option String) :
    List (String × String) :=
  let locale := localeFor country language
  match lookupA EDGE_VOICE_POOL locale with
  | some pool => pool
  | none =>
    let pre := if locale = "" then "" else headDash locale
    match EDGE_VOICE_POOL.find? (fun kv => litPre (pre.data ++ ['-']) kv.1.data) with
    | some kv => kv.2
    | none =>
      let primary := (lookupA EDGE_VOICE_MAP locale).getD "en-US-AriaNeural"
      [(primary, "Voice 1"), (primary, "Voice 2"), (primary, "Voice 3")]

/-- Language branch of `_get_murf_voice_pool` (lines 317-323): exact key
first, then the first key that is a substring of the lowered language. -/
def murfPoolViaLang (language : Option String) :
    Option (List (String × String × String × String)) :=
  match language with
  | some lg =>
    if lg ≠ "" then
      let ll := pyStrip (pyLower lg)
      match lookupA MURF_VOICE_POOL ll with
      | some pool => some pool
      | none =>
        (MURF_VOICE_POOL.find? (fun kv => litSub kv.1.data ll.data)).map (fun kv => kv.2)
    else none
  | none => none

/-- Embedding of `_get_murf_voice_pool` (lines 315-335). -/
def getMurfVoicePool (country : String) (language : Option String) :
    List (String × String × String × String) :=
  match murfPoolViaLang language with
  | some pool => pool
  | none =>
    let mapped := (lookupA MURF_LANG_FOR_COUNTRY country).getD "english"
    match lookupA MURF_VOICE_POOL mapped with
    | some pool => pool
    | none => (lookupA MURF_VOICE_POOL "english").getD []

/-- Embedding of `_pick_edge_voice` (lines 338-354).  A language match is
only taken when its locale is also a key of `EDGE_VOICE_MAP`. -/
def pickEdgeVoice (country : String) (language : Option String) : String :=
  let viaLang : Option String :=
    match language with
    | some lg =>
      if lg ≠ "" then
        let ll := pyStrip (pyLower lg)
        let direct : Option String :=
          match lookupA LANGUAGE_TO_LOCALE ll with
          | some loc => lookupA EDGE_VOICE_MAP loc
          | none => none
        match direct with
        | some v => some v
        | none =>
          ((LANGUAGE_TO_LOCALE.filter (fun kv => litSub kv.1.data ll.data)).filterMap
            (fun kv => lookupA EDGE_VOICE_MAP kv.2)).head?
      else none
    | none => none
  match viaLang with
  | some v => v
  | none =>
    (lookupA EDGE_VOICE_MAP ((lookupA COUNTRY_LOCALE country).getD "en-US")).getD
      "en-US-AriaNeural"

/-- Embedding of `_pick_murf_voice` (lines 410-426). -/
def pickMurfVoice (country : String) (language : Option String) :
    String × String × String :=
  let viaLang : Option (String × String × String) :=
    match language with
    | some lg =>
      if lg ≠ "" then
        let ll := pyStrip (pyLower lg)
        match lookupA MURF_VOICE_MAP ll with
        | some v => some v
        | none =>
          (MURF_VOICE_MAP.find? (fun kv => litSub kv.1.data ll.data)).map (fun kv => kv.2)
      else none
    | none => none
  match viaLang with
  | some v => v
  | none =>
    match lookupA MURF_COUNTRY_VOICE country with
    | some v => v
    | none => ("en-IN-arohi", "en-IN", "Promo")

end ObdAudio

namespace ObdAudio

/-! ## Engine resolution

Embedding of `AudioProducerAgent._resolve_engine` (audio_producer.py lines
899-989).  Credentials come from `backend/config.py`; the quota probe
`_check_elevenlabs_quota` and the voice validator `_validate_voice_id` are
network calls and enter as oracles (both swallow their own exceptions in the
source, so they are total here).  The one statement that can raise is the
unchecked subscript `voice_selection["selected_voice"]["voice_id"]`, hence
the `Except` result. -/

/-- The `ELEVENLABS_TTS_MODEL` constant of `backend/config.py`. -/
def ELEVENLABS_TTS_MODEL : String := "eleven_multilingual_v2"

/-- Credential configuration read from `backend/config.py`: a missing key
is the empty string (`_get_secret` defaults to `""`). -/
structure Config where
  murfApiKey : String
  elevenApiKey : String
deriving Repr, DecidableEq

/-- Embedding of `_has_elevenlabs_credits` (lines 654-659). -/
def hasElevenCredits (cfg : Config) : Bool :=
  cfg.elevenApiKey ≠ "" && !litPre (chars "sk-dummy") cfg.elevenApiKey.data
    && 10 < cfg.elevenApiKey.data.length

/-- The tunable `voice_settings` dictionary: each key may be absent. -/
structure VoiceSettings where
  stability : Option ℚ := none
  similarityBoost : Option ℚ := none
  style : Option ℚ := none
deriving Repr, DecidableEq

/-- The `selected_voice` sub-dictionary of a voice selection. -/
structure SelectedVoice where
  name : Option String := none
  voiceId : Option String := none
deriving Repr, DecidableEq

/-- One entry of `alternative_voices`. -/
structure AltVoice where
  voiceId : Option String := none
  name : Option String := none
deriving Repr, DecidableEq

/-- The `elevenlabs_api_params` sub-dictionary. -/
structure ElApiParams where
  modelId : Option String := none
deriving Repr, DecidableEq

/-- The `voice_selection` input dictionary. -/
structure VoiceSelection where
  selectedVoice : Option SelectedVoice := none
  voiceSettings : VoiceSettings := {}
  elevenLabsApiParams : ElApiParams := {}
  alternativeVoices : List AltVoice := []
deriving Repr, DecidableEq

/-- One entry of the resolved `voice_pool` list: the engine-specific voice
keys merged into a job by `job.update(voice_pool[i])`. -/
structure PoolEntry where
  edgeVoice : Option String := none
  murfVoiceId : Option String := none
  murfLocale : Option String := none
  murfStyle : Option String := none
  elVoiceId : Option String := none
  voiceLabel : String
deriving Repr, DecidableEq

/-- The resolved engine context dictionary returned by `_resolve_engine`. -/
structure EngineCtx where
  ttsEngine : String
  voiceSettings : VoiceSettings
  voiceName : String
  elVoiceId : String
  elModelId : String
  edgeVoice : String
  murfVoiceId : String
  murfLocale : String
  murfStyle : String
  voicePool : List PoolEntry
deriving Repr, DecidableEq

/-- Voice-pool construction (lines 960-976), keyed on the final engine. -/
def buildVoicePool (tts : String) (country : String) (language : Option String)
    (elVoiceId voiceName : String) (altVoices : List AltVoice) : List PoolEntry :=
  if tts = "murf" then
    (getMurfVoicePool country language).map fun e =>
      { murfVoiceId := some e.1, murfLocale := some e.2.1,
        murfStyle := some e.2.2.1, voiceLabel := e.2.2.2 }
  else if tts = "edge-tts" then
    (getEdgeVoicePool country language).map fun e =>
      { edgeVoice := some e.1, voiceLabel := e.2 }
  else
    let base := (elVoiceId, voiceName) ::
      (altVoices.take 2).map (fun av => (av.voiceId.getD elVoiceId, av.name.getD "Alt"))
    let padded := base ++ List.replicate (3 - base.length) (elVoiceId, voiceName)
    padded.map fun e => { elVoiceId := some e.1, voiceLabel := e.2 }

/-- Embedding of `_resolve_engine` (lines 899-989).  `quotaOk` is the
oracle value of `_check_elevenlabs_quota`, `validateVoice` the oracle for
`_validate_voice_id` (total: the source returns the input on any error). -/
def resolveEngine (cfg : Config) (quotaOk : Bool) (validateVoice : String → String)
    (sel : VoiceSelection) (country : String) (language : Option String)
    (ttsEngineOverride : Option String) : Except String EngineCtx :=
  let voiceSettings := sel.voiceSettings
  let voiceName := ((sel.selectedVoice.getD {}).name).getD "Unknown"
  let auto : String :=
    if cfg.murfApiKey ≠ "" then "murf"
    else if hasElevenCredits cfg then (if quotaOk then "elevenlabs" else "edge-tts")
    else "edge-tts"
  let tts0 : String :=
    match ttsEngineOverride with
    | some ov => if ov = "murf" || ov = "elevenlabs" || ov = "edge-tts" then ov else auto
    | none => auto
  let murfStep : String × (String × String × String) :=
    if tts0 = "murf" then
      if cfg.murfApiKey = "" then ("edge-tts", ("", "", ""))
      else ("murf", pickMurfVoice country language)
    else (tts0, ("", "", ""))
  let tts1 := murfStep.1
  let murfV := murfStep.2
  let elStep : Except String (String × String × String) :=
    if tts1 = "elevenlabs" then
      if !hasElevenCredits cfg then Except.ok ("edge-tts", "", ELEVENLABS_TTS_MODEL)
      else
        match sel.selectedVoice with
        | none => Except.error "KeyError: selected_voice"
        | some sv =>
          match sv.voiceId with
          | none => Except.error "KeyError: voice_id"
          | some vid =>
            let m0 := (sel.elevenLabsApiParams.modelId).getD ELEVENLABS_TTS_MODEL
            let m1 := if m0 = "eleven_v3" then ELEVENLABS_TTS_MODEL else m0
            Except.ok ("elevenlabs", validateVoice vid, m1)
    else Except.ok (tts1, "", ELEVENLABS_TTS_MODEL)
  elStep.map fun ste =>
    let tts2 := ste.1
    let elVoiceId := ste.2.1
    let elModelId := ste.2.2
    let edgeVoice := if tts2 = "edge-tts" then pickEdgeVoice country language else ""
    { ttsEngine := tts2
      voiceSettings := voiceSettings
      voiceName := voiceName
      elVoiceId := elVoiceId
      elModelId := elModelId
      edgeVoice := edgeVoice
      murfVoiceId := murfV.1
      murfLocale := murfV.2.1
      murfStyle := murfV.2.2
      voicePool := buildVoicePool tts2 country language elVoiceId voiceName
        sel.alternativeVoices }

end ObdAudio

namespace ObdAudio

/-! ## Claim C9: the voice pool always has exactly three entries -/

/-- A successful association lookup returns one of the stored values. -/
theorem lookupA_mem {α : Type} (k : String) (v : α) :
    ∀ t : List (String × α), lookupA t k = some v → v ∈ t.map Prod.snd := by
  intro t
  induction t with
  | nil => intro h; simp [lookupA] at h
  | cons kv t ih =>
    intro h
    obtain ⟨k0, v0⟩ := kv
    rw [lookupA] at h
    by_cases hk : k0 = k
    · rw [if_pos hk] at h
      injection h with h
      simp [h]
    · rw [if_neg hk] at h
      simpa using Or.inr (ih h)

/-- Every locale row of `EDGE_VOICE_POOL` lists exactly three voices. -/
theorem edge_pool_rows_three : ∀ p ∈ EDGE_VOICE_POOL.map Prod.snd, p.length = 3 := by
  decide

/-- Every language row of `MURF_VOICE_POOL` lists exactly three voices. -/
theorem murf_pool_rows_three : ∀ p ∈ MURF_VOICE_POOL.map Prod.snd, p.length = 3 := by
  decide

/-- The edge voice pool has exactly three entries for every country and
language: table rows have three entries and the generic default repeats one
voice three times. -/
theorem getEdgeVoicePool_length (country : String) (language : Option String) :
    (getEdgeVoicePool country language).length = 3 := by
  simp only [getEdgeVoicePool]
  split
  · next pool hl => exact edge_pool_rows_three pool (lookupA_mem _ pool _ hl)
  · split
    · next kv hf =>
      exact edge_pool_rows_three kv.2
        (List.mem_map_of_mem Prod.snd (List.mem_of_find?_eq_some hf))
    · rfl

theorem murfPoolViaLang_length (language : Option String)
    (pool : List (String × String × String × String))
    (h : murfPoolViaLang language = some pool) : pool.length = 3 := by
  rcases language with _ | lg
  · simp [murfPoolViaLang] at h
  · simp only [murfPoolViaLang] at h
    by_cases hlg : lg = ""
    · simp [hlg] at h
    · rw [if_pos (by simpa using hlg)] at h
      revert h
      split
      · next p hp =>
        intro h
        injection h with h
        subst h
        exact murf_pool_rows_three p (lookupA_mem _ p _ hp)
      · intro h
        rcases Option.map_eq_some'.mp h with ⟨kv, hkv, hkv2⟩
        subst hkv2
        exact murf_pool_rows_three kv.2
          (List.mem_map_of_mem Prod.snd (List.mem_of_find?_eq_some hkv))

/-- The Murf voice pool has exactly three entries for every country and
language. -/
theorem getMurfVoicePool_length (country : String) (language : Option String) :
    (getMurfVoicePool country language).length = 3 := by
  simp only [getMurfVoicePool]
  split
  · next pool hl => exact murfPoolViaLang_length language pool hl
  · split
    · next pool hp => exact murf_pool_rows_three pool (lookupA_mem _ pool _ hp)
    · rfl

/-- The constructed voice pool has exactly three entries for every engine:
table pools for murf and edge-tts, and the padded
primary-plus-alternatives pool for elevenlabs. -/
theorem buildVoicePool_length (tts country : String) (language : Option String)
    (elVoiceId voiceName : String) (alt : List AltVoice) :
    (buildVoicePool tts country language elVoiceId voiceName alt).length = 3 := by
  rw [buildVoicePool]
  split_ifs with h1 h2
  · simp [getMurfVoicePool_length]
  · simp [getEdgeVoicePool_length]
  · simp only [List.length_map, List.length_append, List.length_cons,
      List.length_replicate, List.length_take]
    omega

/-- Helper: every successfully resolved engine context carries a voice pool
of exactly three entries. -/
theorem except_map_ok {ε α β : Type} (f : α → β) (e : Except ε α) (b : β)
    (h : e.map f = Except.ok b) : ∃ a, e = Except.ok a ∧ f a = b := by
  cases e with
  | error err => simp [Except.map] at h
  | ok a =>
    refine ⟨a, rfl, ?_⟩
    simpa [Except.map] using h

theorem resolveEngine_pool_length (cfg : Config) (quotaOk : Bool)
    (validateVoice : String → String) (sel : VoiceSelection)
    (country : String) (language : Option String) (override : Option String)
    (ctx : EngineCtx)
    (h : resolveEngine cfg quotaOk validateVoice sel country language override
        = Except.ok ctx) :
    ctx.voicePool.length = 3 := by
  simp only [resolveEngine] at h
  rcases except_map_ok _ _ _ h with ⟨ste, -, hf⟩
  rw [← hf]
  exact buildVoicePool_length ..

/-- Claim C9: for every (country, language) input and every resolved
engine, the voice pool built by `_resolve_engine` has exactly 3 entries —
table rows are three-long, the premium-provider pool is padded with repeats
of its first entry, and the no-locale fallback repeats a generic default
voice three times. -/
theorem c9_voice_pool_has_three_entries (cfg : Config) (quotaOk : Bool)
    (validateVoice : String → String) (sel : VoiceSelection)
    (country : String) (language : Option String) (override : Option String)
    (ctx : EngineCtx)
    (h : resolveEngine cfg quotaOk validateVoice sel country language override
        = Except.ok ctx) :
    ctx.voicePool.length = 3 :=
  resolveEngine_pool_length cfg quotaOk validateVoice sel country language override ctx h

/-- The engine context resolved for Kenya with no credentials: the
no-credential edge-tts engine with the `en-KE` pool. -/
def kenyaCtx : EngineCtx :=
  { ttsEngine := "edge-tts"
    voiceSettings := {}
    voiceName := "Unknown"
    elVoiceId := ""
    elModelId := "eleven_multilingual_v2"
    edgeVoice := "en-KE-AsiliaNeural"
    murfVoiceId := ""
    murfLocale := ""
    murfStyle := ""
    voicePool :=
      [{ edgeVoice := some "en-KE-AsiliaNeural", voiceLabel := "Asilia (Female)" },
       { edgeVoice := some "en-KE-ChilembaNeural", voiceLabel := "Chilemba (Male)" },
       { edgeVoice := some "en-KE-AsiliaNeural", voiceLabel := "Asilia Alt (Female)" }] }

/-- Witness for claim C9 at a concrete input: resolving with no credentials
for Kenya yields `kenyaCtx`, whose pool has three entries. -/
theorem c9_witness : kenyaCtx.voicePool.length = 3 :=
  c9_voice_pool_has_three_entries ⟨"", ""⟩ false id {} "Kenya" none none kenyaCtx rfl

end ObdAudio

namespace ObdAudio

/-! ## File system, oracles, and speech-synthesis adapters

Embedding of `_mix_voice_with_music` and the three `_generate_*` adapters
(audio_producer.py lines 601-874).  Files are an association list from
path to byte list, newest entry first; every network or external-library
call is an oracle returning `Except String`, a `.error` modelling a raised
Python exception.  Effects persist across exceptions, so results are
`FileSys ×` the outcome. -/

/-- Raw file bytes. -/
abbrev Bytes := List Nat

/-- The file system: newest write first. -/
abbrev FileSys := List (String × Bytes)

/-- Read a file. -/
def fsRead (fs : FileSys) (p : String) : Option Bytes := lookupA fs p

/-- Write (or overwrite) a file. -/
def fsWrite (fs : FileSys) (p : String) (b : Bytes) : FileSys := (p, b) :: fs

/-- Delete a file, `Path.unlink(missing_ok=True)`. -/
def fsRemove (fs : FileSys) (p : String) : FileSys := fs.filter (fun e => e.1 ≠ p)

/-- The `MURF_PRONUNCIATION` dictionary (lines 398-407):
(acronym, type, pronunciation). -/
def MURF_PRONUNCIATION : List (String × String × String) :=
  [("IVR", "SAY_AS", "I V R"), ("OBD", "SAY_AS", "O B D"),
   ("CLI", "SAY_AS", "C L I"), ("BNG", "SAY_AS", "B N G"),
   ("DTMF", "SAY_AS", "D T M F"), ("USSD", "SAY_AS", "U S S D"),
   ("SMS", "SAY_AS", "S M S"), ("CTA", "SAY_AS", "C T A")]

/-- The Murf `speech/generate` request body (lines 744-757). -/
structure MurfPayload where
  text : List Char
  voiceId : String
  modelVersion : String := "GEN2"
  format : String := "MP3"
  sampleRate : Nat := 44100
  channelType : String := "STEREO"
  variation : Nat := 2
  pronunciationDictionary : List (String × String × String) := MURF_PRONUNCIATION
  multiNativeLocale : Option String := none
  style : Option String := none

/-- The parsed Murf response fields the source reads (lines 773-776),
with the `.get` defaults already applied. -/
structure MurfResp where
  audioFile : String
  audioLengthInSeconds : ℚ := 0
  remainingCharacterCount : Int := -1

/-- The ElevenLabs text-to-speech request (lines 824-849). -/
structure ElPayload where
  text : List Char
  voiceId : String
  modelId : String
  stability : ℚ
  similarityBoost : ℚ
  useSpeakerBoost : Bool := true
  style : Option ℚ := none
  outputFormat : String := "mp3_44100_128"

/-- Oracles for every external effect: `edge_tts.Communicate.save` (keyed
by cleaned text, voice, rate, pitch, returning the audio bytes it wrote),
the whole pydub mixing-and-export pipeline (keyed by the voice bytes and
music style, returning the exported mixed bytes), `shutil.copy2`, the two
Murf HTTP calls, the ElevenLabs HTTP call, and the optional Supabase
upload (`none` models a falsy `supabase` client). -/
structure Oracles where
  edgeSave : List Char → String → String → String → Except String Bytes
  pydubMix : Bytes → String → Except String Bytes
  copyFile : Except String Unit
  murfGen : MurfPayload → Except String MurfResp
  murfDownload : String → Except String Bytes
  elPost : ElPayload → Except String Bytes
  supabaseUpload : Option (String → Except String String)
  quotaOk : Bool := false
  validateVoice : String → String := fun v => v

/-- Python `Path(p).with_suffix(".voice.mp3")` for the job paths, which all
end in `.mp3`: the last four characters are replaced by `.voice.mp3`. -/
def withVoiceSuffix (p : String) : String :=
  String.mk (p.data.take (p.data.length - 4) ++ chars ".voice.mp3")

/-- Python `Path(p).name`: the part after the last slash. -/
def baseName (p : String) : String :=
  String.mk ((p.data.reverse.takeWhile (fun c => c ≠ '/')).reverse)

/-- Python `Path(p).parent.name`: the directory component before the file
name. -/
def parentName (p : String) : String :=
  String.mk ((((p.data.reverse.dropWhile (fun c => c ≠ '/')).drop 1).takeWhile
    (fun c => c ≠ '/')).reverse)

/-- Embedding of `_mix_voice_with_music` (lines 601-645): the whole try
block is the `pydubMix` oracle applied to the voice bytes; on any
exception the handler copies the voice file over the output unless the
paths coincide, and a failure of that copy propagates. -/
def mixVoiceWithMusic (o : Oracles) (fs : FileSys) (voicePath outputPath : String)
    (bgmStyle : String) : FileSys × Except String Unit :=
  match fsRead fs voicePath with
  | none =>
    if voicePath = outputPath then (fs, Except.ok ())
    else (fs, Except.error "FileNotFoundError: copy source missing")
  | some vb =>
    match o.pydubMix vb bgmStyle with
    | Except.ok mixed => (fsWrite fs outputPath mixed, Except.ok ())
    | Except.error _ =>
      if voicePath = outputPath then (fs, Except.ok ())
      else
        match o.copyFile with
        | Except.ok _ => (fsWrite fs outputPath vb, Except.ok ())
        | Except.error e => (fs, Except.error e)

/-- Shared tail of the three adapters (lines 696-710, 790-798, 858-866):
write the synthesized voice bytes — directly to the output when background
music is skipped, otherwise to the temporary `.voice.mp3` file which is
then mixed and unlinked — and finally stat the output file. -/
def writeAndMix (o : Oracles) (fs : FileSys) (content : Bytes)
    (outputPath : String) (skipBgm : Bool) (bgmStyle : String) :
    FileSys × Except String Nat :=
  if skipBgm then
    let fs1 := fsWrite fs outputPath content
    match fsRead fs1 outputPath with
    | none => (fs1, Except.error "FileNotFoundError: stat")
    | some ob => (fs1, Except.ok ob.length)
  else
    let voiceOnly := withVoiceSuffix outputPath
    let fs1 := fsWrite fs voiceOnly content
    let mixRes := mixVoiceWithMusic o fs1 voiceOnly outputPath bgmStyle
    match mixRes.2 with
    | Except.error e => (mixRes.1, Except.error e)
    | Except.ok _ =>
      let fs2 := fsRemove mixRes.1 voiceOnly
      match fsRead fs2 outputPath with
      | none => (fs2, Except.error "FileNotFoundError: stat")
      | some ob => (fs2, Except.ok ob.length)

/-- The metadata dictionary a successful adapter call returns. -/
structure ArtifactMeta where
  filePath : String
  fileName : String
  fileSizeBytes : Nat
  voiceId : String
  model : String
  hasBackgroundMusic : Bool
deriving Repr, DecidableEq

/-- Wrap the adapter tail result into the returned metadata dictionary. -/
def finishArtifact (r : FileSys × Except String Nat) (mk : Nat → ArtifactMeta) :
    FileSys × Except String ArtifactMeta :=
  match r.2 with
  | Except.error e => (r.1, Except.error e)
  | Except.ok size => (r.1, Except.ok (mk size))

/-- Common shape of the three adapters: a fallible content fetch (network
call), then the write/mix/unlink/stat tail, then the metadata record. -/
def runAdapterTail (o : Oracles) (fs : FileSys) (outputPath : String)
    (skipBgm : Bool) (bgmStyle : String) (contentRes : Except String Bytes)
    (mk : Nat → ArtifactMeta) : FileSys × Except String ArtifactMeta :=
  match contentRes with
  | Except.error e => (fs, Except.error e)
  | Except.ok content =>
    finishArtifact (writeAndMix o fs content outputPath skipBgm bgmStyle) mk

/-- Embedding of `_generate_edge_tts` (lines 680-723). -/
def generateEdgeTTS (o : Oracles) (fs : FileSys) (text : List Char) (voice : String)
    (outputPath : String) (sectionType : String) (skipBgm : Bool) (bgmStyle : String) :
    FileSys × Except String ArtifactMeta :=
  let clean := cleanTextForTTS true text
  let pros := (lookupA SECTION_PROSODY sectionType).getD ("+0%", "+0Hz")
  runAdapterTail o fs outputPath skipBgm bgmStyle
    (o.edgeSave clean voice pros.1 pros.2)
    (fun size =>
      { filePath := outputPath, fileName := baseName outputPath,
        fileSizeBytes := size, voiceId := voice, model := "edge-tts",
        hasBackgroundMusic := !skipBgm })

/-- Scanner for the Murf inline-pause rewrite
`re.sub(r"\.{3,}", " [pause 0.5s] ", text)` (line 742): a run of at least
three periods becomes a literal pause tag. -/
def dotsA : Nat → List Char → List Char
  | n, [] => if 3 ≤ n then chars " [pause 0.5s] " else List.replicate n '.'
  | n, c :: cs =>
    if c = '.' then dotsA (n + 1) cs
    else if 3 ≤ n then chars " [pause 0.5s] " ++ c :: dotsA 0 cs
    else List.replicate n '.' ++ c :: dotsA 0 cs

/-- The two Murf HTTP steps (lines 759-788): the generate call, the
missing-`audioFile` check, and the audio download. -/
def murfFetch (o : Oracles) (payload : MurfPayload) : Except String Bytes :=
  match o.murfGen payload with
  | Except.error e => Except.error e
  | Except.ok resp =>
    if resp.audioFile = "" then
      Except.error "ValueError: Murf returned no audioFile URL"
    else o.murfDownload resp.audioFile

/-- Embedding of `_generate_murf_tts` (lines 725-811). -/
def generateMurfTTS (o : Oracles) (fs : FileSys) (text : List Char) (voiceId : String)
    (locale : String) (outputPath : String) (style : String) (skipBgm : Bool)
    (bgmStyle : String) : FileSys × Except String ArtifactMeta :=
  let clean := dotsA 0 (cleanTextForTTS false text)
  let payload : MurfPayload :=
    { text := clean, voiceId := voiceId,
      multiNativeLocale := if locale ≠ "" then some locale else none,
      style := if style ≠ "" then some style else none }
  runAdapterTail o fs outputPath skipBgm bgmStyle (murfFetch o payload)
    (fun size =>
      { filePath := outputPath, fileName := baseName outputPath,
        fileSizeBytes := size, voiceId := voiceId, model := "murf-gen2",
        hasBackgroundMusic := !skipBgm })

/-- Embedding of `_generate_elevenlabs` (lines 813-874).  `modelId` is the
caller-supplied `model_id` string; `model_id or ELEVENLABS_TTS_MODEL`
treats the empty string as absent. -/
def generateElevenLabs (o : Oracles) (fs : FileSys) (text : List Char)
    (voiceId : String) (voiceSettings : VoiceSettings) (outputPath : String)
    (modelId : String) (skipBgm : Bool) (bgmStyle : String) :
    FileSys × Except String ArtifactMeta :=
  let effectiveModel := if modelId ≠ "" then modelId else ELEVENLABS_TTS_MODEL
  let clean := cleanTextForTTS true text
  let payload : ElPayload :=
    { text := clean, voiceId := voiceId, modelId := effectiveModel,
      stability := voiceSettings.stability.getD (1/2),
      similarityBoost := voiceSettings.similarityBoost.getD (3/4),
      style := voiceSettings.style }
  runAdapterTail o fs outputPath skipBgm bgmStyle (o.elPost payload)
    (fun size =>
      { filePath := outputPath, fileName := baseName outputPath,
        fileSizeBytes := size, voiceId := voiceId, model := effectiveModel,
        hasBackgroundMusic := !skipBgm })

end ObdAudio

namespace ObdAudio

/-! ## Job scheduler

Embedding of `_run_tts_jobs` (audio_producer.py lines 991-1084).  The
semaphore-bounded `asyncio.gather` preserves result order and jobs share no
mutable state except the file system, so execution is linearised into a
left-to-right fold. -/

/-- One synthesis job dictionary, with the `.get` defaults of the source as
field defaults.  The engine-specific voice fields are those merged in by
`job.update(voice_pool[i])`. -/
structure Job where
  text : List Char
  path : String
  variantId : Int
  type : String
  theme : String := ""
  voiceIndex : Int := 1
  voiceLabel : String := "Voice 1"
  skipBgm : Bool := false
  bgmStyle : String := "upbeat"
  edgeVoice : Option String := none
  murfVoiceId : Option String := none
  murfLocale : Option String := none
  murfStyle : Option String := none
  elVoiceId : Option String := none
deriving Repr, DecidableEq

/-- Python `job.update(voice_pool[i])`: overwrite exactly the keys present
in the pool entry. -/
def mergePool (j : Job) (e : PoolEntry) : Job :=
  { j with
    edgeVoice := match e.edgeVoice with | some v => some v | none => j.edgeVoice
    murfVoiceId := match e.murfVoiceId with | some v => some v | none => j.murfVoiceId
    murfLocale := match e.murfLocale with | some v => some v | none => j.murfLocale
    murfStyle := match e.murfStyle with | some v => some v | none => j.murfStyle
    elVoiceId := match e.elVoiceId with | some v => some v | none => j.elVoiceId
    voiceLabel := e.voiceLabel }

/-- One aggregated job result: a success carries the artifact metadata and
`error = none`; a failure carries `error = some msg` (the dictionary shape
`"error" in r` of the source). -/
structure ResultRec where
  variantId : Int
  type : String
  theme : String
  voiceIndex : Int
  voiceLabel : String
  artifact : Option ArtifactMeta
  publicUrl : Option String
  error : Option String
deriving Repr, DecidableEq

/-- Engine dispatch of the inner `_tts_job` closure (lines 1006-1035).  A
murf job read through `job["murf_voice_id"]` with the key absent raises a
KeyError, caught by the per-job handler like every other exception. -/
def ttsJobDispatch (o : Oracles) (ctx : EngineCtx) (fs : FileSys) (j : Job) :
    FileSys × Except String ArtifactMeta :=
  if ctx.ttsEngine = "murf" then
    match j.murfVoiceId, j.murfLocale, j.murfStyle with
    | some vid, some loc, some sty =>
      generateMurfTTS o fs j.text vid loc j.path sty j.skipBgm j.bgmStyle
    | _, _, _ => (fs, Except.error "KeyError: murf job fields")
  else if ctx.ttsEngine = "elevenlabs" then
    generateElevenLabs o fs j.text (j.elVoiceId.getD ctx.elVoiceId) ctx.voiceSettings
      j.path ctx.elModelId j.skipBgm j.bgmStyle
  else
    generateEdgeTTS o fs j.text (j.edgeVoice.getD ctx.edgeVoice) j.path j.type
      j.skipBgm j.bgmStyle

/-- Result aggregation of `_tts_job` (lines 1036-1076): a raised exception
becomes a failed record, a success attempts the optional Supabase upload
(whose own failure is swallowed and leaves no public url). -/
def packResult (o : Oracles) (j : Job) (res : Except String ArtifactMeta) : ResultRec :=
  match res with
  | Except.error e =>
    { variantId := j.variantId, type := j.type, theme := j.theme,
      voiceIndex := j.voiceIndex, voiceLabel := j.voiceLabel,
      artifact := none, publicUrl := none, error := some e }
  | Except.ok art =>
    let publicUrl : Option String :=
      match o.supabaseUpload with
      | none => none
      | some up =>
        match up (parentName j.path ++ "/" ++ art.fileName) with
        | Except.ok url => some url
        | Except.error _ => none
    { variantId := j.variantId, type := j.type, theme := j.theme,
      voiceIndex := j.voiceIndex, voiceLabel := j.voiceLabel,
      artifact := some art, publicUrl := publicUrl, error := none }

/-- Embedding of the inner `_tts_job` closure (lines 1003-1076). -/
def ttsJob (o : Oracles) (ctx : EngineCtx) (fs : FileSys) (j : Job) :
    FileSys × ResultRec :=
  let run := ttsJobDispatch o ctx fs j
  (run.1, packResult o j run.2)

/-- Embedding of `_run_tts_jobs`: every job yields exactly one result
record, in job order. -/
def runTTSJobs (o : Oracles) (ctx : EngineCtx) :
    FileSys → List Job → FileSys × List ResultRec
  | fs, [] => (fs, [])
  | fs, j :: js =>
    let r := ttsJob o ctx fs j
    let rest := runTTSJobs o ctx r.1 js
    (rest.1, r.2 :: rest.2)

/-- A result record counts as failed exactly when it carries an error key. -/
def isFailedRec (r : ResultRec) : Bool := r.error.isSome

end ObdAudio

namespace ObdAudio

/-! ## File-system facts and the adapter case analysis -/

/-- Reading a just-written path returns the written bytes. -/
theorem fsRead_write_self (fs : FileSys) (p : String) (b : Bytes) :
    fsRead (fsWrite fs p b) p = some b := by
  simp [fsRead, fsWrite, lookupA]

/-- Writing one path does not change another. -/
theorem fsRead_write_other (fs : FileSys) (p q : String) (b : Bytes) (h : p ≠ q) :
    fsRead (fsWrite fs p b) q = fsRead fs q := by
  simp [fsRead, fsWrite, lookupA, h]

/-- A removed path reads as absent. -/
theorem fsRead_remove_self (fs : FileSys) (p : String) :
    fsRead (fsRemove fs p) p = none := by
  induction fs with
  | nil => rfl
  | cons e fs ih =>
    by_cases h : e.1 = p
    · simpa [fsRemove, List.filter_cons, h] using ih
    · simpa [fsRemove, fsRead, List.filter_cons, h, lookupA] using ih

/-- Removing one path does not change another. -/
theorem fsRead_remove_other (fs : FileSys) (p q : String) (h : q ≠ p) :
    fsRead (fsRemove fs p) q = fsRead fs q := by
  induction fs with
  | nil => rfl
  | cons e fs ih =>
    by_cases hq : e.1 = q
    · have hep : e.1 ≠ p := by rw [hq]; exact h
      simp [fsRemove, fsRead, List.filter_cons, lookupA, hq, hep, h, h.symm]
    · by_cases hep : e.1 = p
      · simpa [fsRemove, fsRead, List.filter_cons, lookupA, hq, hep, h, h.symm] using ih
      · simpa [fsRemove, fsRead, List.filter_cons, lookupA, hq, hep, h, h.symm] using ih

/-- The temporary voice-only path always differs from the output path:
their lengths differ. -/
theorem withVoiceSuffix_ne (p : String) : withVoiceSuffix p ≠ p := by
  intro h
  have hlen := congrArg (fun s => s.data.length) h
  simp only [withVoiceSuffix, chars, List.length_append, List.length_take] at hlen
  have : (".voice.mp3".data).length = 10 := rfl
  rw [this] at hlen
  omega

/-- The combined outcome of the mixing step for a present voice file: the
exported bytes on pydub success, the voice bytes verbatim if the fallback
copy ran, or the copy error. -/
def mixOutcome (o : Oracles) (content : Bytes) (bgmStyle : String) :
    Except String Bytes :=
  match o.pydubMix content bgmStyle with
  | Except.ok mixed => Except.ok mixed
  | Except.error _ =>
    match o.copyFile with
    | Except.ok _ => Except.ok content
    | Except.error e => Except.error e

/-- Mixing with the voice file present and distinct paths, in closed
form. -/
theorem mix_on_present (o : Oracles) (fs : FileSys) (vo outP bgmStyle : String)
    (vb : Bytes) (hvb : fsRead fs vo = some vb) (hne : vo ≠ outP) :
    mixVoiceWithMusic o fs vo outP bgmStyle =
      match mixOutcome o vb bgmStyle with
      | Except.ok outBytes => (fsWrite fs outP outBytes, Except.ok ())
      | Except.error e => (fs, Except.error e) := by
  have h0 : mixVoiceWithMusic o fs vo outP bgmStyle =
      match o.pydubMix vb bgmStyle with
      | Except.ok mixed => (fsWrite fs outP mixed, Except.ok ())
      | Except.error _ =>
        if vo = outP then (fs, Except.ok ())
        else
          match o.copyFile with
          | Except.ok _ => (fsWrite fs outP vb, Except.ok ())
          | Except.error e => (fs, Except.error e) := by
    rw [mixVoiceWithMusic.eq_def, hvb]
  rw [h0, mixOutcome]
  cases o.pydubMix vb bgmStyle with
  | ok mixed => rfl
  | error e =>
    simp only [if_neg hne]
    cases o.copyFile with
    | ok u => rfl
    | error e2 => rfl

/-- The non-skip branch of the adapter tail, in closed form. -/
theorem writeAndMix_not_skip (o : Oracles) (fs : FileSys) (content : Bytes)
    (outputPath bgmStyle : String) :
    writeAndMix o fs content outputPath false bgmStyle =
      match mixOutcome o content bgmStyle with
      | Except.ok outBytes =>
        (fsRemove
          (fsWrite (fsWrite fs (withVoiceSuffix outputPath) content) outputPath outBytes)
          (withVoiceSuffix outputPath),
         Except.ok outBytes.length)
      | Except.error e =>
        (fsWrite fs (withVoiceSuffix outputPath) content, Except.error e) := by
  rw [writeAndMix.eq_def]
  simp only [Bool.false_eq_true, if_false]
  rw [mix_on_present o _ _ _ _ content (fsRead_write_self ..) (withVoiceSuffix_ne _)]
  cases hmo : mixOutcome o content bgmStyle with
  | ok outBytes =>
    simp only []
    rw [fsRead_remove_other _ _ _ (fun h => withVoiceSuffix_ne _ h.symm),
      fsRead_write_self]
  | error e => rfl

end ObdAudio

namespace ObdAudio

/-! ## Claim C8: mixing degradation -/

/-- Claim C8: if the voice+music mixing step fails for any reason while
the fallback copy works, the job still succeeds and the delivered file is
byte-identical to the voice-only render. -/
theorem c8_mixing_degradation (o : Oracles) (fs : FileSys) (text : List Char)
    (voice outputPath sectionType bgmStyle : String) (vb : Bytes)
    (hsave : ∀ t v r p, o.edgeSave t v r p = Except.ok vb)
    (hmix : ∀ b s, ∃ e, o.pydubMix b s = Except.error e)
    (hcopy : o.copyFile = Except.ok ()) :
    (∃ a, (generateEdgeTTS o fs text voice outputPath sectionType false bgmStyle).2
        = Except.ok a) ∧
    fsRead (generateEdgeTTS o fs text voice outputPath sectionType false bgmStyle).1
      outputPath = some vb := by
  have hmo : mixOutcome o vb bgmStyle = Except.ok vb := by
    rcases hmix vb bgmStyle with ⟨e, he⟩
    rw [mixOutcome, he, hcopy]
  simp only [generateEdgeTTS, hsave, runAdapterTail, finishArtifact,
    writeAndMix_not_skip, hmo]
  constructor
  · exact ⟨_, rfl⟩
  · rw [fsRead_remove_other _ _ _ (withVoiceSuffix_ne outputPath).symm, fsRead_write_self]

/-- Oracles for the C8 witness: synthesis succeeds, every mix attempt
raises, the fallback copy works. -/
def c8Oracles : Oracles :=
  { edgeSave := fun _ _ _ _ => Except.ok [3, 1, 4]
    pydubMix := fun _ _ => Except.error "pydub not installed"
    copyFile := Except.ok ()
    murfGen := fun _ => Except.error "unused"
    murfDownload := fun _ => Except.error "unused"
    elPost := fun _ => Except.error "unused"
    supabaseUpload := none }

/-- Witness for claim C8 at a concrete input. -/
theorem c8_witness :
    (∃ a, (generateEdgeTTS c8Oracles [] (chars "Hello") "v1"
        "s/variant_1_voice1_main.mp3" "main" false "upbeat").2 = Except.ok a) ∧
    fsRead (generateEdgeTTS c8Oracles [] (chars "Hello") "v1"
        "s/variant_1_voice1_main.mp3" "main" false "upbeat").1
      "s/variant_1_voice1_main.mp3" = some [3, 1, 4] :=
  c8_mixing_degradation c8Oracles [] (chars "Hello") "v1"
    "s/variant_1_voice1_main.mp3" "main" "upbeat" [3, 1, 4]
    (fun _ _ _ _ => rfl) (fun _ _ => ⟨"pydub not installed", rfl⟩) rfl

/-! ## Claim C10: temporary voice-only file cleanup -/

/-- Oracles for the C10 counterexample: synthesis succeeds, the mix
raises, and the fallback copy in the exception handler raises too. -/
def c10Oracles : Oracles :=
  { edgeSave := fun _ _ _ _ => Except.ok [7, 7]
    pydubMix := fun _ _ => Except.error "pydub import failed"
    copyFile := Except.error "PermissionError: copy failed"
    murfGen := fun _ => Except.error "unused"
    murfDownload := fun _ => Except.error "unused"
    elPost := fun _ => Except.error "unused"
    supabaseUpload := none }

/-- Claim C10, as stated — for every job that mixes background music the
temporary `.voice.mp3` render no longer exists after the job completes, on
every exit path — is false: when the pydub mix raises and the fallback
`shutil.copy2` in the handler raises as well, the exception escapes
`_generate_edge_tts` before the `unlink` line, and the voice-only file
survives. -/
theorem c10_counterexample :
    ¬ ∀ (o : Oracles) (fs : FileSys) (text : List Char)
        (voice outputPath sectionType bgmStyle : String),
        fsRead (generateEdgeTTS o fs text voice outputPath sectionType false
            bgmStyle).1 (withVoiceSuffix outputPath) = none := by
  intro h
  have hc := h c10Oracles [] (chars "Hi") "v" "out/a.mp3" "hook_preview" "upbeat"
  revert hc
  decide

/-- If the non-skip adapter tail returns successfully, the temporary
voice-only file is gone. -/
theorem writeAndMix_ok_no_temp (o : Oracles) (fs : FileSys) (content : Bytes)
    (outputPath bgmStyle : String) (n : Nat)
    (h : (writeAndMix o fs content outputPath false bgmStyle).2 = Except.ok n) :
    fsRead (writeAndMix o fs content outputPath false bgmStyle).1
      (withVoiceSuffix outputPath) = none := by
  rw [writeAndMix_not_skip] at h ⊢
  cases hmo : mixOutcome o content bgmStyle with
  | ok outBytes => exact fsRead_remove_self ..
  | error e => rw [hmo] at h; exact absurd h (by simp)

/-- If `finishArtifact` over the non-skip tail returns successfully, the
temporary voice-only file is gone. -/
theorem finishArtifact_ok_no_temp (o : Oracles) (fs : FileSys) (content : Bytes)
    (outputPath bgmStyle : String) (mk : Nat → ArtifactMeta) (a : ArtifactMeta)
    (h : (finishArtifact (writeAndMix o fs content outputPath false bgmStyle) mk).2
        = Except.ok a) :
    fsRead (finishArtifact (writeAndMix o fs content outputPath false bgmStyle) mk).1
      (withVoiceSuffix outputPath) = none := by
  rw [finishArtifact] at h ⊢
  cases hw : (writeAndMix o fs content outputPath false bgmStyle).2 with
  | error e => rw [hw] at h; exact absurd h (by simp)
  | ok size => exact writeAndMix_ok_no_temp o fs content outputPath bgmStyle size hw

/-- If an adapter returns successfully in mixing mode, the temporary
voice-only file is gone. -/
theorem runAdapterTail_ok_no_temp (o : Oracles) (fs : FileSys) (outputPath bgmStyle : String)
    (contentRes : Except String Bytes) (mk : Nat → ArtifactMeta) (a : ArtifactMeta)
    (h : (runAdapterTail o fs outputPath false bgmStyle contentRes mk).2 = Except.ok a) :
    fsRead (runAdapterTail o fs outputPath false bgmStyle contentRes mk).1
      (withVoiceSuffix outputPath) = none := by
  cases contentRes with
  | error e => rw [runAdapterTail] at h; exact absurd h (by simp)
  | ok content =>
    rw [runAdapterTail] at h ⊢
    exact finishArtifact_ok_no_temp o fs content outputPath bgmStyle mk a h

/-- Claim C10, amended: the temporary voice-only render is removed on
every path on which the adapter returns (mixing succeeded, or mixing
failed and the fallback copy handled it); when an exception escapes
between the creation of the temp file and the unlink — the fallback copy
itself failing — the file is left behind and the job fails.  Stated for
all three adapters. -/
theorem c10_amended (o : Oracles) (fs : FileSys) (text : List Char)
    (voice vid locale sty modelId outputPath sectionType bgmStyle : String)
    (vs : VoiceSettings) :
    (∀ a, (generateEdgeTTS o fs text voice outputPath sectionType false bgmStyle).2
        = Except.ok a →
      fsRead (generateEdgeTTS o fs text voice outputPath sectionType false
          bgmStyle).1 (withVoiceSuffix outputPath) = none) ∧
    (∀ a, (generateMurfTTS o fs text vid locale outputPath sty false bgmStyle).2
        = Except.ok a →
      fsRead (generateMurfTTS o fs text vid locale outputPath sty false
          bgmStyle).1 (withVoiceSuffix outputPath) = none) ∧
    (∀ a, (generateElevenLabs o fs text vid vs outputPath modelId false
          bgmStyle).2 = Except.ok a →
      fsRead (generateElevenLabs o fs text vid vs outputPath modelId false
          bgmStyle).1 (withVoiceSuffix outputPath) = none) := by
  refine ⟨?_, ?_, ?_⟩
  · intro a h
    rw [generateEdgeTTS] at h ⊢
    exact runAdapterTail_ok_no_temp _ _ _ _ _ _ a h
  · intro a h
    rw [generateMurfTTS] at h ⊢
    exact runAdapterTail_ok_no_temp _ _ _ _ _ _ a h
  · intro a h
    rw [generateElevenLabs] at h ⊢
    exact runAdapterTail_ok_no_temp _ _ _ _ _ _ a h

/-- Witness for the amended claim C10 at a concrete input, using the C8
degradation oracles: the job completes and the temp file is gone. -/
theorem c10_amended_witness :
    fsRead (generateEdgeTTS c8Oracles [] (chars "Hey") "v2"
        "s/variant_2_voice1_closure.mp3" "closure" false "calm").1
      (withVoiceSuffix "s/variant_2_voice1_closure.mp3") = none :=
  (c10_amended c8Oracles [] (chars "Hey") "v2" "" "" "" "" 
      "s/variant_2_voice1_closure.mp3" "closure" "calm" {}).1
    { filePath := "s/variant_2_voice1_closure.mp3"
      fileName := "variant_2_voice1_closure.mp3"
      fileSizeBytes := 3, voiceId := "v2", model := "edge-tts"
      hasBackgroundMusic := true }
    rfl

end ObdAudio

namespace ObdAudio

/-! ## Claim C4: per-job failure isolation

Whether a job fails depends only on the oracles and the job (all file reads
in an adapter hit paths the same adapter has just written), so failure
counts transfer from jobs to results. -/

/-- The adapter tail outcome does not depend on the pre-existing file
system. -/
theorem writeAndMix_snd_indep (o : Oracles) (content : Bytes)
    (outputPath : String) (skipBgm : Bool) (bgmStyle : String) (fs fs' : FileSys) :
    (writeAndMix o fs content outputPath skipBgm bgmStyle).2 =
    (writeAndMix o fs' content outputPath skipBgm bgmStyle).2 := by
  cases skipBgm with
  | true => simp [writeAndMix, fsRead_write_self]
  | false =>
    rw [writeAndMix_not_skip, writeAndMix_not_skip]
    cases mixOutcome o content bgmStyle <;> rfl

/-- Lifting of `writeAndMix_snd_indep` through `finishArtifact`. -/
theorem finishArtifact_snd_indep (o : Oracles) (content : Bytes)
    (outputPath : String) (skipBgm : Bool) (bgmStyle : String)
    (mk : Nat → ArtifactMeta) (fs fs' : FileSys) :
    (finishArtifact (writeAndMix o fs content outputPath skipBgm bgmStyle) mk).2 =
    (finishArtifact (writeAndMix o fs' content outputPath skipBgm bgmStyle) mk).2 := by
  rw [finishArtifact, finishArtifact,
    ← writeAndMix_snd_indep o content outputPath skipBgm bgmStyle fs fs']
  cases hw : (writeAndMix o fs content outputPath skipBgm bgmStyle).2 <;> rfl

/-- Lifting through the whole adapter shape. -/
theorem runAdapterTail_snd_indep (o : Oracles) (outputPath : String)
    (skipBgm : Bool) (bgmStyle : String) (contentRes : Except String Bytes)
    (mk : Nat → ArtifactMeta) (fs fs' : FileSys) :
    (runAdapterTail o fs outputPath skipBgm bgmStyle contentRes mk).2 =
    (runAdapterTail o fs' outputPath skipBgm bgmStyle contentRes mk).2 := by
  cases contentRes with
  | error e => rfl
  | ok content =>
    simp only [runAdapterTail]
    exact finishArtifact_snd_indep o content outputPath skipBgm bgmStyle _ fs fs'

/-- The edge-tts adapter outcome does not depend on the pre-existing file
system. -/
theorem generateEdgeTTS_snd_indep (o : Oracles) (text : List Char)
    (voice outputPath sectionType : String) (skipBgm : Bool) (bgmStyle : String)
    (fs fs' : FileSys) :
    (generateEdgeTTS o fs text voice outputPath sectionType skipBgm bgmStyle).2 =
    (generateEdgeTTS o fs' text voice outputPath sectionType skipBgm bgmStyle).2 := by
  simp only [generateEdgeTTS]
  exact runAdapterTail_snd_indep ..

/-- The Murf adapter outcome does not depend on the pre-existing file
system. -/
theorem generateMurfTTS_snd_indep (o : Oracles) (text : List Char)
    (vid locale outputPath sty : String) (skipBgm : Bool) (bgmStyle : String)
    (fs fs' : FileSys) :
    (generateMurfTTS o fs text vid locale outputPath sty skipBgm bgmStyle).2 =
    (generateMurfTTS o fs' text vid locale outputPath sty skipBgm bgmStyle).2 := by
  simp only [generateMurfTTS]
  exact runAdapterTail_snd_indep ..

/-- The ElevenLabs adapter outcome does not depend on the pre-existing
file system. -/
theorem generateElevenLabs_snd_indep (o : Oracles) (text : List Char)
    (vid : String) (vs : VoiceSettings) (outputPath modelId : String)
    (skipBgm : Bool) (bgmStyle : String) (fs fs' : FileSys) :
    (generateElevenLabs o fs text vid vs outputPath modelId skipBgm bgmStyle).2 =
    (generateElevenLabs o fs' text vid vs outputPath modelId skipBgm bgmStyle).2 := by
  simp only [generateElevenLabs]
  exact runAdapterTail_snd_indep ..

/-- The dispatched job outcome does not depend on the pre-existing file
system. -/
theorem ttsJobDispatch_snd_indep (o : Oracles) (ctx : EngineCtx) (j : Job)
    (fs fs' : FileSys) :
    (ttsJobDispatch o ctx fs j).2 = (ttsJobDispatch o ctx fs' j).2 := by
  simp only [ttsJobDispatch]
  by_cases h1 : ctx.ttsEngine = "murf"
  · rw [if_pos h1, if_pos h1]
    cases j.murfVoiceId <;> cases j.murfLocale <;> cases j.murfStyle <;>
      first
      | rfl
      | exact generateMurfTTS_snd_indep ..
  · rw [if_neg h1, if_neg h1]
    by_cases h2 : ctx.ttsEngine = "elevenlabs"
    · rw [if_pos h2, if_pos h2]
      exact generateElevenLabs_snd_indep ..
    · rw [if_neg h2, if_neg h2]
      exact generateEdgeTTS_snd_indep ..

/-- The job result record does not depend on the pre-existing file
system. -/
theorem ttsJob_snd_indep (o : Oracles) (ctx : EngineCtx) (j : Job)
    (fs fs' : FileSys) : (ttsJob o ctx fs j).2 = (ttsJob o ctx fs' j).2 := by
  simp only [ttsJob]
  rw [ttsJobDispatch_snd_indep o ctx j fs fs']

/-- Whether a job fails, as a function of the oracles, the engine context
and the job alone. -/
def jobFails (o : Oracles) (ctx : EngineCtx) (j : Job) : Bool :=
  isFailedRec (ttsJob o ctx [] j).2

/-- The batch result is the per-job result map, independent of file-system
threading. -/
theorem runTTSJobs_results (o : Oracles) (ctx : EngineCtx) :
    ∀ (jobs : List Job) (fs : FileSys),
      (runTTSJobs o ctx fs jobs).2 = jobs.map (fun j => (ttsJob o ctx [] j).2) := by
  intro jobs
  induction jobs with
  | nil => intro fs; rfl
  | cons j js ih =>
    intro fs
    simp only [runTTSJobs, List.map_cons]
    rw [ih, ttsJob_snd_indep o ctx j fs []]

/-- Length of the complementary filter. -/
theorem filter_not_length {α : Type} (p : α → Bool) :
    ∀ l : List α, (l.filter (fun a => !p a)).length = l.length - (l.filter p).length := by
  intro l
  induction l with
  | nil => rfl
  | cons a l ih =>
    have hle := List.length_filter_le p l
    by_cases h : p a <;> simp [List.filter_cons, h, ih] <;> omega

/-- Claim C4: in a batch in which exactly one job's synthesis raises, the
batch completes with exactly one failed record (carrying an error
description) and N-1 successful records; no failure aborts the batch. -/
theorem c4_per_job_isolation (o : Oracles) (ctx : EngineCtx) (fs : FileSys)
    (jobs : List Job)
    (hone : (jobs.filter (fun j => jobFails o ctx j)).length = 1) :
    ((runTTSJobs o ctx fs jobs).2).length = jobs.length ∧
    (((runTTSJobs o ctx fs jobs).2).filter (fun r => isFailedRec r)).length = 1 ∧
    (((runTTSJobs o ctx fs jobs).2).filter (fun r => !isFailedRec r)).length
      = jobs.length - 1 ∧
    ∀ r ∈ (runTTSJobs o ctx fs jobs).2, isFailedRec r → r.error ≠ none := by
  rw [runTTSJobs_results]
  refine ⟨by simp, ?_, ?_, ?_⟩
  · rw [List.filter_map, List.length_map]
    simpa [Function.comp, jobFails] using hone
  · rw [List.filter_map, List.length_map]
    have h2 : ((fun r => !isFailedRec r) ∘ fun j => (ttsJob o ctx [] j).2)
        = fun j => !jobFails o ctx j := by
      funext j
      simp [Function.comp, jobFails]
    rw [h2]
    have h3 := filter_not_length (fun j => jobFails o ctx j) jobs
    rw [hone] at h3
    exact h3
  · intro r hr hf
    simp only [isFailedRec] at hf
    exact Option.isSome_iff_ne_none.mp hf

end ObdAudio

namespace ObdAudio

/-- Oracles for the C4 witness: synthesis fails exactly for the malformed
voice id `bad`. -/
def c4Oracles : Oracles :=
  { edgeSave := fun _ v _ _ =>
      if v = "bad" then Except.error "edge-tts failed: 403" else Except.ok [1, 2]
    pydubMix := fun b _ => Except.ok (b ++ [9])
    copyFile := Except.ok ()
    murfGen := fun _ => Except.error "unused"
    murfDownload := fun _ => Except.error "unused"
    elPost := fun _ => Except.error "unused"
    supabaseUpload := none }

/-- Three preview-style jobs, of which exactly the second carries the
malformed voice id. -/
def c4Jobs : List Job :=
  [{ text := chars "One", path := "s/variant_1_voice1_main.mp3", variantId := 1,
     type := "main", voiceIndex := 1, edgeVoice := some "good" },
   { text := chars "Two", path := "s/variant_1_voice2_main.mp3", variantId := 1,
     type := "main", voiceIndex := 2, edgeVoice := some "bad" },
   { text := chars "Three", path := "s/variant_1_voice3_main.mp3", variantId := 1,
     type := "main", voiceIndex := 3, edgeVoice := some "good" }]

/-- Witness for claim C4 at a concrete input: three jobs, one engineered
failure, one failed record and two successes. -/
theorem c4_witness :
    (c4Jobs.filter (fun j => jobFails c4Oracles kenyaCtx j)).length = 1 ∧
    ((runTTSJobs c4Oracles kenyaCtx [] c4Jobs).2.filter
      (fun r => isFailedRec r)).length = 1 ∧
    ((runTTSJobs c4Oracles kenyaCtx [] c4Jobs).2.filter
      (fun r => !isFailedRec r)).length = c4Jobs.length - 1 :=
  ⟨by decide,
   (c4_per_job_isolation c4Oracles kenyaCtx [] c4Jobs (by decide)).2.1,
   (c4_per_job_isolation c4Oracles kenyaCtx [] c4Jobs (by decide)).2.2.1⟩

end ObdAudio

namespace ObdAudio

/-! ## Batch phases

Embedding of `run_hook_previews` (audio_producer.py lines 1088-1205) and
`run_final_audio` (lines 1209-1354).  The `attempts` list records the
engine of every `_run_tts_jobs` invocation, instrumenting the auto-fallback
control flow. -/

/-- One script dictionary, with the `.get` defaults of the source as field
defaults (a missing or `None` text field behaves as the empty string under
the `not text or not text.strip()` checks). -/
structure Script where
  variantId : Int := 0
  theme : String := "unknown"
  hook : String := ""
  fullScript : String := ""
  fallback1 : String := ""
  fallback2 : String := ""
  politeClosure : String := ""
deriving Repr, DecidableEq

/-- Python `not text or not text.strip()`. -/
def pyBlank (s : String) : Bool := (stripEnds s.data).isEmpty

/-- Hook text selection of the initial preview loop (lines 1112-1119). -/
def hookTextOf (s : Script) : String :=
  if pyBlank s.hook then
    (if s.fullScript ≠ "" then String.mk (s.fullScript.data.take 200) else s.fullScript)
  else s.hook

/-- Hook text selection of the retry loop (lines 1162-1165). -/
def hookTextRetry (s : Script) : String :=
  if (stripEnds s.hook.data).isEmpty then String.mk (s.fullScript.data.take 200)
  else s.hook

/-- Python list indexing `voice_pool[i]`, which raises when out of
range. -/
def poolAt (pool : List PoolEntry) (i : Nat) : Except String PoolEntry :=
  match pool.get? i with
  | some e => Except.ok e
  | none => Except.error "IndexError: voice_pool"

/-- Sequence a job-list builder over the scripts. -/
def mapMExcept {α β : Type} (f : α → Except String (List β)) :
    List α → Except String (List β)
  | [] => Except.ok []
  | a :: t => do
    let h ← f a
    let r ← mapMExcept f t
    pure (h ++ r)

/-- One preview job for voice index `vi` (lines 1121-1132). -/
def previewJobAt (sessionDir : String) (pool : List PoolEntry) (s : Script)
    (ht : String) (vi : Nat) : Except String Job := do
  let e ← poolAt pool vi
  pure (mergePool
    { text := ht.data
      path := sessionDir ++ "/variant_" ++ toString s.variantId ++ "_voice" ++
        toString (vi + 1) ++ "_hook_preview.mp3"
      variantId := s.variantId
      type := "hook_preview"
      theme := s.theme
      voiceIndex := (vi : Int) + 1
      skipBgm := false } e)

/-- Preview jobs for one script: three voices over the hook text, or none
when the hook text is blank (lines 1109-1132). -/
def previewJobsFor (sessionDir : String) (pool : List PoolEntry) (s : Script) :
    Except String (List Job) :=
  let ht := hookTextOf s
  if pyBlank ht then Except.ok []
  else do
    let j0 ← previewJobAt sessionDir pool s ht 0
    let j1 ← previewJobAt sessionDir pool s ht 1
    let j2 ← previewJobAt sessionDir pool s ht 2
    pure [j0, j1, j2]

/-- The full preview job list (lines 1108-1132). -/
def buildPreviewJobs (sessionDir : String) (pool : List PoolEntry)
    (scripts : List Script) : Except String (List Job) :=
  mapMExcept (previewJobsFor sessionDir pool) scripts

/-- Retry preview jobs (lines 1158-1178): one job per voice index below
`min(3, len(voice_pool))`. -/
def retryPreviewJobsFor (sessionDir : String) (pool : List PoolEntry) (s : Script) :
    List Job :=
  let ht := hookTextRetry s
  if (stripEnds ht.data).isEmpty then []
  else
    (List.enum (pool.take 3)).map (fun ie =>
      mergePool
        { text := ht.data
          path := sessionDir ++ "/variant_" ++ toString s.variantId ++ "_voice" ++
            toString (ie.1 + 1) ++ "_hook_preview.mp3"
          variantId := s.variantId
          type := "hook_preview"
          theme := s.theme
          voiceIndex := (ie.1 : Int) + 1
          skipBgm := false } ie.2)

/-- The full retry preview job list. -/
def buildRetryPreviewJobs (sessionDir : String) (pool : List PoolEntry)
    (scripts : List Script) : List Job :=
  (scripts.map (retryPreviewJobsFor sessionDir pool)).flatten

/-- Integer-keyed dictionary lookup (for `voice_choices`). -/
def lookupI {α : Type} : List (Int × α) → Int → Option α
  | [], _ => none
  | (k, v) :: t, key => if k = key then some v else lookupI t key

/-- The clamped 0-based voice index of the final phase (lines 1246-1247):
`max(0, min(voice_choices.get(vid, 1) - 1, len(voice_pool) - 1))`. -/
def chosenIdx (voiceChoices : List (Int × Int)) (variantId : Int) (poolLen : Nat) : Nat :=
  let c0 : Int := (lookupI voiceChoices variantId).getD 1 - 1
  (max 0 (min c0 ((poolLen : Int) - 1))).toNat

/-- The `ALL_SECTIONS` pairs of (text, audio type) for one script (lines
1235-1240). -/
def finalSections (s : Script) : List (String × String) :=
  [(s.fullScript, "main"), (s.fallback1, "fallback1"),
   (s.fallback2, "fallback2"), (s.politeClosure, "closure")]

/-- Final jobs for one script (lines 1242-1264): one job per non-empty
section, voiced by the clamped chosen index. -/
def finalJobsFor (sessionDir : String) (voiceChoices : List (Int × Int))
    (pool : List PoolEntry) (bgmStyle : String) (s : Script) :
    Except String (List Job) :=
  let ci := chosenIdx voiceChoices s.variantId pool.length
  mapMExcept
    (fun ts => do
      let e ← poolAt pool ci
      pure [mergePool
        { text := ts.1.data
          path := sessionDir ++ "/variant_" ++ toString s.variantId ++ "_voice" ++
            toString (ci + 1) ++ "_" ++ ts.2 ++ ".mp3"
          variantId := s.variantId
          type := ts.2
          theme := s.theme
          voiceIndex := (ci : Int) + 1
          skipBgm := false
          bgmStyle := bgmStyle } e])
    ((finalSections s).filter (fun ts => !pyBlank ts.1))

/-- The full final job list. -/
def buildFinalJobs (sessionDir : String) (voiceChoices : List (Int × Int))
    (pool : List PoolEntry) (bgmStyle : String) (scripts : List Script) :
    Except String (List Job) :=
  mapMExcept (finalJobsFor sessionDir voiceChoices pool bgmStyle) scripts

/-- Successful results: records without an error key. -/
def successfulOf (rs : List ResultRec) : List ResultRec :=
  rs.filter (fun r => !isFailedRec r)

/-- Failed results: records with an error key. -/
def failedOf (rs : List ResultRec) : List ResultRec :=
  rs.filter (fun r => isFailedRec r)

/-- State carried across the fallback loop: the file system, the engines
attempted so far (one per `_run_tts_jobs` call), the current engine
context, and the latest batch results. -/
structure BatchState where
  fs : FileSys
  attempts : List String
  ctx : EngineCtx
  results : List ResultRec

/-- The auto-fallback loop shared by both phases (lines 1141-1184 and
1276-1316): walk the fixed engine order, skipping the engine just used and
murf without a key; re-resolve, rebuild the jobs against the new pool,
rerun, and stop at the first retry with any success.  The second component
is a raised exception, carried alongside the effects so far. -/
def fallbackIter (o : Oracles) (cfg : Config) (sel : VoiceSelection)
    (country : String) (language : Option String)
    (rebuild : List PoolEntry → Except String (List Job)) :
    List String → BatchState → BatchState × Option String
  | [], st => (st, none)
  | fb :: rest, st =>
    if fb = st.ctx.ttsEngine then
      fallbackIter o cfg sel country language rebuild rest st
    else if fb = "murf" ∧ cfg.murfApiKey = "" then
      fallbackIter o cfg sel country language rebuild rest st
    else
      match resolveEngine cfg o.quotaOk o.validateVoice sel country language (some fb) with
      | Except.error e => (st, some e)
      | Except.ok ctx =>
        match rebuild ctx.voicePool with
        | Except.error e => (st, some e)
        | Except.ok jobs =>
          let run := runTTSJobs o ctx st.fs jobs
          let st' : BatchState :=
            { fs := run.1, attempts := st.attempts ++ [ctx.ttsEngine],
              ctx := ctx, results := run.2 }
          if 0 < (successfulOf run.2).length then (st', none)
          else fallbackIter o cfg sel country language rebuild rest st'

/-- The result dictionary of `run_hook_previews` (lines 1190-1205). -/
structure HookResult where
  sessionId : String
  sessionDir : String
  ttsEngine : String
  voicePoolLabels : List (Int × String)
  hookPreviews : List ResultRec
  failedPreviews : List ResultRec
  totalGenerated : Nat
  totalFailed : Nat
  variantsCount : Nat

/-- Outcome of one batch-level call: the final file system, the engine
attempt trace, and either the result record or a propagated exception. -/
structure RunOut (ρ : Type) where
  fs : FileSys
  attempts : List String
  out : Except String ρ

/-- Close out a batch phase: a loop exception is propagated alongside the
effects so far, otherwise the result record is built from the final batch
state. -/
def finishBatch {ρ : Type} (mk : BatchState → ρ) (loop : BatchState × Option String) :
    RunOut ρ :=
  match loop.2 with
  | some e => { fs := loop.1.fs, attempts := loop.1.attempts, out := Except.error e }
  | none => { fs := loop.1.fs, attempts := loop.1.attempts, out := Except.ok (mk loop.1) }

/-- Embedding of `run_hook_previews` (lines 1088-1205). -/
def runHookPreviews (o : Oracles) (cfg : Config) (fs : FileSys)
    (scripts : List Script) (sel : VoiceSelection) (sessionId : String)
    (country : String) (language : Option String)
    (ttsEngineOverride : Option String) (outputsDir : String) :
    RunOut HookResult :=
  let sessionDir := outputsDir ++ "/" ++ sessionId
  match resolveEngine cfg o.quotaOk o.validateVoice sel country language
      ttsEngineOverride with
  | Except.error e => { fs := fs, attempts := [], out := Except.error e }
  | Except.ok ctx =>
    match buildPreviewJobs sessionDir ctx.voicePool scripts with
    | Except.error e => { fs := fs, attempts := [], out := Except.error e }
    | Except.ok jobs =>
      let run := runTTSJobs o ctx fs jobs
      let st0 : BatchState :=
        { fs := run.1, attempts := [ctx.ttsEngine], ctx := ctx, results := run.2 }
      let loop : BatchState × Option String :=
        if (successfulOf run.2).length = 0 ∧ 0 < (failedOf run.2).length then
          fallbackIter o cfg sel country language
            (fun pool => Except.ok (buildRetryPreviewJobs sessionDir pool scripts))
            ["murf", "edge-tts"] st0
        else (st0, none)
      finishBatch
        (fun st =>
          { sessionId := sessionId
            sessionDir := sessionDir
            ttsEngine := st.ctx.ttsEngine
            voicePoolLabels := (List.enum st.ctx.voicePool).map
              (fun ie => ((ie.1 : Int) + 1, ie.2.voiceLabel))
            hookPreviews := successfulOf st.results
            failedPreviews := failedOf st.results
            totalGenerated := (successfulOf st.results).length
            totalFailed := (failedOf st.results).length
            variantsCount := scripts.length })
        loop

/-- The result dictionary of `run_final_audio` (lines 1335-1354). -/
structure FinalResult where
  sessionId : String
  sessionDir : String
  ttsEngine : String
  voiceIdUsed : String
  voiceNameUsed : String
  audioFiles : List ResultRec
  failedFiles : List ResultRec
  totalGenerated : Nat
  totalFailed : Nat
  variantsCount : Nat
  hasBackgroundMusic : Bool
  bgmStyle : String
  outputQuality : String

/-- Embedding of `run_final_audio` (lines 1209-1354). -/
def runFinalAudio (o : Oracles) (cfg : Config) (fs : FileSys)
    (scripts : List Script) (sel : VoiceSelection)
    (voiceChoices : List (Int × Int)) (sessionId : String)
    (country : String) (language : Option String)
    (ttsEngineOverride : Option String) (bgmStyle : String)
    (outputsDir : String) : RunOut FinalResult :=
  let sessionDir := outputsDir ++ "/" ++ sessionId
  match resolveEngine cfg o.quotaOk o.validateVoice sel country language
      ttsEngineOverride with
  | Except.error e => { fs := fs, attempts := [], out := Except.error e }
  | Except.ok ctx =>
    match buildFinalJobs sessionDir voiceChoices ctx.voicePool bgmStyle scripts with
    | Except.error e => { fs := fs, attempts := [], out := Except.error e }
    | Except.ok jobs =>
      let run := runTTSJobs o ctx fs jobs
      let st0 : BatchState :=
        { fs := run.1, attempts := [ctx.ttsEngine], ctx := ctx, results := run.2 }
      let loop : BatchState × Option String :=
        if (successfulOf run.2).length = 0 ∧ 0 < (failedOf run.2).length then
          fallbackIter o cfg sel country language
            (fun pool => buildFinalJobs sessionDir voiceChoices pool bgmStyle scripts)
            ["murf", "edge-tts"] st0
        else (st0, none)
      finishBatch
        (fun st =>
          { sessionId := sessionId
            sessionDir := sessionDir
            ttsEngine := st.ctx.ttsEngine
            voiceIdUsed :=
              if st.ctx.ttsEngine = "murf" then st.ctx.murfVoiceId
              else if st.ctx.ttsEngine = "elevenlabs" then st.ctx.elVoiceId
              else st.ctx.edgeVoice
            voiceNameUsed :=
              if st.ctx.ttsEngine = "murf" then
                st.ctx.murfVoiceId ++ " (" ++ st.ctx.murfLocale ++ ")"
              else if st.ctx.ttsEngine = "elevenlabs" then st.ctx.voiceName
              else st.ctx.edgeVoice
            audioFiles := successfulOf st.results
            failedFiles := failedOf st.results
            totalGenerated := (successfulOf st.results).length
            totalFailed := (failedOf st.results).length
            variantsCount := scripts.length
            hasBackgroundMusic := true
            bgmStyle := bgmStyle
            outputQuality := "stereo 320kbps 44.1kHz" })
        loop

end ObdAudio

namespace ObdAudio

/-! ## Claim C1: preview jobs and background music -/

/-- Benign infrastructure for a preview run: edge synthesis and mixing
succeed, the network providers are unreachable. -/
def c1Oracles : Oracles :=
  { edgeSave := fun _ _ _ _ => Except.ok [1, 2, 3]
    pydubMix := fun _ _ => Except.ok [7, 7]
    copyFile := Except.ok ()
    murfGen := fun _ => Except.error "ConnectionError"
    murfDownload := fun _ => Except.error "ConnectionError"
    elPost := fun _ => Except.error "ConnectionError"
    supabaseUpload := none }

/-- One script with a usable hook. -/
def c1Script : Script := { variantId := 1, theme := "promo", hook := "Special offer!" }

/-- Claim C1: the claim states that every preview artifact reports
`has_background_music = false`.  The code schedules every preview job with
`"skip_bgm": False` (line 1128), so a successful preview run mixes
background music into all three voices and every artifact reports
`has_background_music = true`: the docstring and the claim contradict the
scheduled jobs. -/
theorem c1_preview_artifacts_report_background_music :
    (runHookPreviews c1Oracles { murfApiKey := "", elevenApiKey := "" } []
        [c1Script] {} "s1" "Kenya" none none "outputs").out.map
      (fun r => r.hookPreviews.map
        (fun rec => rec.artifact.map ArtifactMeta.hasBackgroundMusic))
      = Except.ok [some true, some true, some true] := rfl

end ObdAudio

namespace ObdAudio

/-! ## Fallback-loop facts -/

/-- `Except` bind on a success applies the continuation. -/
theorem except_bind_ok {α β : Type} (a : α) (f : α → Except String β) :
    (Except.ok a >>= f) = f a := rfl

/-- `Except` pure is `ok`. -/
theorem except_pure_eq {α : Type} (a : α) : (pure a : Except String α) = Except.ok a := rfl

/-- In-range pool indexing succeeds. -/
theorem poolAt_ok (pool : List PoolEntry) (i : Nat) (h : i < pool.length) :
    ∃ e, poolAt pool i = Except.ok e := by
  rcases hg : pool.get? i with _ | e
  · rw [List.get?_eq_none] at hg
    omega
  · refine ⟨e, ?_⟩
    unfold poolAt
    rw [hg]

/-- Pointwise-successful builders aggregate to the flattened job list. -/
theorem mapMExcept_ok {α β : Type} (f : α → Except String (List β)) (g : α → List β)
    (hf : ∀ a, f a = Except.ok (g a)) :
    ∀ l : List α, mapMExcept f l = Except.ok (l.map g).flatten := by
  intro l
  induction l with
  | nil => rfl
  | cons a t ih => simp [mapMExcept, hf a, ih, except_bind_ok, except_pure_eq]

/-- Pointwise-successful builders aggregate successfully. -/
theorem mapMExcept_isOk {α β : Type} (f : α → Except String (List β))
    (hf : ∀ a, ∃ x, f a = Except.ok x) :
    ∀ l : List α, ∃ ys, mapMExcept f l = Except.ok ys := by
  intro l
  induction l with
  | nil => exact ⟨[], rfl⟩
  | cons a t ih =>
    obtain ⟨x, hx⟩ := hf a
    obtain ⟨ys, hys⟩ := ih
    exact ⟨x ++ ys, by simp [mapMExcept, hx, hys, except_bind_ok, except_pure_eq]⟩

/-- Resolution forced to a fallback provider never raises, and lands on
murf only when the murf key is present, otherwise on edge-tts. -/
theorem resolveEngine_fb (cfg : Config) (q : Bool) (v : String → String)
    (sel : VoiceSelection) (country : String) (language : Option String)
    (fb : String) (hfb : fb = "murf" ∨ fb = "edge-tts") :
    ∃ ctx, resolveEngine cfg q v sel country language (some fb) = Except.ok ctx ∧
      ((ctx.ttsEngine = "murf" ∧ cfg.murfApiKey ≠ "") ∨ ctx.ttsEngine = "edge-tts") := by
  rcases hfb with rfl | rfl
  · rcases hre : resolveEngine cfg q v sel country language (some "murf") with e | ctx
    · by_cases hk : cfg.murfApiKey = "" <;>
        simp [resolveEngine, Except.map, hk] at hre
    · refine ⟨ctx, rfl, ?_⟩
      by_cases hk : cfg.murfApiKey = "" <;>
        simp only [resolveEngine, Except.map, hk] at hre <;>
        simp at hre
      · rw [← hre]
        exact Or.inr rfl
      · rw [← hre]
        exact Or.inl ⟨rfl, hk⟩
  · exact ⟨_, rfl, Or.inr rfl⟩

end ObdAudio

namespace ObdAudio

/-- The engines attempted by the fallback loop extend the prior trace by at
most one entry per fallback candidate, and every retry engine is either
murf backed by a key or edge-tts. -/
theorem fallbackIter_attempts_spec (o : Oracles) (cfg : Config) (sel : VoiceSelection)
    (country : String) (language : Option String)
    (rebuild : List PoolEntry → Except String (List Job)) :
    ∀ (engines : List String) (st : BatchState),
      (∀ e ∈ engines, e = "murf" ∨ e = "edge-tts") →
      ∃ extra, (fallbackIter o cfg sel country language rebuild engines st).1.attempts
          = st.attempts ++ extra ∧
        extra.length ≤ engines.length ∧
        ∀ a ∈ extra, (a = "murf" ∧ cfg.murfApiKey ≠ "") ∨ a = "edge-tts" := by
  intro engines
  induction engines with
  | nil =>
    intro st _
    exact ⟨[], by simp [fallbackIter], by simp, by simp⟩
  | cons fb rest ih =>
    intro st hall
    have hfb : fb = "murf" ∨ fb = "edge-tts" := hall fb (by simp)
    have hrest : ∀ e ∈ rest, e = "murf" ∨ e = "edge-tts" := fun e he => hall e (by simp [he])
    by_cases h1 : fb = st.ctx.ttsEngine
    · obtain ⟨extra, he, hl, hg⟩ := ih st hrest
      refine ⟨extra, ?_, by simp; omega, hg⟩
      simp only [fallbackIter, if_pos h1]
      exact he
    · by_cases h2 : fb = "murf" ∧ cfg.murfApiKey = ""
      · obtain ⟨extra, he, hl, hg⟩ := ih st hrest
        refine ⟨extra, ?_, by simp; omega, hg⟩
        simp only [fallbackIter, if_neg h1, if_pos h2]
        exact he
      · obtain ⟨ctx, hre, hgood⟩ :=
          resolveEngine_fb cfg o.quotaOk o.validateVoice sel country language fb hfb
        rcases hrb : rebuild ctx.voicePool with e | jobs
        · refine ⟨[], ?_, by simp, by simp⟩
          simp only [fallbackIter, if_neg h1, if_neg h2, hre, hrb]
          simp
        · by_cases hs : 0 < (successfulOf (runTTSJobs o ctx st.fs jobs).2).length
          · refine ⟨[ctx.ttsEngine], ?_, by simp, ?_⟩
            · simp only [fallbackIter, if_neg h1, if_neg h2, hre, hrb, if_pos hs]
            · intro a ha
              rw [List.mem_singleton] at ha
              subst ha
              exact hgood
          · obtain ⟨extra, he, hl, hg⟩ := ih
              { fs := (runTTSJobs o ctx st.fs jobs).1,
                attempts := st.attempts ++ [ctx.ttsEngine],
                ctx := ctx,
                results := (runTTSJobs o ctx st.fs jobs).2 } hrest
            refine ⟨ctx.ttsEngine :: extra, ?_, by simp; omega, ?_⟩
            · simp only [fallbackIter, if_neg h1, if_neg h2, hre, hrb, if_neg hs]
              rw [he]
              simp
            · intro a ha
              rcases List.mem_cons.mp ha with rfl | hmem
              · exact hgood
              · exact hg a hmem

end ObdAudio

namespace ObdAudio

/-- The exact condition under which `_resolve_engine` raises: the resolved
engine reaches the elevenlabs branch with credits present while
`voice_selection["selected_voice"]["voice_id"]` is missing (a KeyError at
line 944).  Mirrors the prefix of `resolveEngine`. -/
def resolveRaises (cfg : Config) (quotaOk : Bool) (sel : VoiceSelection)
    (country : String) (language : Option String)
    (ttsEngineOverride : Option String) : Bool :=
  let auto : String :=
    if cfg.murfApiKey ≠ "" then "murf"
    else if hasElevenCredits cfg then (if quotaOk then "elevenlabs" else "edge-tts")
    else "edge-tts"
  let tts0 : String :=
    match ttsEngineOverride with
    | some ov => if ov = "murf" || ov = "elevenlabs" || ov = "edge-tts" then ov else auto
    | none => auto
  let murfStep : String × (String × String × String) :=
    if tts0 = "murf" then
      if cfg.murfApiKey = "" then ("edge-tts", ("", "", ""))
      else ("murf", pickMurfVoice country language)
    else (tts0, ("", "", ""))
  murfStep.1 = "elevenlabs" && hasElevenCredits cfg &&
    (sel.selectedVoice.bind SelectedVoice.voiceId).isNone

/-- A mapped `Except` fails exactly when the underlying one does. -/
theorem except_map_error {α β : Type} (f : α → β) (x : Except String α) (e : String)
    (h : Except.map f x = Except.error e) : x = Except.error e := by
  cases x with
  | error a => simpa [Except.map] using h
  | ok a => simp [Except.map] at h

/-- Resolution always succeeds when the selection carries a voice id. -/
theorem resolveEngine_ok_of_voice (cfg : Config) (q : Bool) (v : String → String)
    (sel : VoiceSelection) (country : String) (language : Option String)
    (ov : Option String)
    (hb : (sel.selectedVoice.bind SelectedVoice.voiceId).isNone = false) :
    ∃ ctx, resolveEngine cfg q v sel country language ov = Except.ok ctx := by
  obtain ⟨sv, hsv⟩ : ∃ sv, sel.selectedVoice = some sv := by
    rcases hx : sel.selectedVoice with _ | sv
    · rw [hx] at hb
      simp [Option.bind] at hb
    · exact ⟨sv, rfl⟩
  obtain ⟨vid, hvid⟩ : ∃ vid, sv.voiceId = some vid := by
    rcases hx : sv.voiceId with _ | vid
    · rw [hsv] at hb
      simp [Option.bind, hx] at hb
    · exact ⟨vid, rfl⟩
  rcases hre : resolveEngine cfg q v sel country language ov with e | ctx
  · exfalso
    simp only [resolveEngine, hsv, hvid] at hre
    have h2 := except_map_error _ _ _ hre
    clear hre
    repeat' split at h2
    all_goals simp_all
  · exact ⟨ctx, rfl⟩

/-- Resolution always succeeds without elevenlabs credits. -/
theorem resolveEngine_ok_of_nocredits (cfg : Config) (q : Bool) (v : String → String)
    (sel : VoiceSelection) (country : String) (language : Option String)
    (ov : Option String) (hc : hasElevenCredits cfg = false) :
    ∃ ctx, resolveEngine cfg q v sel country language ov = Except.ok ctx := by
  rcases hre : resolveEngine cfg q v sel country language ov with e | ctx
  · exfalso
    simp only [resolveEngine] at hre
    have h2 := except_map_error _ _ _ hre
    clear hre
    repeat' split at h2
    all_goals simp_all
  · exact ⟨ctx, rfl⟩

/-- Outside the exact raising condition, `_resolve_engine` succeeds. -/
theorem resolveRaises_false_ok (cfg : Config) (q : Bool) (v : String → String)
    (sel : VoiceSelection) (country : String) (language : Option String)
    (ov : Option String)
    (h : resolveRaises cfg q sel country language ov = false) :
    ∃ ctx, resolveEngine cfg q v sel country language ov = Except.ok ctx := by
  by_cases hc : hasElevenCredits cfg = false
  · exact resolveEngine_ok_of_nocredits cfg q v sel country language ov hc
  by_cases hb : (sel.selectedVoice.bind SelectedVoice.voiceId).isNone = false
  · exact resolveEngine_ok_of_voice cfg q v sel country language ov hb
  have hc' : hasElevenCredits cfg = true := by
    cases hx : hasElevenCredits cfg
    · exact absurd hx hc
    · rfl
  have hb' : (sel.selectedVoice.bind SelectedVoice.voiceId).isNone = true := by
    cases hx : (sel.selectedVoice.bind SelectedVoice.voiceId).isNone
    · exact absurd hx hb
    · rfl
  rcases hre : resolveEngine cfg q v sel country language ov with e | ctx
  · exfalso
    simp only [resolveRaises] at h
    simp only [resolveEngine] at hre
    have h2 := except_map_error _ _ _ hre
    clear hre
    repeat' split at h2
    all_goals simp_all
  · exact ⟨ctx, rfl⟩

end ObdAudio

namespace ObdAudio

/-- When rebuilding never fails on a three-entry pool, the fallback loop
raises nothing. -/
theorem fallbackIter_no_error (o : Oracles) (cfg : Config) (sel : VoiceSelection)
    (country : String) (language : Option String)
    (rebuild : List PoolEntry → Except String (List Job))
    (hrb : ∀ pool : List PoolEntry, pool.length = 3 → ∃ js, rebuild pool = Except.ok js) :
    ∀ (engines : List String) (st : BatchState),
      (∀ e ∈ engines, e = "murf" ∨ e = "edge-tts") →
      (fallbackIter o cfg sel country language rebuild engines st).2 = none := by
  intro engines
  induction engines with
  | nil =>
    intro st _
    simp [fallbackIter]
  | cons fb rest ih =>
    intro st hall
    have hfb : fb = "murf" ∨ fb = "edge-tts" := hall fb (by simp)
    have hrest : ∀ e ∈ rest, e = "murf" ∨ e = "edge-tts" := fun e he => hall e (by simp [he])
    by_cases h1 : fb = st.ctx.ttsEngine
    · simp only [fallbackIter, if_pos h1]
      exact ih st hrest
    · by_cases h2 : fb = "murf" ∧ cfg.murfApiKey = ""
      · simp only [fallbackIter, if_neg h1, if_pos h2]
        exact ih st hrest
      · obtain ⟨ctx, hre, -⟩ :=
          resolveEngine_fb cfg o.quotaOk o.validateVoice sel country language fb hfb
        obtain ⟨js, hjs⟩ := hrb ctx.voicePool
          (resolveEngine_pool_length cfg o.quotaOk o.validateVoice sel country language
            (some fb) ctx hre)
        by_cases hs : 0 < (successfulOf (runTTSJobs o ctx st.fs js).2).length
        · simp only [fallbackIter, if_neg h1, if_neg h2, hre, hjs, if_pos hs]
        · simp only [fallbackIter, if_neg h1, if_neg h2, hre, hjs, if_neg hs]
          exact ih _ hrest

/-- The per-phase outcome record always exposes the loop trace. -/
theorem finishBatch_attempts {ρ : Type} (mk : BatchState → ρ)
    (loop : BatchState × Option String) :
    (finishBatch mk loop).attempts = loop.1.attempts := by
  rcases hl : loop.2 with _ | e <;> simp [finishBatch, hl]

/-- A loop that raised nothing finishes with a result record. -/
theorem finishBatch_ok {ρ : Type} (mk : BatchState → ρ)
    (loop : BatchState × Option String) (h : loop.2 = none) :
    (finishBatch mk loop).out.isOk = true := by
  simp [finishBatch, h, Except.isOk, Except.toBool]

end ObdAudio

namespace ObdAudio

/-! ## Claim C3: the auto-fallback retry discipline -/

/-- The amended retry discipline: at most three engine batches ever run
(the initial one plus at most one per fallback candidate), and every batch
after the first runs on murf backed by a key or on edge-tts. -/
def AttemptTraceSpec (cfg : Config) (tr : List String) : Prop :=
  tr.length ≤ 3 ∧
  ∀ a ∈ tr.drop 1, (a = "murf" ∧ cfg.murfApiKey ≠ "") ∨ a = "edge-tts"

/-- The batch-phase loop satisfies the retry discipline whenever it starts
from a single recorded attempt. -/
theorem loop_attempts_spec (o : Oracles) (cfg : Config) (sel : VoiceSelection)
    (country : String) (language : Option String)
    (rebuild : List PoolEntry → Except String (List Job))
    (c : Prop) [Decidable c] (st0 : BatchState)
    (ha : ∃ x, st0.attempts = [x]) :
    AttemptTraceSpec cfg
      ((if c then fallbackIter o cfg sel country language rebuild ["murf", "edge-tts"] st0
        else (st0, none)).1.attempts) := by
  obtain ⟨x, hx⟩ := ha
  by_cases hc : c
  · rw [if_pos hc]
    obtain ⟨extra, he, hl, hg⟩ := fallbackIter_attempts_spec o cfg sel country language
      rebuild ["murf", "edge-tts"] st0 (by simp)
    rw [he, hx]
    constructor
    · have hl2 : extra.length ≤ 2 := by simpa using hl
      simp only [List.singleton_append, List.length_cons]
      omega
    · intro a haa
      simp only [List.singleton_append, List.drop_succ_cons, List.drop_zero] at haa
      exact hg a haa
  · rw [if_neg hc]
    exact ⟨by simp [hx], by simp [hx]⟩

/-- The preview phase obeys the retry discipline on every input. -/
theorem runHookPreviews_attempts (o : Oracles) (cfg : Config) (fs : FileSys)
    (scripts : List Script) (sel : VoiceSelection) (sessionId country : String)
    (language ttsEngineOverride : Option String) (outputsDir : String) :
    AttemptTraceSpec cfg
      (runHookPreviews o cfg fs scripts sel sessionId country language
        ttsEngineOverride outputsDir).attempts := by
  rcases hre : resolveEngine cfg o.quotaOk o.validateVoice sel country language
      ttsEngineOverride with e | ctx
  · simp only [runHookPreviews, hre]
    exact ⟨by simp, by simp⟩
  · rcases hbj : buildPreviewJobs (outputsDir ++ "/" ++ sessionId) ctx.voicePool scripts
        with e | jobs
    · simp only [runHookPreviews, hre, hbj]
      exact ⟨by simp, by simp⟩
    · simp only [runHookPreviews, hre, hbj, finishBatch_attempts]
      exact loop_attempts_spec o cfg sel country language _ _ _ ⟨ctx.ttsEngine, rfl⟩

/-- The final phase obeys the retry discipline on every input. -/
theorem runFinalAudio_attempts (o : Oracles) (cfg : Config) (fs : FileSys)
    (scripts : List Script) (sel : VoiceSelection) (voiceChoices : List (Int × Int))
    (sessionId country : String) (language ttsEngineOverride : Option String)
    (bgmStyle outputsDir : String) :
    AttemptTraceSpec cfg
      (runFinalAudio o cfg fs scripts sel voiceChoices sessionId country language
        ttsEngineOverride bgmStyle outputsDir).attempts := by
  rcases hre : resolveEngine cfg o.quotaOk o.validateVoice sel country language
      ttsEngineOverride with e | ctx
  · simp only [runFinalAudio, hre]
    exact ⟨by simp, by simp⟩
  · rcases hbj : buildFinalJobs (outputsDir ++ "/" ++ sessionId) voiceChoices
        ctx.voicePool bgmStyle scripts with e | jobs
    · simp only [runFinalAudio, hre, hbj]
      exact ⟨by simp, by simp⟩
    · simp only [runFinalAudio, hre, hbj, finishBatch_attempts]
      exact loop_attempts_spec o cfg sel country language _ _ _ ⟨ctx.ttsEngine, rfl⟩

end ObdAudio

namespace ObdAudio

/-- Configuration with both provider credentials present. -/
def c3Cfg : Config := { murfApiKey := "mk", elevenApiKey := "sk-live-0123456789abc" }

/-- A selection naming an elevenlabs voice. -/
def c3Sel : VoiceSelection :=
  { selectedVoice := some { name := some "Rachel", voiceId := some "r1" } }

/-- Every synthesis backend fails. -/
def c3Oracles : Oracles :=
  { edgeSave := fun _ _ _ _ => Except.error "ConnectionError"
    pydubMix := fun _ _ => Except.error "MixError"
    copyFile := Except.error "CopyError"
    murfGen := fun _ => Except.error "ConnectionError"
    murfDownload := fun _ => Except.error "ConnectionError"
    elPost := fun _ => Except.error "ConnectionError"
    supabaseUpload := none }

/-- One script with a usable hook. -/
def c3Script : Script := { variantId := 1, theme := "promo", hook := "Hi there" }

/-- Claim C3 counterexample: the claim says a completely failed batch is
retried exactly once.  Forcing elevenlabs with a murf key configured and
every backend down, the preview phase runs three batches (elevenlabs, then
murf, then edge-tts): the fallback loop walks every remaining provider
rather than retrying exactly once. -/
theorem c3_counterexample :
    ¬ ∀ (o : Oracles) (cfg : Config) (fs : FileSys) (scripts : List Script)
        (sel : VoiceSelection) (sessionId country : String)
        (language ttsEngineOverride : Option String) (outputsDir : String),
      (runHookPreviews o cfg fs scripts sel sessionId country language
        ttsEngineOverride outputsDir).attempts.length ≤ 2 := by
  intro h
  exact absurd
    (h c3Oracles c3Cfg [] [c3Script] c3Sel "s1" "" none (some "elevenlabs") "outputs")
    (by decide)

/-- Claim C3 (amended): if every job of a batch fails, the scheduler
re-resolves and retries once per remaining provider of the fixed order
murf, edge-tts — skipping the provider just tried and murf without a key,
and stopping at the first retry with any success — so each phase runs at
most three batches, and every batch after the first uses a credentialed
fallback provider. -/
theorem c3_retry_discipline (o : Oracles) (cfg : Config) (fs : FileSys)
    (scripts : List Script) (sel : VoiceSelection) (voiceChoices : List (Int × Int))
    (sessionId country : String) (language ttsEngineOverride : Option String)
    (bgmStyle outputsDir : String) :
    AttemptTraceSpec cfg
      (runHookPreviews o cfg fs scripts sel sessionId country language
        ttsEngineOverride outputsDir).attempts ∧
    AttemptTraceSpec cfg
      (runFinalAudio o cfg fs scripts sel voiceChoices sessionId country language
        ttsEngineOverride bgmStyle outputsDir).attempts :=
  ⟨runHookPreviews_attempts o cfg fs scripts sel sessionId country language
      ttsEngineOverride outputsDir,
    runFinalAudio_attempts o cfg fs scripts sel voiceChoices sessionId country language
      ttsEngineOverride bgmStyle outputsDir⟩

/-- The amended retry discipline at the counterexample's own input: the
three attempted engines are admissible and no fourth batch runs. -/
theorem c3_retry_discipline_witness :
    AttemptTraceSpec c3Cfg
      (runHookPreviews c3Oracles c3Cfg [] [c3Script] c3Sel "s1" "" none
        (some "elevenlabs") "outputs").attempts ∧
    AttemptTraceSpec c3Cfg
      (runFinalAudio c3Oracles c3Cfg [] [c3Script] c3Sel [] "s1" "" none
        (some "elevenlabs") "upbeat" "outputs").attempts :=
  c3_retry_discipline c3Oracles c3Cfg [] [c3Script] c3Sel [] "s1" "" none
    (some "elevenlabs") "upbeat" "outputs"

end ObdAudio

namespace ObdAudio

/-! ## Claim C5: batch-level calls and unhandled exceptions -/

/-- Binding a known success into a pure continuation. -/
theorem bind_pure_ok {α β : Type} (x : Except String α) (a : α) (h : x = Except.ok a)
    (g : α → β) : (x >>= fun v => pure (g v) : Except String β) = Except.ok (g a) := by
  rw [h]
  rfl

/-- Preview jobs for one script always build on a three-voice pool. -/
theorem previewJobsFor_ok (sd : String) (pool : List PoolEntry) (s : Script)
    (hp : pool.length = 3) : ∃ js, previewJobsFor sd pool s = Except.ok js := by
  by_cases hb : pyBlank (hookTextOf s)
  · exact ⟨[], by simp [previewJobsFor, hb]⟩
  · obtain ⟨e0, h0⟩ := poolAt_ok pool 0 (by omega)
    obtain ⟨e1, h1⟩ := poolAt_ok pool 1 (by omega)
    obtain ⟨e2, h2⟩ := poolAt_ok pool 2 (by omega)
    rcases hres : previewJobsFor sd pool s with e | js
    · exfalso
      simp [previewJobsFor, hb, previewJobAt, h0, h1, h2, except_bind_ok,
        except_pure_eq] at hres
    · exact ⟨js, rfl⟩

/-- The preview job list always builds on a three-voice pool. -/
theorem buildPreviewJobs_ok (sd : String) (pool : List PoolEntry)
    (scripts : List Script) (hp : pool.length = 3) :
    ∃ js, buildPreviewJobs sd pool scripts = Except.ok js :=
  mapMExcept_isOk _ (fun s => previewJobsFor_ok sd pool s hp) scripts

/-- The clamped chosen voice index stays inside a non-empty pool. -/
theorem chosenIdx_lt (vc : List (Int × Int)) (vid : Int) (n : Nat) (h : 0 < n) :
    chosenIdx vc vid n < n := by
  simp only [chosenIdx]
  omega

/-- Final jobs for one script always build on a non-empty pool. -/
theorem finalJobsFor_ok (sd : String) (vc : List (Int × Int)) (pool : List PoolEntry)
    (bgm : String) (s : Script) (hp : 0 < pool.length) :
    ∃ js, finalJobsFor sd vc pool bgm s = Except.ok js := by
  obtain ⟨e, he⟩ := poolAt_ok pool (chosenIdx vc s.variantId pool.length)
    (chosenIdx_lt vc s.variantId pool.length hp)
  simp only [finalJobsFor]
  apply mapMExcept_isOk
  intro ts
  exact ⟨_, bind_pure_ok _ _ he _⟩

/-- The final job list always builds on a non-empty pool. -/
theorem buildFinalJobs_ok (sd : String) (vc : List (Int × Int)) (pool : List PoolEntry)
    (bgm : String) (scripts : List Script) (hp : 0 < pool.length) :
    ∃ js, buildFinalJobs sd vc pool bgm scripts = Except.ok js :=
  mapMExcept_isOk _ (fun s => finalJobsFor_ok sd vc pool bgm s hp) scripts

/-- Outside the resolver's raising condition the preview phase returns a
result record. -/
theorem runHookPreviews_isOk (o : Oracles) (cfg : Config) (fs : FileSys)
    (scripts : List Script) (sel : VoiceSelection) (sessionId country : String)
    (language ov : Option String) (outputsDir : String)
    (h : resolveRaises cfg o.quotaOk sel country language ov = false) :
    (runHookPreviews o cfg fs scripts sel sessionId country language ov
      outputsDir).out.isOk = true := by
  obtain ⟨ctx, hre⟩ :=
    resolveRaises_false_ok cfg o.quotaOk o.validateVoice sel country language ov h
  have hpool := resolveEngine_pool_length cfg o.quotaOk o.validateVoice sel country
    language ov ctx hre
  obtain ⟨jobs, hbj⟩ :=
    buildPreviewJobs_ok (outputsDir ++ "/" ++ sessionId) ctx.voicePool scripts hpool
  simp only [runHookPreviews, hre, hbj]
  apply finishBatch_ok
  by_cases hcond : (successfulOf (runTTSJobs o ctx fs jobs).2).length = 0 ∧
      0 < (failedOf (runTTSJobs o ctx fs jobs).2).length
  · rw [if_pos hcond]
    exact fallbackIter_no_error o cfg sel country language _
      (fun pool hp => ⟨_, rfl⟩) ["murf", "edge-tts"] _ (by simp)
  · rw [if_neg hcond]

/-- Outside the resolver's raising condition the final phase returns a
result record. -/
theorem runFinalAudio_isOk (o : Oracles) (cfg : Config) (fs : FileSys)
    (scripts : List Script) (sel : VoiceSelection) (voiceChoices : List (Int × Int))
    (sessionId country : String) (language ov : Option String)
    (bgmStyle outputsDir : String)
    (h : resolveRaises cfg o.quotaOk sel country language ov = false) :
    (runFinalAudio o cfg fs scripts sel voiceChoices sessionId country language ov
      bgmStyle outputsDir).out.isOk = true := by
  obtain ⟨ctx, hre⟩ :=
    resolveRaises_false_ok cfg o.quotaOk o.validateVoice sel country language ov h
  have hpool := resolveEngine_pool_length cfg o.quotaOk o.validateVoice sel country
    language ov ctx hre
  obtain ⟨jobs, hbj⟩ := buildFinalJobs_ok (outputsDir ++ "/" ++ sessionId) voiceChoices
    ctx.voicePool bgmStyle scripts (by omega)
  simp only [runFinalAudio, hre, hbj]
  apply finishBatch_ok
  by_cases hcond : (successfulOf (runTTSJobs o ctx fs jobs).2).length = 0 ∧
      0 < (failedOf (runTTSJobs o ctx fs jobs).2).length
  · rw [if_pos hcond]
    exact fallbackIter_no_error o cfg sel country language _
      (fun pool hp => buildFinalJobs_ok (outputsDir ++ "/" ++ sessionId) voiceChoices
        pool bgmStyle scripts (by omega))
      ["murf", "edge-tts"] _ (by simp)
  · rw [if_neg hcond]

/-- A forced murf engine without a key silently lands on edge-tts. -/
theorem murf_downgrade (cfg : Config) (q : Bool) (v : String → String)
    (sel : VoiceSelection) (country : String) (language : Option String)
    (ctx : EngineCtx) (hk : cfg.murfApiKey = "")
    (h : resolveEngine cfg q v sel country language (some "murf") = Except.ok ctx) :
    ctx.ttsEngine = "edge-tts" := by
  obtain ⟨ctx', h', hg⟩ := resolveEngine_fb cfg q v sel country language "murf" (Or.inl rfl)
  rw [h] at h'
  injection h' with h''
  subst h''
  rcases hg with ⟨-, hk'⟩ | he
  · exact absurd hk hk'
  · exact he

/-- A forced elevenlabs engine without credits silently lands on
edge-tts. -/
theorem eleven_downgrade (cfg : Config) (q : Bool) (v : String → String)
    (sel : VoiceSelection) (country : String) (language : Option String)
    (ctx : EngineCtx) (hc : hasElevenCredits cfg = false)
    (h : resolveEngine cfg q v sel country language (some "elevenlabs") = Except.ok ctx) :
    ctx.ttsEngine = "edge-tts" := by
  simp [resolveEngine, Except.map, hc] at h
  subst h
  rfl

end ObdAudio

namespace ObdAudio

/-- Any oracle set (the counterexample raises before any oracle runs). -/
def c5Oracles : Oracles :=
  { edgeSave := fun _ _ _ _ => Except.error "ConnectionError"
    pydubMix := fun _ _ => Except.error "MixError"
    copyFile := Except.error "CopyError"
    murfGen := fun _ => Except.error "ConnectionError"
    murfDownload := fun _ => Except.error "ConnectionError"
    elPost := fun _ => Except.error "ConnectionError"
    supabaseUpload := none }

/-- One script with a usable hook. -/
def c5Script : Script := { variantId := 1, hook := "Hello!" }

/-- Claim C5 counterexample: the claim says a batch-level call never
propagates an exception.  With a valid-looking elevenlabs key, engine
forced to elevenlabs and no `selected_voice` in the selection,
`_resolve_engine` reads `voice_selection["selected_voice"]["voice_id"]`
and the KeyError escapes `run_hook_previews` instead of a result
record. -/
theorem c5_counterexample :
    (runHookPreviews c5Oracles { murfApiKey := "", elevenApiKey := "sk-live-0123456789abc" }
        [] [c5Script] {} "s1" "" none (some "elevenlabs") "outputs").out
      = Except.error "KeyError: selected_voice" := rfl

/-- Claim C5 (amended): outside the one raising condition — the resolved
engine reaching elevenlabs with credits while the selection carries no
voice id — both batch-level calls return a result record; and a forced
provider lacking its credential (murf without a key, elevenlabs without
credits) is silently downgraded to edge-tts rather than raising. -/
theorem c5_no_unhandled_exception (o : Oracles) (cfg : Config) (fs : FileSys)
    (scripts : List Script) (sel : VoiceSelection) (voiceChoices : List (Int × Int))
    (sessionId country : String) (language ov : Option String)
    (bgmStyle outputsDir : String)
    (h : resolveRaises cfg o.quotaOk sel country language ov = false) :
    (runHookPreviews o cfg fs scripts sel sessionId country language ov
      outputsDir).out.isOk = true ∧
    (runFinalAudio o cfg fs scripts sel voiceChoices sessionId country language ov
      bgmStyle outputsDir).out.isOk = true ∧
    (∀ ctx, cfg.murfApiKey = "" →
      resolveEngine cfg o.quotaOk o.validateVoice sel country language (some "murf")
        = Except.ok ctx → ctx.ttsEngine = "edge-tts") ∧
    (∀ ctx, hasElevenCredits cfg = false →
      resolveEngine cfg o.quotaOk o.validateVoice sel country language (some "elevenlabs")
        = Except.ok ctx → ctx.ttsEngine = "edge-tts") :=
  ⟨runHookPreviews_isOk o cfg fs scripts sel sessionId country language ov outputsDir h,
    runFinalAudio_isOk o cfg fs scripts sel voiceChoices sessionId country language ov
      bgmStyle outputsDir h,
    fun ctx hk h' =>
      murf_downgrade cfg o.quotaOk o.validateVoice sel country language ctx hk h',
    fun ctx hc h' =>
      eleven_downgrade cfg o.quotaOk o.validateVoice sel country language ctx hc h'⟩

/-- The amended no-raise guarantee at a concrete input: no credentials at
all, the downgrade path. -/
theorem c5_no_unhandled_exception_witness :
    resolveRaises { murfApiKey := "", elevenApiKey := "" } c5Oracles.quotaOk {} "" none
      (some "murf") = false ∧
    ((runHookPreviews c5Oracles { murfApiKey := "", elevenApiKey := "" } [] [c5Script] {}
        "s1" "" none (some "murf") "outputs").out.isOk = true ∧
      (runFinalAudio c5Oracles { murfApiKey := "", elevenApiKey := "" } [] [c5Script] {}
        [] "s1" "" none (some "murf") "upbeat" "outputs").out.isOk = true ∧
      (∀ ctx, ({ murfApiKey := "", elevenApiKey := "" } : Config).murfApiKey = "" →
        resolveEngine { murfApiKey := "", elevenApiKey := "" } c5Oracles.quotaOk
          c5Oracles.validateVoice {} "" none (some "murf") = Except.ok ctx →
        ctx.ttsEngine = "edge-tts") ∧
      (∀ ctx, hasElevenCredits { murfApiKey := "", elevenApiKey := "" } = false →
        resolveEngine { murfApiKey := "", elevenApiKey := "" } c5Oracles.quotaOk
          c5Oracles.validateVoice {} "" none (some "elevenlabs") = Except.ok ctx →
        ctx.ttsEngine = "edge-tts")) :=
  ⟨by decide,
    c5_no_unhandled_exception c5Oracles { murfApiKey := "", elevenApiKey := "" } []
      [c5Script] {} [] "s1" "" none (some "murf") "upbeat" "outputs" (by decide)⟩

end ObdAudio

namespace ObdAudio

/-! ## Claim C7: final-mode job expansion -/

/-- Flattening singleton blocks is a plain map. -/
theorem flatten_singletons {α β : Type} (f : α → β) :
    ∀ l : List α, (l.map (fun a => [f a])).flatten = l.map f := by
  intro l
  induction l with
  | nil => rfl
  | cons a t ih => simp [ih]

/-- In-range pool indexing is total indexing. -/
theorem poolAt_getD (pool : List PoolEntry) (i : Nat) (d : PoolEntry)
    (h : i < pool.length) : poolAt pool i = Except.ok (pool.getD i d) := by
  rcases hg : pool.get? i with _ | e
  · rw [List.get?_eq_none] at hg
    omega
  · unfold poolAt
    rw [hg]
    rw [List.get?_eq_getElem?] at hg
    simp [List.getD_eq_getElem?_getD, hg]

/-- Modelled on the specification wording: final-mode expansion schedules,
per script, one job per non-empty section among main, fallback1,
fallback2, closure, all voiced by the clamped caller-chosen index. -/
def specFinalJobsFor (sessionDir : String) (voiceChoices : List (Int × Int))
    (pool : List PoolEntry) (bgmStyle : String) (s : Script) : List Job :=
  let ci := chosenIdx voiceChoices s.variantId pool.length
  ((finalSections s).filter (fun ts => !pyBlank ts.1)).map (fun ts =>
    mergePool
      { text := ts.1.data
        path := sessionDir ++ "/variant_" ++ toString s.variantId ++ "_voice" ++
          toString (ci + 1) ++ "_" ++ ts.2 ++ ".mp3"
        variantId := s.variantId
        type := ts.2
        theme := s.theme
        voiceIndex := (ci : Int) + 1
        skipBgm := false
        bgmStyle := bgmStyle }
      (pool.getD ci { voiceLabel := "" }))

/-- On a non-empty pool the source's job builder computes exactly the
specification's expansion. -/
theorem finalJobsFor_eq (sd : String) (vc : List (Int × Int)) (pool : List PoolEntry)
    (bgm : String) (s : Script) (hp : 0 < pool.length) :
    finalJobsFor sd vc pool bgm s = Except.ok (specFinalJobsFor sd vc pool bgm s) := by
  have hpa := poolAt_getD pool (chosenIdx vc s.variantId pool.length)
    { voiceLabel := "" } (chosenIdx_lt vc s.variantId pool.length hp)
  simp only [finalJobsFor]
  rw [mapMExcept_ok _ _ (fun ts => bind_pure_ok _ _ hpa _)]
  rw [flatten_singletons]
  rfl

end ObdAudio

namespace ObdAudio

/-- Benign infrastructure for a final run: edge synthesis and mixing
succeed, network providers unreachable. -/
def c7Oracles : Oracles :=
  { edgeSave := fun _ _ _ _ => Except.ok [4, 4, 4]
    pydubMix := fun _ _ => Except.ok [9, 9]
    copyFile := Except.ok ()
    murfGen := fun _ => Except.error "ConnectionError"
    murfDownload := fun _ => Except.error "ConnectionError"
    elPost := fun _ => Except.error "ConnectionError"
    supabaseUpload := none }

/-- The specification's example script: empty `fallback_2`, every other
section filled. -/
def c7Script : Script :=
  { variantId := 1, theme := "promo", hook := "Special offer!",
    fullScript := "Hello, this is the main script.",
    fallback1 := "Are you still there?",
    fallback2 := "",
    politeClosure := "Thanks, goodbye." }

/-- A concrete three-entry voice pool. -/
def c7Pool : List PoolEntry :=
  [{ edgeVoice := some "en-US-JennyNeural", voiceLabel := "Jenny (Female)" },
   { edgeVoice := some "en-US-GuyNeural", voiceLabel := "Guy (Male)" },
   { edgeVoice := some "en-US-AriaNeural", voiceLabel := "Aria (Female)" }]

/-- Claim C7: on a three-voice pool, final-mode expansion is exactly one
job per non-empty section with the clamped caller-chosen voice; in
particular the spec's example — empty `fallback_2` and `voice_choices`
sending variant 1 to voice 2 — yields exactly the three artifacts main,
fallback1 and closure, all tagged `voice_index = 2`. -/
theorem c7_final_job_expansion (sessionDir bgmStyle : String)
    (voiceChoices : List (Int × Int)) (pool : List PoolEntry) (scripts : List Script)
    (hpool : pool.length = 3) :
    (buildFinalJobs sessionDir voiceChoices pool bgmStyle scripts =
      Except.ok
        ((scripts.map (specFinalJobsFor sessionDir voiceChoices pool bgmStyle)).flatten)) ∧
    (∀ s : Script,
      ((specFinalJobsFor sessionDir voiceChoices pool bgmStyle s).map Job.type =
        ((finalSections s).filter (fun ts => !pyBlank ts.1)).map Prod.snd) ∧
      ∀ j ∈ specFinalJobsFor sessionDir voiceChoices pool bgmStyle s,
        j.variantId = s.variantId ∧
        j.voiceIndex = (chosenIdx voiceChoices s.variantId 3 : Int) + 1 ∧
        chosenIdx voiceChoices s.variantId 3 < 3) ∧
    ((runFinalAudio c7Oracles { murfApiKey := "", elevenApiKey := "" } [] [c7Script] {}
        [(1, 2)] "s1" "Kenya" none none "upbeat" "outputs").out.map
      (fun r => (r.audioFiles.map (fun rec => (rec.type, rec.voiceIndex)),
        r.failedFiles.length))
      = Except.ok ([("main", 2), ("fallback1", 2), ("closure", 2)], 0)) := by
  refine ⟨?_, ?_, ?_⟩
  · simp only [buildFinalJobs]
    exact mapMExcept_ok _ _
      (fun s => finalJobsFor_eq sessionDir voiceChoices pool bgmStyle s (by omega))
      scripts
  · intro s
    constructor
    · simp only [specFinalJobsFor]
      rw [List.map_map]
      rfl
    · intro j hj
      simp only [specFinalJobsFor] at hj
      rw [List.mem_map] at hj
      obtain ⟨ts, hts, rfl⟩ := hj
      refine ⟨rfl, ?_, ?_⟩
      · rw [← hpool]
        rfl
      · rw [← hpool]
        exact chosenIdx_lt voiceChoices s.variantId pool.length (by omega)
  · rfl

end ObdAudio

namespace ObdAudio

/-- The final-mode expansion facts at a concrete three-entry pool. -/
theorem c7_final_job_expansion_witness :
    c7Pool.length = 3 ∧
    ((buildFinalJobs "d" [(1, 2)] c7Pool "calm" [c7Script] =
      Except.ok
        (([c7Script].map (specFinalJobsFor "d" [(1, 2)] c7Pool "calm")).flatten)) ∧
    (∀ s : Script,
      ((specFinalJobsFor "d" [(1, 2)] c7Pool "calm" s).map Job.type =
        ((finalSections s).filter (fun ts => !pyBlank ts.1)).map Prod.snd) ∧
      ∀ j ∈ specFinalJobsFor "d" [(1, 2)] c7Pool "calm" s,
        j.variantId = s.variantId ∧
        j.voiceIndex = (chosenIdx [(1, 2)] s.variantId 3 : Int) + 1 ∧
        chosenIdx [(1, 2)] s.variantId 3 < 3) ∧
    ((runFinalAudio c7Oracles { murfApiKey := "", elevenApiKey := "" } [] [c7Script] {}
        [(1, 2)] "s1" "Kenya" none none "upbeat" "outputs").out.map
      (fun r => (r.audioFiles.map (fun rec => (rec.type, rec.voiceIndex)),
        r.failedFiles.length))
      = Except.ok ([("main", 2), ("fallback1", 2), ("closure", 2)], 0))) :=
  ⟨rfl, c7_final_job_expansion "d" "calm" [(1, 2)] c7Pool [c7Script] rfl⟩

end ObdAudio

namespace ObdAudio

/-! ## Idempotence development: characters -/

/-- `Char.toLower` fixes every character whose lower-case image would be
outside the lower-case letters; stated for `[`. -/
theorem toLower_eq_bracket {c : Char} (h : c.toLower = '[') : c = '[' := by
  have key : ∀ n, n < 91 → 65 ≤ n → Char.ofNat (n + 32) ≠ '[' := by decide
  simp only [Char.toLower] at h
  split at h
  · next hc => exact absurd h (key c.toNat (by omega) (by omega))
  · exact h

/-- `Char.toLower` cannot produce `<` from another character. -/
theorem toLower_eq_langle {c : Char} (h : c.toLower = '<') : c = '<' := by
  have key : ∀ n, n < 91 → 65 ≤ n → Char.ofNat (n + 32) ≠ '<' := by decide
  simp only [Char.toLower] at h
  split at h
  · next hc => exact absurd h (key c.toNat (by omega) (by omega))
  · exact h

/-- `Char.toLower` cannot produce `*` from another character. -/
theorem toLower_eq_star {c : Char} (h : c.toLower = '*') : c = '*' := by
  have key : ∀ n, n < 91 → 65 ≤ n → Char.ofNat (n + 32) ≠ '*' := by decide
  simp only [Char.toLower] at h
  split at h
  · next hc => exact absurd h (key c.toNat (by omega) (by omega))
  · exact h

/-- Lower-casing an ASCII upper-case letter leaves the upper-case range. -/
theorem toLower_not_upper {c : Char} (h : isUpperAZ c = true) :
    isUpperAZ c.toLower = false := by
  have key : ∀ n, n < 91 → 65 ≤ n → isUpperAZ (Char.ofNat (n + 32)) = false := by decide
  have hrange : 65 ≤ c.toNat ∧ c.toNat ≤ 90 := by
    simp only [isUpperAZ, Bool.and_eq_true, decide_eq_true_eq] at h
    exact ⟨h.1, h.2⟩
  simp only [Char.toLower]
  rw [if_pos (by omega)]
  exact key c.toNat (by omega) (by omega)

/-! ## Idempotence development: steps 1-3 vanish without tag openers -/

/-- A substitution whose matcher never fires is the identity. -/
theorem subF_id (m : List Char → Option (List Char)) (repl : List Char) :
    ∀ (fuel : Nat) (l : List Char),
      (∀ c cs, c ∈ l → m (c :: cs) = none) → subF m repl fuel l = l := by
  intro fuel l
  induction l generalizing fuel with
  | nil => intro _; cases fuel <;> rfl
  | cons c cs ih =>
    intro hm
    cases fuel with
    | zero => rfl
    | succ fuel =>
      simp only [subF, hm c cs (by simp)]
      exact congrArg (c :: ·) (ih fuel fun d ds hd => hm d ds (by simp [hd]))

/-- A case-insensitive literal starting with `[` fails on any other head. -/
theorem dropLitCI_bracket_none (ps : List Char) (c : Char) (cs : List Char)
    (hc : c ≠ '[') : dropLitCI ('[' :: ps) (c :: cs) = none := by
  simp only [dropLitCI]
  rw [if_neg]
  intro heq
  have h1 : ('[' : Char).toLower = '[' := by decide
  exact hc (toLower_eq_bracket (heq.symm.trans h1))

theorem matchLaughTag_none (c : Char) (cs : List Char) (hc : c ≠ '[') :
    matchLaughTag (c :: cs) = none := by
  show (dropLitCI ('[' :: chars "laugh") (c :: cs)).bind matchOptS = none
  rw [dropLitCI_bracket_none _ _ _ hc]
  rfl

theorem matchLightTag_none (c : Char) (cs : List Char) (hc : c ≠ '[') :
    matchLightTag (c :: cs) = none := by
  show dropLitCI ('[' :: chars "lightlaugh]") (c :: cs) = none
  exact dropLitCI_bracket_none _ _ _ hc

theorem matchSighTag_none (c : Char) (cs : List Char) (hc : c ≠ '[') :
    matchSighTag (c :: cs) = none := by
  show dropLitCI ('[' :: chars "sigh]") (c :: cs) = none
  exact dropLitCI_bracket_none _ _ _ hc

theorem matchGaspTag_none (c : Char) (cs : List Char) (hc : c ≠ '[') :
    matchGaspTag (c :: cs) = none := by
  show (dropLitCI ('[' :: chars "gasp") (c :: cs)).bind matchOptS = none
  rw [dropLitCI_bracket_none _ _ _ hc]
  rfl

theorem matchShortPauseTag_none (c : Char) (cs : List Char) (hc : c ≠ '[') :
    matchShortPauseTag (c :: cs) = none := by
  show (dropLitCI ('[' :: chars "short") (c :: cs)).bind _ = none
  rw [dropLitCI_bracket_none _ _ _ hc]
  rfl

theorem matchPauseTag_none (c : Char) (cs : List Char) (hc : c ≠ '[') :
    matchPauseTag (c :: cs) = none := by
  show dropLitCI ('[' :: chars "pause]") (c :: cs) = none
  exact dropLitCI_bracket_none _ _ _ hc

theorem matchBracketTag_none (c : Char) (cs : List Char) (hc : c ≠ '[') :
    matchBracketTag (c :: cs) = none := by
  rw [matchBracketTag.eq_def]
  split
  · next heq => exact absurd (List.cons.inj heq).1 hc
  · rfl

theorem matchXmlTag_none (c : Char) (cs : List Char) (hc : c ≠ '<') :
    matchXmlTag (c :: cs) = none := by
  rw [matchXmlTag.eq_def]
  split
  · next heq => exact absurd (List.cons.inj heq).1 hc
  · rfl

/-- Step 1 does nothing to text without `[`. -/
theorem step1_id (l : List Char) (h : '[' ∉ l) : step1 l = l := by
  have h1 := subF_id matchLaughTag (chars "ha ha, ") l.length l
    (fun c cs hc => matchLaughTag_none c cs (fun he => h (he ▸ hc)))
  have h2 := subF_id matchLightTag (chars "heh, ") l.length l
    (fun c cs hc => matchLightTag_none c cs (fun he => h (he ▸ hc)))
  have h3 := subF_id matchSighTag (chars "hmm, ") l.length l
    (fun c cs hc => matchSighTag_none c cs (fun he => h (he ▸ hc)))
  have h4 := subF_id matchGaspTag (chars "oh! ") l.length l
    (fun c cs hc => matchGaspTag_none c cs (fun he => h (he ▸ hc)))
  have h5 := subF_id matchShortPauseTag (chars ", ") l.length l
    (fun c cs hc => matchShortPauseTag_none c cs (fun he => h (he ▸ hc)))
  have h6 := subF_id matchPauseTag (chars "... ") l.length l
    (fun c cs hc => matchPauseTag_none c cs (fun he => h (he ▸ hc)))
  simp only [step1, subM, h1, h2, h3, h4, h5, h6]

/-- Step 2 does nothing to text without `[`. -/
theorem step2_id (l : List Char) (h : '[' ∉ l) : step2 l = l :=
  subF_id matchBracketTag [] l.length l
    (fun c cs hc => matchBracketTag_none c cs (fun he => h (he ▸ hc)))

/-- Step 3 does nothing to text without `<`. -/
theorem step3_id (l : List Char) (h : '<' ∉ l) : step3 l = l :=
  subF_id matchXmlTag [] l.length l
    (fun c cs hc => matchXmlTag_none c cs (fun he => h (he ▸ hc)))

/-- Step 4 does nothing to text without `*`. -/
theorem step4_id (l : List Char) (h : '*' ∉ l) : step4 l = l := by
  rw [step4, List.filter_eq_self]
  intro c hc
  simp only [ne_eq, decide_eq_true_eq]
  exact fun he => h (he ▸ hc)

/-- Step 4 leaves no `*` behind. -/
theorem step4_no_star (l : List Char) : '*' ∉ step4 l := by
  intro hmem
  rw [step4, List.mem_filter] at hmem
  simpa using hmem.2

end ObdAudio

namespace ObdAudio

/-! ## Idempotence development: character preservation -/

theorem capWord_not_mem (b : Char) (hb : ∀ c : Char, c.toLower = b → c = b)
    (acc : List Char) (h : b ∉ acc) : b ∉ capWord acc := by
  cases acc with
  | nil => simp [capWord]
  | cons c cs =>
    simp only [List.mem_cons, not_or] at h
    simp only [capWord, List.mem_cons, not_or]
    refine ⟨h.1, ?_⟩
    intro hmem
    rw [List.mem_map] at hmem
    obtain ⟨a, ha, hab⟩ := hmem
    exact h.2 ((hb a hab) ▸ ha)

theorem flushRun_not_mem (b : Char) (hb : ∀ c : Char, c.toLower = b → c = b)
    (acc : List Char) (h : b ∉ acc) : b ∉ flushRun acc := by
  rw [flushRun]
  split
  · rw [fixCaps]
    split
    · exact h
    · exact capWord_not_mem b hb acc h
  · exact h

theorem recaseA_not_mem (b : Char) (hb : ∀ c : Char, c.toLower = b → c = b) :
    ∀ (l : List Char) (o : Option (List Char)) (prevW : Bool),
      b ∉ l → (∀ acc, o = some acc → b ∉ acc) → b ∉ recaseA o prevW l := by
  intro l
  induction l with
  | nil =>
    intro o prevW _ hacc
    cases o with
    | none => simp [recaseA]
    | some acc => exact flushRun_not_mem b hb acc (hacc acc rfl)
  | cons c cs ih =>
    intro o prevW hl hacc
    have hc : b ≠ c := fun he => hl (he ▸ List.mem_cons_self c cs)
    have hcs : b ∉ cs := fun hm => hl (List.mem_cons_of_mem c hm)
    cases o with
    | none =>
      simp only [recaseA]
      split
      · refine ih (some [c]) true hcs ?_
        intro acc' ha'
        injection ha' with ha'
        subst ha'
        simpa using hc
      · intro hmem
        rcases List.mem_cons.mp hmem with he | hm
        · exact hc he
        · exact ih none _ hcs (fun a ha => nomatch ha) hm
    | some acc =>
      have hbacc : b ∉ acc := hacc acc rfl
      simp only [recaseA]
      split
      · refine ih (some (acc ++ [c])) true hcs ?_
        intro acc' ha'
        injection ha' with ha'
        subst ha'
        intro hmem
        rcases List.mem_append.mp hmem with h1 | h2
        · exact hbacc h1
        · exact hc (List.mem_singleton.mp h2)
      · split
        · intro hmem
          rcases List.mem_append.mp hmem with h1 | h2
          · exact hbacc h1
          · rcases List.mem_cons.mp h2 with he | hm
            · exact hc he
            · exact ih none true hcs (fun a ha => nomatch ha) hm
        · intro hmem
          rcases List.mem_append.mp hmem with h1 | h2
          · exact flushRun_not_mem b hb acc hbacc h1
          · rcases List.mem_cons.mp h2 with he | hm
            · exact hc he
            · exact ih none false hcs (fun a ha => nomatch ha) hm

theorem wordSubF_not_mem (b : Char) (pat repl : List Char) (hrepl : b ∉ repl) :
    ∀ (fuel : Nat) (l : List Char) (prevW : Bool),
      b ∉ l → b ∉ wordSubF pat repl fuel prevW l := by
  intro fuel
  induction fuel with
  | zero => intro l prevW hl; exact hl
  | succ fuel ih =>
    intro l prevW hl
    cases l with
    | nil => simp [wordSubF]
    | cons c cs =>
      simp only [wordSubF]
      split
      · intro hmem
        rcases List.mem_append.mp hmem with h1 | h2
        · exact hrepl h1
        · exact ih _ _ (fun hm => hl (List.mem_of_mem_drop hm)) h2
      · intro hmem
        rcases List.mem_cons.mp hmem with he | hm
        · exact hl (he ▸ List.mem_cons_self c cs)
        · exact ih cs _ (fun hm2 => hl (List.mem_cons_of_mem c hm2)) hm

theorem step6_not_mem (b : Char)
    (hrepls : ∀ pr ∈ PRONUNCIATION_FIXES, b ∉ pr.2)
    (l : List Char) (hl : b ∉ l) : b ∉ step6 l := by
  rw [step6]
  have main : ∀ (tbl : List (List Char × List Char)) (t : List Char),
      (∀ pr ∈ tbl, b ∉ pr.2) → b ∉ t →
      b ∉ tbl.foldl (fun t pr => wordSub pr.1 pr.2 t) t := by
    intro tbl
    induction tbl with
    | nil => intro t _ ht; exact ht
    | cons pr tbl ih =>
      intro t htbl ht
      simp only [List.foldl_cons]
      exact ih _ (fun q hq => htbl q (by simp [hq]))
        (wordSubF_not_mem b pr.1 pr.2 (htbl pr (by simp)) _ _ _ ht)
  exact main PRONUNCIATION_FIXES l hrepls hl

theorem collapseA_not_mem (b : Char) (hsp : b ≠ ' ') :
    ∀ (l : List Char) (st : WsState), b ∉ l →
      (∀ w, st = .pend w → b ≠ w) → b ∉ collapseA st l := by
  intro l
  induction l with
  | nil =>
    intro st _ hw
    cases st with
    | norm => simp [collapseA]
    | pend w => simpa [collapseA] using (hw w rfl)
    | run => simpa [collapseA] using hsp
  | cons c cs ih =>
    intro st hl hw
    have hc : b ≠ c := fun he => hl (he ▸ List.mem_cons_self c cs)
    have hcs : b ∉ cs := fun hm => hl (List.mem_cons_of_mem c hm)
    cases st with
    | norm =>
      simp only [collapseA]
      split
      · refine ih (.pend c) hcs ?_
        intro w hwp
        injection hwp with h
        subst h
        exact hc
      · intro hmem
        rcases List.mem_cons.mp hmem with he | hm
        · exact hc he
        · exact ih .norm hcs (fun w h => nomatch h) hm
    | pend w =>
      have hbw : b ≠ w := hw w rfl
      simp only [collapseA]
      split
      · exact ih .run hcs (fun w' h => nomatch h)
      · intro hmem
        rcases List.mem_cons.mp hmem with he | hm
        · exact hbw he
        · rcases List.mem_cons.mp hm with he2 | hm2
          · exact hc he2
          · exact ih .norm hcs (fun w' h => nomatch h) hm2
    | run =>
      simp only [collapseA]
      split
      · exact ih .run hcs (fun w' h => nomatch h)
      · intro hmem
        rcases List.mem_cons.mp hmem with he | hm
        · exact hsp he
        · rcases List.mem_cons.mp hm with he2 | hm2
          · exact hc he2
          · exact ih .norm hcs (fun w' h => nomatch h) hm2

theorem dropWhile_not_mem (b : Char) (p : Char → Bool) (l : List Char)
    (h : b ∉ l) : b ∉ l.dropWhile p :=
  fun hm => h ((List.dropWhile_sublist p).subset hm)

theorem stripEnds_not_mem (b : Char) (l : List Char) (h : b ∉ l) :
    b ∉ stripEnds l := by
  rw [stripEnds]
  rw [List.mem_reverse]
  apply dropWhile_not_mem
  rw [List.mem_reverse]
  exact dropWhile_not_mem b pyWs l h

theorem fixPunctA_not_mem (b : Char) :
    ∀ (l pend : List Char), b ∉ l → b ∉ pend → b ∉ fixPunctA pend l := by
  intro l
  induction l with
  | nil =>
    intro pend _ hp
    simpa [fixPunctA, List.mem_reverse] using hp
  | cons c cs ih =>
    intro pend hl hp
    have hc : b ≠ c := fun he => hl (he ▸ List.mem_cons_self c cs)
    have hcs : b ∉ cs := fun hm => hl (List.mem_cons_of_mem c hm)
    simp only [fixPunctA]
    split
    · refine ih (c :: pend) hcs ?_
      intro hmem
      rcases List.mem_cons.mp hmem with he | hm
      · exact hc he
      · exact hp hm
    · split
      · intro hmem
        rcases List.mem_cons.mp hmem with he | hm
        · exact hc he
        · exact ih [] hcs (by simp) hm
      · intro hmem
        rcases List.mem_append.mp hmem with h1 | h2
        · exact hp (List.mem_reverse.mp h1)
        · rcases List.mem_cons.mp h2 with he | hm
          · exact hc he
          · exact ih [] hcs (by simp) hm

theorem step7_not_mem (b : Char) (hsp : b ≠ ' ') (l : List Char)
    (h : b ∉ l) : b ∉ step7 l := by
  rw [step7]
  apply dropWhile_not_mem
  apply fixPunctA_not_mem
  · exact stripEnds_not_mem b _ (collapseA_not_mem b hsp l .norm h (fun w hw => nomatch hw))
  · simp

theorem step5_not_mem (b : Char) (hb : ∀ c : Char, c.toLower = b → c = b)
    (l : List Char) (h : b ∉ l) : b ∉ step5 l :=
  recaseA_not_mem b hb l none false h (fun a ha => nomatch ha)

theorem step4_not_mem (b : Char) (l : List Char) (h : b ∉ l) : b ∉ step4 l :=
  fun hm => h ((List.filter_sublist l).subset hm)

end ObdAudio

namespace ObdAudio

/-! ## Idempotence development: step 7 normal forms -/

/-- No two adjacent whitespace characters. -/
def noWsRun : List Char → Bool
  | [] => true
  | [_] => true
  | c :: d :: r => (!(pyWs c && pyWs d)) && noWsRun (d :: r)

/-- No whitespace character directly followed by whitespace or
punctuation. -/
def wsOK : List Char → Bool
  | [] => true
  | [_] => true
  | c :: d :: r => (!(pyWs c && (pyWs d || isPunct d))) && wsOK (d :: r)

/-- The head, if any, fails the predicate. -/
def headOkB (p : Char → Bool) : List Char → Bool
  | [] => true
  | c :: _ => !p c

/-- The last character, if any, is not whitespace. -/
def noTrailB : List Char → Bool
  | [] => true
  | [c] => !pyWs c
  | _ :: d :: r => noTrailB (d :: r)

theorem noWsRun_tail {c : Char} {l : List Char} (h : noWsRun (c :: l) = true) :
    noWsRun l = true := by
  cases l with
  | nil => rfl
  | cons d r => simpa [noWsRun, Bool.and_eq_true] using (by
      simp only [noWsRun, Bool.and_eq_true] at h
      exact h.2)

theorem noWsRun_cons {c : Char} {l : List Char} (hc : pyWs c = false)
    (h : noWsRun l = true) : noWsRun (c :: l) = true := by
  cases l with
  | nil => rfl
  | cons d r => simp [noWsRun, hc, h]

theorem wsOK_tail {c : Char} {l : List Char} (h : wsOK (c :: l) = true) :
    wsOK l = true := by
  cases l with
  | nil => rfl
  | cons d r =>
    simp only [wsOK, Bool.and_eq_true] at h
    exact h.2

theorem wsOK_cons {c : Char} {l : List Char} (hc : pyWs c = false)
    (h : wsOK l = true) : wsOK (c :: l) = true := by
  cases l with
  | nil => rfl
  | cons d r => simp [wsOK, hc, h]

theorem wsOK_noWsRun : ∀ {l : List Char}, wsOK l = true → noWsRun l = true := by
  intro l
  induction l with
  | nil => intro _; rfl
  | cons c tail ih =>
    intro h
    cases tail with
    | nil => rfl
    | cons d r =>
      simp only [wsOK, Bool.and_eq_true] at h
      obtain ⟨h1, h2⟩ := h
      simp only [noWsRun, Bool.and_eq_true]
      refine ⟨?_, ih h2⟩
      cases hc : pyWs c <;> cases hd : pyWs d <;> simp_all

theorem noTrailB_tail {c d : Char} {r : List Char}
    (h : noTrailB (c :: d :: r) = true) : noTrailB (d :: r) = true := h

theorem noTrailB_concat : ∀ (a : List Char) (c : Char),
    noTrailB (a ++ [c]) = !pyWs c := by
  intro a c
  induction a with
  | nil => rfl
  | cons x a ih =>
    cases a with
    | nil => rfl
    | cons y a' => simpa [noTrailB] using ih

theorem noTrailB_append_right : ∀ (a X : List Char), X ≠ [] →
    noTrailB (a ++ X) = noTrailB X := by
  intro a X hX
  induction a with
  | nil => rfl
  | cons x a ih =>
    cases a with
    | nil =>
      cases X with
      | nil => exact absurd rfl hX
      | cons y ys => rfl
    | cons y a' => simpa [noTrailB] using ih

theorem noTrailB_reverse_headOkB (l : List Char) :
    headOkB pyWs l.reverse = noTrailB l := by
  rcases List.eq_nil_or_concat l with rfl | ⟨L, b, rfl⟩
  · rfl
  · rw [List.concat_eq_append, List.reverse_append]
    simp only [List.reverse_cons, List.reverse_nil, List.nil_append,
      List.singleton_append]
    rw [noTrailB_concat]
    rfl

theorem headOkB_dropWhile (p : Char → Bool) : ∀ l : List Char,
    headOkB p (l.dropWhile p) = true := by
  intro l
  induction l with
  | nil => rfl
  | cons c cs ih =>
    rw [List.dropWhile_cons]
    split
    · exact ih
    · next hc => simp [headOkB, Bool.not_eq_true', Bool.not_eq_true] at hc ⊢; simp [hc]

theorem dropWhile_id_of_headOk (p : Char → Bool) (l : List Char)
    (h : headOkB p l = true) : l.dropWhile p = l := by
  cases l with
  | nil => rfl
  | cons c cs =>
    simp only [headOkB, Bool.not_eq_true'] at h
    simp [List.dropWhile_cons, h]

theorem dropWhile_idem (p : Char → Bool) (l : List Char) :
    (l.dropWhile p).dropWhile p = l.dropWhile p :=
  dropWhile_id_of_headOk p _ (headOkB_dropWhile p l)

end ObdAudio

namespace ObdAudio

/-- The whitespace collapse leaves no adjacent whitespace. -/
theorem collapseA_noWsRun : ∀ (l : List Char) (st : WsState),
    noWsRun (collapseA st l) = true := by
  intro l
  induction l with
  | nil => intro st; cases st <;> rfl
  | cons c cs ih =>
    intro st
    cases st with
    | norm =>
      rw [collapseA]
      split
      · exact ih (.pend c)
      · next hc =>
        simp only [Bool.not_eq_true] at hc
        exact noWsRun_cons hc (ih .norm)
    | pend w =>
      rw [collapseA]
      split
      · exact ih .run
      · next hc =>
        simp only [Bool.not_eq_true] at hc
        have h2 : noWsRun (c :: collapseA .norm cs) = true := noWsRun_cons hc (ih .norm)
        cases hcw : pyWs w
        · exact noWsRun_cons hcw h2
        · simp [noWsRun, hcw, hc]
          cases hx : collapseA WsState.norm cs
          · rfl
          · simpa [noWsRun, hc, hx] using h2
    | run =>
      rw [collapseA]
      split
      · exact ih .run
      · next hc =>
        simp only [Bool.not_eq_true] at hc
        have h2 : noWsRun (c :: collapseA .norm cs) = true := noWsRun_cons hc (ih .norm)
        simp [noWsRun, hc]
        cases hx : collapseA WsState.norm cs
        · rfl
        · simpa [noWsRun, hc, hx] using h2

/-- Decomposition of the front-trimmed text into the stripped text and its
trailing whitespace. -/
theorem stripEnds_decomp (l : List Char) :
    l.dropWhile pyWs =
      stripEnds l ++ ((l.dropWhile pyWs).reverse.takeWhile pyWs).reverse := by
  rw [stripEnds]
  have h := (List.takeWhile_append_dropWhile (p := pyWs)
    (l := (l.dropWhile pyWs).reverse)).symm
  calc l.dropWhile pyWs = (l.dropWhile pyWs).reverse.reverse := by rw [List.reverse_reverse]
    _ = ((l.dropWhile pyWs).reverse.takeWhile pyWs ++
          (l.dropWhile pyWs).reverse.dropWhile pyWs).reverse := by rw [← h]
    _ = _ := by rw [List.reverse_append]

/-- Adjacency constraints restrict to prefixes. -/
theorem noWsRun_pref : ∀ (a b : List Char),
    noWsRun (a ++ b) = true → noWsRun a = true := by
  intro a b
  induction a with
  | nil => intro _; rfl
  | cons c tail ih =>
    intro h
    cases tail with
    | nil => rfl
    | cons d a' =>
      simp only [List.cons_append, noWsRun, Bool.and_eq_true] at h ⊢
      exact ⟨h.1, ih (by simpa using h.2)⟩

/-- The stripped text inherits the no-run property. -/
theorem noWsRun_stripEnds (l : List Char) (h : noWsRun l = true) :
    noWsRun (stripEnds l) = true := by
  have h1 : noWsRun (l.dropWhile pyWs) = true := by
    induction l with
    | nil => rfl
    | cons c cs ih =>
      rw [List.dropWhile_cons]
      split
      · exact ih (noWsRun_tail h)
      · exact h
  rw [stripEnds_decomp l] at h1
  exact noWsRun_pref _ _ h1

/-- A prefix inherits the head condition. -/
theorem headOkB_pref (p : Char → Bool) (a b : List Char)
    (h : headOkB p (a ++ b) = true) : headOkB p a = true := by
  cases a with
  | nil => rfl
  | cons c cs => simpa [headOkB] using h

/-- The stripped text has no leading whitespace. -/
theorem headOk_stripEnds (l : List Char) : headOkB pyWs (stripEnds l) = true := by
  have h := headOkB_dropWhile pyWs l
  rw [stripEnds_decomp l] at h
  exact headOkB_pref _ _ _ h

/-- The stripped text has no trailing whitespace. -/
theorem noTrail_stripEnds (l : List Char) : noTrailB (stripEnds l) = true := by
  rw [← noTrailB_reverse_headOkB, stripEnds, List.reverse_reverse]
  exact headOkB_dropWhile pyWs (l.dropWhile pyWs).reverse

end ObdAudio

namespace ObdAudio

/-- The punctuation fix emits no whitespace-whitespace or
whitespace-punctuation adjacency when fed run-free text. -/
theorem fixPunctA_wsOK : ∀ (l pend : List Char),
    noWsRun (pend.reverse ++ l) = true → pend.length ≤ 1 →
    (∀ w ∈ pend, pyWs w = true) → wsOK (fixPunctA pend l) = true := by
  intro l
  induction l with
  | nil =>
    intro pend _ hlen _
    cases pend with
    | nil => rfl
    | cons w ws =>
      cases ws with
      | nil => rfl
      | cons => simp at hlen
  | cons c cs ih =>
    intro pend hrun hlen hws
    rw [fixPunctA]
    split
    · next hc =>
      have hpend : pend = [] := by
        cases pend with
        | nil => rfl
        | cons w ws =>
          cases ws with
          | nil =>
            exfalso
            simp only [List.reverse_cons, List.reverse_nil, List.nil_append,
              List.singleton_append, noWsRun, Bool.and_eq_true] at hrun
            have hw := hws w (by simp)
            simp [hw, hc] at hrun
          | cons => simp at hlen
      subst hpend
      refine ih [c] (by simpa using hrun) (by simp) (by simpa using hc)
    · split
      · next hc hp =>
        refine wsOK_cons ?_ (ih [] ?_ (by simp) (by simp))
        · simp only [Bool.not_eq_true] at hc
          exact hc
        · simp only [List.reverse_nil, List.nil_append]
          cases pend with
          | nil =>
            simpa using noWsRun_tail (by simpa using hrun)
          | cons w ws =>
            cases ws with
            | nil =>
              simp only [List.reverse_cons, List.reverse_nil, List.nil_append,
                List.singleton_append] at hrun
              exact noWsRun_tail (noWsRun_tail hrun)
            | cons => simp at hlen
      · next hc hp =>
        have hrest : wsOK (c :: fixPunctA [] cs) = true := by
          refine wsOK_cons ?_ (ih [] ?_ (by simp) (by simp))
          · simp only [Bool.not_eq_true] at hc
            exact hc
          · simp only [List.reverse_nil, List.nil_append]
            cases pend with
            | nil => simpa using noWsRun_tail (by simpa using hrun)
            | cons w ws =>
              cases ws with
              | nil =>
                simp only [List.reverse_cons, List.reverse_nil, List.nil_append,
                  List.singleton_append] at hrun
                exact noWsRun_tail (noWsRun_tail hrun)
              | cons => simp at hlen
        cases pend with
        | nil => simpa using hrest
        | cons w ws =>
          cases ws with
          | nil =>
            simp only [List.reverse_cons, List.reverse_nil, List.nil_append,
              List.singleton_append]
            have hcw : pyWs c = false := by
              simp only [Bool.not_eq_true] at hc
              exact hc
            have hcp : isPunct c = false := by
              rcases hx : isPunct c
              · rfl
              · exact absurd (by simp [hx]) hp
            simp only [wsOK, Bool.and_eq_true]
            exact ⟨by simp [hcw, hcp], hrest⟩
          | cons => simp at hlen

end ObdAudio

namespace ObdAudio

/-- The punctuation fix keeps the no-trailing-whitespace property. -/
theorem fixPunctA_noTrail : ∀ (l pend : List Char),
    noTrailB l = true → (l = [] → pend = []) →
    noTrailB (fixPunctA pend l) = true := by
  intro l
  induction l with
  | nil =>
    intro pend _ hp
    rw [hp rfl]
    rfl
  | cons c cs ih =>
    intro pend htr hp
    rw [fixPunctA]
    split
    · next hc =>
      cases cs with
      | nil =>
        exfalso
        simp only [noTrailB, Bool.not_eq_true'] at htr
        simp [htr] at hc
      | cons d r =>
        exact ih (c :: pend) (noTrailB_tail htr) (fun h => nomatch h)
    · next hc =>
      have hcw : pyWs c = false := by
        simp only [Bool.not_eq_true] at hc
        exact hc
      have hrec : noTrailB (fixPunctA [] cs) = true := by
        cases cs with
        | nil => rfl
        | cons d r => exact ih [] (noTrailB_tail htr) (fun h => nomatch h)
      split
      · cases hx : fixPunctA [] cs with
        | nil => simp [noTrailB, hcw]
        | cons z zs =>
          have : noTrailB (c :: z :: zs) = noTrailB (z :: zs) := rfl
          rw [this, ← hx]
          exact hrec
      · cases hx : fixPunctA [] cs with
        | nil =>
          rw [noTrailB_concat]
          simp [hcw]
        | cons z zs =>
          rw [List.append_cons, noTrailB_append_right _ _ (by simp)]
          rw [hx] at hrec
          exact hrec

end ObdAudio

namespace ObdAudio

/-- Collapsing is the identity on run-free text. -/
theorem collapse_id : ∀ (n : Nat) (l : List Char), l.length ≤ n →
    noWsRun l = true → collapseA .norm l = l := by
  intro n
  induction n with
  | zero =>
    intro l hl _
    rw [List.length_eq_zero.mp (Nat.le_zero.mp hl)]
    rfl
  | succ n ih =>
    intro l hl hrun
    cases l with
    | nil => rfl
    | cons c cs =>
      rw [collapseA]
      split
      · next hc =>
        cases cs with
        | nil => rfl
        | cons d r =>
          rw [collapseA]
          rw [if_neg]
          · have : collapseA .norm r = r := by
              refine ih r ?_ (noWsRun_tail (noWsRun_tail hrun))
              simp only [List.length_cons] at hl
              omega
            rw [this]
          · simp only [noWsRun, Bool.and_eq_true] at hrun
            intro hd
            simp [hc, hd] at hrun
      · have : collapseA .norm cs = cs := by
          refine ih cs ?_ (noWsRun_tail hrun)
          simp only [List.length_cons] at hl
          omega
        rw [this]

/-- The punctuation fix is the identity on text in whitespace normal
form. -/
theorem fixPunct_id : ∀ (n : Nat) (l : List Char), l.length ≤ n →
    wsOK l = true → noTrailB l = true → fixPunctA [] l = l := by
  intro n
  induction n with
  | zero =>
    intro l hl _ _
    rw [List.length_eq_zero.mp (Nat.le_zero.mp hl)]
    rfl
  | succ n ih =>
    intro l hl hok htr
    cases l with
    | nil => rfl
    | cons c cs =>
      rw [fixPunctA]
      split
      · next hc =>
        cases cs with
        | nil =>
          exfalso
          simp only [noTrailB, Bool.not_eq_true'] at htr
          simp [htr] at hc
        | cons d r =>
          have hpair : pyWs d = false ∧ isPunct d = false := by
            have h1 : (!(pyWs c && (pyWs d || isPunct d))) = true := by
              simp only [wsOK, Bool.and_eq_true] at hok
              exact hok.1
            cases hd : pyWs d <;> cases hpd : isPunct d <;> simp_all
          rw [fixPunctA, if_neg (by simp [hpair.1]), if_neg (by simp [hpair.2])]
          simp only [List.reverse_cons, List.reverse_nil, List.nil_append,
            List.singleton_append]
          have hr : fixPunctA [] r = r := by
            refine ih r ?_ (wsOK_tail (wsOK_tail hok)) ?_
            · simp only [List.length_cons] at hl
              omega
            · cases r with
              | nil => rfl
              | cons e r' => exact noTrailB_tail (noTrailB_tail htr)
          rw [hr]
      · next hc =>
        rw [if_neg (by simp)]
        simp only [List.reverse_nil, List.nil_append]
        have : fixPunctA [] cs = cs := by
          refine ih cs ?_ (wsOK_tail hok) ?_
          · simp only [List.length_cons] at hl
            omega
          · cases cs with
            | nil => rfl
            | cons d r => exact noTrailB_tail htr
        rw [this]

end ObdAudio

namespace ObdAudio

/-- Stripping is the identity without leading or trailing whitespace. -/
theorem stripEnds_id (l : List Char) (hh : headOkB pyWs l = true)
    (ht : noTrailB l = true) : stripEnds l = l := by
  rw [stripEnds, dropWhile_id_of_headOk pyWs l hh,
    dropWhile_id_of_headOk pyWs l.reverse
      (by rw [noTrailB_reverse_headOkB]; exact ht)]
  exact List.reverse_reverse l

theorem wsOK_dropWhile (p : Char → Bool) : ∀ l : List Char,
    wsOK l = true → wsOK (l.dropWhile p) = true := by
  intro l
  induction l with
  | nil => intro _; rfl
  | cons c cs ih =>
    intro h
    rw [List.dropWhile_cons]
    split
    · exact ih (wsOK_tail h)
    · exact h

theorem noTrailB_dropWhile (p : Char → Bool) : ∀ l : List Char,
    noTrailB l = true → noTrailB (l.dropWhile p) = true := by
  intro l
  induction l with
  | nil => intro _; rfl
  | cons c cs ih =>
    intro h
    rw [List.dropWhile_cons]
    split
    · cases cs with
      | nil => rfl
      | cons d r => exact ih (noTrailB_tail h)
    · exact h

theorem headOkB_pw_ws (l : List Char)
    (h : headOkB (fun c => isPunct c || pyWs c) l = true) :
    headOkB pyWs l = true := by
  cases l with
  | nil => rfl
  | cons c cs =>
    simp only [headOkB, Bool.not_eq_true', Bool.or_eq_false_iff] at h
    simp [headOkB, h.2]

/-- The three normal-form facts about step 7 output. -/
theorem step7_nf (l : List Char) :
    wsOK (step7 l) = true ∧ noTrailB (step7 l) = true ∧
    headOkB (fun c => isPunct c || pyWs c) (step7 l) = true := by
  rw [step7]
  have h1 : noWsRun (collapseA .norm l) = true := collapseA_noWsRun l .norm
  have h2run : noWsRun (stripEnds (collapseWs l)) = true := noWsRun_stripEnds _ h1
  have h2tr : noTrailB (stripEnds (collapseWs l)) = true := noTrail_stripEnds _
  have h3ok : wsOK (fixPunctA [] (stripEnds (collapseWs l))) = true :=
    fixPunctA_wsOK _ [] (by simpa using h2run) (by simp) (by simp)
  have h3tr : noTrailB (fixPunctA [] (stripEnds (collapseWs l))) = true :=
    fixPunctA_noTrail _ [] h2tr (fun _ => rfl)
  exact ⟨wsOK_dropWhile _ _ h3ok, noTrailB_dropWhile _ _ h3tr, headOkB_dropWhile _ _⟩

/-- Step 7 is the identity on its own normal form. -/
theorem step7_id (l : List Char) (hok : wsOK l = true) (htr : noTrailB l = true)
    (hhd : headOkB (fun c => isPunct c || pyWs c) l = true) : step7 l = l := by
  rw [step7]
  show ((fixPunct (stripEnds (collapseWs l))).dropWhile _) = l
  rw [show collapseWs l = l from collapse_id l.length l le_rfl (wsOK_noWsRun hok)]
  rw [stripEnds_id l (headOkB_pw_ws l hhd) htr]
  show ((fixPunctA [] l).dropWhile _) = l
  rw [fixPunct_id l.length l le_rfl hok htr]
  exact dropWhile_id_of_headOk _ l hhd

/-- Step 7 is idempotent. -/
theorem step7_idem (l : List Char) : step7 (step7 l) = step7 l := by
  obtain ⟨h1, h2, h3⟩ := step7_nf l
  exact step7_id _ h1 h2 h3

end ObdAudio

namespace ObdAudio

/-! ## Idempotence development: word tokens

`\b`-delimited words of a text: the maximal runs of word characters.  The
accumulator holds the current partial token reversed. -/

def wordsOfA : List Char → List Char → List (List Char)
  | cur, [] => if cur = [] then [] else [cur.reverse]
  | cur, c :: cs =>
    if isWordChar c then wordsOfA (c :: cur) cs
    else if cur = [] then wordsOfA [] cs
    else cur.reverse :: wordsOfA [] cs

/-- The maximal word-character runs of a text. -/
def wordsOf (l : List Char) : List (List Char) := wordsOfA [] l

theorem wordsOf_cons_nw {c : Char} (cs : List Char) (hc : isWordChar c = false) :
    wordsOf (c :: cs) = wordsOf cs := by
  simp [wordsOf, wordsOfA, hc]

theorem wordsOfA_cons_w (cur : List Char) {c : Char} (cs : List Char)
    (hc : isWordChar c = true) : wordsOfA cur (c :: cs) = wordsOfA (c :: cur) cs := by
  simp [wordsOfA, hc]

theorem wordsOfA_cons_nw_flush {cur : List Char} {c : Char} (cs : List Char)
    (hc : isWordChar c = false) (hcur : cur ≠ []) :
    wordsOfA cur (c :: cs) = cur.reverse :: wordsOfA [] cs := by
  simp [wordsOfA, hc, hcur]

theorem wordsOfA_cons_nw_skip {c : Char} (cs : List Char)
    (hc : isWordChar c = false) : wordsOfA [] (c :: cs) = wordsOfA [] cs := by
  simp [wordsOfA, hc]

/-- Splitting at the first maximal token. -/
theorem wordsOfA_split : ∀ (l cur : List Char), cur ≠ [] →
    wordsOfA cur l = (cur.reverse ++ l.takeWhile isWordChar) ::
      wordsOfA [] (l.dropWhile isWordChar) := by
  intro l
  induction l with
  | nil =>
    intro cur hcur
    simp [wordsOfA, hcur]
  | cons c cs ih =>
    intro cur hcur
    cases hc : isWordChar c with
    | true =>
      rw [wordsOfA_cons_w cur cs hc, ih (c :: cur) (by simp)]
      simp [List.takeWhile_cons, List.dropWhile_cons, hc]
    | false =>
      rw [wordsOfA_cons_nw_flush cs hc hcur]
      simp [List.takeWhile_cons, List.dropWhile_cons, hc, wordsOfA_cons_nw_skip cs hc]

/-- An all-word-character list forms a single token continuation. -/
theorem wordsOfA_all_word : ∀ (b cur : List Char),
    (∀ c ∈ b, isWordChar c = true) →
    wordsOfA cur b = wordsOfA (b.reverse ++ cur) [] := by
  intro b
  induction b with
  | nil => intro cur _; rfl
  | cons c bs ih =>
    intro cur hw
    rw [wordsOfA_cons_w cur bs (hw c (by simp))]
    rw [ih (c :: cur) (fun d hd => hw d (by simp [hd]))]
    simp

/-- An all-word-character prefix extends the current token. -/
theorem wordsOfA_word_pref : ∀ (a cur x : List Char),
    (∀ c ∈ a, isWordChar c = true) →
    wordsOfA cur (a ++ x) = wordsOfA (a.reverse ++ cur) x := by
  intro a
  induction a with
  | nil => intro cur x _; rfl
  | cons c as ih =>
    intro cur x hw
    rw [List.cons_append, wordsOfA_cons_w cur _ (hw c (by simp))]
    rw [ih (c :: cur) x (fun d hd => hw d (by simp [hd]))]
    simp

/-- Tokens of a concatenation whose right part opens with a boundary. -/
theorem wordsOfA_append_nw : ∀ (a cur b : List Char),
    (b = [] ∨ ∃ d bs, b = d :: bs ∧ isWordChar d = false) →
    wordsOfA cur (a ++ b) = wordsOfA cur a ++ wordsOfA [] b := by
  intro a
  induction a with
  | nil =>
    intro cur b hb
    simp only [List.nil_append]
    rcases hb with rfl | ⟨d, bs, rfl, hd⟩
    · cases hcur : cur == []
      · have hcur' : cur ≠ [] := by simpa using hcur
        simp [wordsOfA, hcur']
      · have hcur' : cur = [] := by simpa using hcur
        subst hcur'
        simp [wordsOfA]
    · cases hcur : cur == []
      · have hcur' : cur ≠ [] := by simpa using hcur
        rw [wordsOfA_cons_nw_flush bs hd hcur']
        rw [wordsOfA_cons_nw_skip bs hd]
        simp [wordsOfA, hcur']
      · have hcur' : cur = [] := by simpa using hcur
        subst hcur'
        rw [wordsOfA_cons_nw_skip bs hd]
        simp [wordsOfA]
  | cons c as ih =>
    intro cur b hb
    rw [List.cons_append]
    cases hc : isWordChar c with
    | true =>
      rw [wordsOfA_cons_w cur _ hc, wordsOfA_cons_w cur as hc]
      exact ih (c :: cur) b hb
    | false =>
      cases hcur : cur == []
      · have hcur' : cur ≠ [] := by simpa using hcur
        rw [wordsOfA_cons_nw_flush _ hc hcur', wordsOfA_cons_nw_flush as hc hcur']
        rw [ih [] b hb]
        simp
      · have hcur' : cur = [] := by simpa using hcur
        subst hcur'
        rw [wordsOfA_cons_nw_skip _ hc, wordsOfA_cons_nw_skip as hc]
        exact ih [] b hb

/-- An all-boundary text has no tokens. -/
theorem wordsOfA_nil_allnw : ∀ b : List Char,
    (∀ c ∈ b, isWordChar c = false) → wordsOfA [] b = [] := by
  intro b
  induction b with
  | nil => intro _; rfl
  | cons d bs ih =>
    intro hb
    rw [wordsOfA_cons_nw_skip bs (hb d (by simp))]
    exact ih (fun c hc => hb c (by simp [hc]))

/-- An all-boundary rest only flushes the current token. -/
theorem wordsOfA_allnw (b cur : List Char)
    (hb : ∀ c ∈ b, isWordChar c = false) : wordsOfA cur b = wordsOfA cur [] := by
  cases hcur : cur == []
  · have hcur' : cur ≠ [] := by simpa using hcur
    cases b with
    | nil => rfl
    | cons d bs =>
      rw [wordsOfA_cons_nw_flush bs (hb d (by simp)) hcur']
      rw [wordsOfA_nil_allnw bs (fun c hc => hb c (by simp [hc]))]
      simp [wordsOfA, hcur']
  · have hcur' : cur = [] := by simpa using hcur
    subst hcur'
    rw [wordsOfA_nil_allnw b hb]
    rfl

/-- Tokens ignore an all-boundary suffix. -/
theorem wordsOfA_append_allnw : ∀ (a cur b : List Char),
    (∀ c ∈ b, isWordChar c = false) →
    wordsOfA cur (a ++ b) = wordsOfA cur a := by
  intro a
  induction a with
  | nil =>
    intro cur b hb
    simp only [List.nil_append]
    exact wordsOfA_allnw b cur hb
  | cons c as ih =>
    intro cur b hb
    rw [List.cons_append]
    cases hc : isWordChar c with
    | true =>
      rw [wordsOfA_cons_w cur _ hc, wordsOfA_cons_w cur as hc]
      exact ih (c :: cur) b hb
    | false =>
      cases hcur : cur == []
      · have hcur' : cur ≠ [] := by simpa using hcur
        rw [wordsOfA_cons_nw_flush _ hc hcur', wordsOfA_cons_nw_flush as hc hcur']
        rw [ih [] b hb]
      · have hcur' : cur = [] := by simpa using hcur
        subst hcur'
        rw [wordsOfA_cons_nw_skip _ hc, wordsOfA_cons_nw_skip as hc]
        exact ih [] b hb

end ObdAudio

namespace ObdAudio

theorem pyWs_not_word {c : Char} (h : pyWs c = true) : isWordChar c = false := by
  simp only [pyWs, Bool.or_eq_true, decide_eq_true_eq] at h
  rcases h with ((((h | h) | h) | h) | h) | h <;> subst h <;> decide

theorem isPunct_not_word {c : Char} (h : isPunct c = true) : isWordChar c = false := by
  simp only [isPunct, Bool.or_eq_true, decide_eq_true_eq] at h
  rcases h with h | h <;> subst h <;> decide

/-- A boundary character flushes the current token uniformly. -/
theorem wordsOfA_nw_step (cur : List Char) {c : Char} (hc : isWordChar c = false)
    (x : List Char) :
    wordsOfA cur (c :: x) = wordsOfA cur [] ++ wordsOfA [] x := by
  cases hcur : cur == []
  · have hcur' : cur ≠ [] := by simpa using hcur
    rw [wordsOfA_cons_nw_flush x hc hcur']
    simp [wordsOfA, hcur']
  · have hcur' : cur = [] := by simpa using hcur
    subst hcur'
    rw [wordsOfA_cons_nw_skip x hc]
    simp [wordsOfA]

/-- A non-empty all-boundary prefix flushes the token and restarts. -/
theorem wordsOfA_nw_pref : ∀ (b : List Char), b ≠ [] →
    (∀ c ∈ b, isWordChar c = false) → ∀ (cur x : List Char),
    wordsOfA cur (b ++ x) = wordsOfA cur [] ++ wordsOfA [] x := by
  intro b
  induction b with
  | nil => intro h; exact absurd rfl h
  | cons d b' ih =>
    intro _ hb cur x
    rw [List.cons_append, wordsOfA_nw_step cur (hb d (by simp)) (b' ++ x)]
    cases b' with
    | nil => simp
    | cons e b'' =>
      rw [ih (by simp) (fun c hc => hb c (by simp [hc])) [] x]
      simp [wordsOfA]

/-- Whitespace collapse does not change the tokens. -/
theorem collapseA_wordsOf : ∀ (l cur : List Char),
    (wordsOfA cur (collapseA .norm l) = wordsOfA cur l) ∧
    (∀ w, pyWs w = true →
      wordsOfA cur (collapseA (.pend w) l) = wordsOfA cur (w :: l)) ∧
    (wordsOfA cur (collapseA .run l) = wordsOfA cur (' ' :: l)) := by
  intro l
  induction l with
  | nil =>
    intro cur
    exact ⟨rfl, fun w hw => rfl, rfl⟩
  | cons c cs ih =>
    intro cur
    have hcc : ∀ cur' : List Char, pyWs c = false →
        wordsOfA cur' (c :: collapseA .norm cs) = wordsOfA cur' (c :: cs) := by
      intro cur' _
      cases hw : isWordChar c with
      | true =>
        rw [wordsOfA_cons_w cur' _ hw, wordsOfA_cons_w cur' cs hw]
        exact (ih (c :: cur')).1
      | false =>
        rw [wordsOfA_nw_step cur' hw, wordsOfA_nw_step cur' hw cs]
        rw [(ih ([] : List Char)).1]
    refine ⟨?_, ?_, ?_⟩
    · rw [collapseA]
      split
      · next hc => exact (ih cur).2.1 c hc
      · next hc =>
        exact hcc cur (by simpa using hc)
    · intro w hw
      rw [collapseA]
      split
      · next hc =>
        rw [(ih cur).2.2]
        rw [wordsOfA_nw_step cur (pyWs_not_word (by decide)) cs]
        rw [wordsOfA_nw_step cur (pyWs_not_word hw) (c :: cs)]
        rw [wordsOfA_cons_nw_skip cs (pyWs_not_word hc)]
    
      · next hc =>
        rw [wordsOfA_nw_step cur (pyWs_not_word hw) (c :: collapseA WsState.norm cs)]
        rw [wordsOfA_nw_step cur (pyWs_not_word hw) (c :: cs)]
        rw [hcc [] (by simpa using hc)]
    · rw [collapseA]
      split
      · next hc =>
        rw [(ih cur).2.2]
        rw [wordsOfA_nw_step cur (pyWs_not_word (by decide)) cs]
        rw [wordsOfA_nw_step cur (pyWs_not_word (by decide)) (c :: cs)]
        rw [wordsOfA_cons_nw_skip cs (pyWs_not_word hc)]
      · next hc =>
        rw [wordsOfA_nw_step cur (pyWs_not_word (by decide)) (c :: collapseA WsState.norm cs)]
        rw [wordsOfA_nw_step cur (pyWs_not_word (by decide)) (c :: cs)]
        rw [hcc [] (by simpa using hc)]

/-- The punctuation fix does not change the tokens. -/
theorem fixPunctA_wordsOf : ∀ (l pend cur : List Char),
    (∀ w ∈ pend, pyWs w = true) →
    wordsOfA cur (fixPunctA pend l) = wordsOfA cur (pend.reverse ++ l) := by
  intro l
  induction l with
  | nil =>
    intro pend cur _
    rw [fixPunctA, List.append_nil]
  | cons c cs ih =>
    intro pend cur hpend
    rw [fixPunctA]
    split
    · next hc =>
      rw [ih (c :: pend) cur (by
        intro w hw
        rcases List.mem_cons.mp hw with rfl | hw2
        · exact hc
        · exact hpend w hw2)]
      simp [List.append_assoc]
    · next hc =>
      have hcw : pyWs c = false := by simpa using hc
      split
      · next hp =>
        have hpne : pend ≠ [] := by
          rcases hx : isPunct c
          · rw [hx] at hp; simp at hp
          · simp only [hx, Bool.true_and] at hp
            intro he
            rw [he] at hp
            simp at hp
        have hcp : isPunct c = true := by
          rcases hx : isPunct c
          · rw [hx] at hp; simp at hp
          · rfl
        rw [wordsOfA_nw_step cur (isPunct_not_word hcp) (fixPunctA [] cs)]
        rw [ih [] [] (by simp)]
        simp only [List.reverse_nil, List.nil_append]
        rw [show pend.reverse ++ c :: cs = (pend.reverse ++ [c]) ++ cs by
          simp [List.append_assoc]]
        rw [wordsOfA_nw_pref (pend.reverse ++ [c]) (by simp)
          (by
            intro d hd
            rcases List.mem_append.mp hd with h1 | h2
            · exact pyWs_not_word (hpend d (List.mem_reverse.mp h1))
            · rw [List.mem_singleton.mp h2]
              exact isPunct_not_word hcp) cur cs]
      · next hp =>
        cases pend with
        | nil =>
          simp only [List.reverse_nil, List.nil_append]
          cases hw : isWordChar c with
          | true =>
            rw [wordsOfA_cons_w cur _ hw, wordsOfA_cons_w cur cs hw]
            have := ih [] (c :: cur) (by simp)
            simpa using this
          | false =>
            rw [wordsOfA_nw_step cur hw (fixPunctA [] cs), wordsOfA_nw_step cur hw cs]
            have := ih [] ([] : List Char) (by simp)
            simpa using this
        | cons w pend' =>
          have hbne : (w :: pend').reverse ≠ [] := by simp
          have hbnw : ∀ d ∈ (w :: pend').reverse, isWordChar d = false := by
            intro d hd
            exact pyWs_not_word (hpend d (List.mem_reverse.mp hd))
          rw [wordsOfA_nw_pref _ hbne hbnw cur (c :: fixPunctA [] cs)]
          rw [wordsOfA_nw_pref _ hbne hbnw cur (c :: cs)]
          cases hw : isWordChar c with
          | true =>
            rw [wordsOfA_cons_w [] _ hw, wordsOfA_cons_w [] cs hw]
            have := ih [] [c] (by simp)
            simpa using this
          | false =>
            rw [wordsOfA_nw_step [] hw (fixPunctA [] cs), wordsOfA_nw_step [] hw cs]
            have := ih [] ([] : List Char) (by simp)
            simpa using this

end ObdAudio

namespace ObdAudio

theorem wordsOf_dropWhile_pyWs : ∀ l : List Char,
    wordsOf (l.dropWhile pyWs) = wordsOf l := by
  intro l
  induction l with
  | nil => rfl
  | cons c cs ih =>
    rw [List.dropWhile_cons]
    split
    · next hc => rw [ih, wordsOf_cons_nw cs (pyWs_not_word hc)]
    · rfl

theorem wordsOf_stripEnds (l : List Char) : wordsOf (stripEnds l) = wordsOf l := by
  have h2 := wordsOfA_append_allnw (stripEnds l) []
    ((l.dropWhile pyWs).reverse.takeWhile pyWs).reverse
    (by
      intro c hc
      rw [List.mem_reverse] at hc
      exact pyWs_not_word (List.mem_takeWhile_imp hc))
  have h3 : wordsOf (l.dropWhile pyWs) = wordsOf (stripEnds l) := by
    rw [wordsOf, stripEnds_decomp l, h2]
    rfl
  rw [← h3, wordsOf_dropWhile_pyWs]

theorem wordsOf_dropLead : ∀ l : List Char,
    wordsOf (l.dropWhile (fun c => isPunct c || pyWs c)) = wordsOf l := by
  intro l
  induction l with
  | nil => rfl
  | cons c cs ih =>
    rw [List.dropWhile_cons]
    split
    · next hc =>
      simp only [Bool.or_eq_true] at hc
      rw [ih, wordsOf_cons_nw cs ?_]
      rcases hc with hc | hc
      · exact isPunct_not_word hc
      · exact pyWs_not_word hc
    · rfl

/-- Step 7 does not change the tokens. -/
theorem wordsOf_step7 (l : List Char) : wordsOf (step7 l) = wordsOf l := by
  rw [step7]
  show wordsOf ((fixPunct (stripEnds (collapseWs l))).dropWhile _) = wordsOf l
  rw [wordsOf_dropLead]
  rw [show fixPunct (stripEnds (collapseWs l)) = fixPunctA [] (stripEnds (collapseWs l))
    from rfl]
  rw [show wordsOf (fixPunctA [] (stripEnds (collapseWs l)))
      = wordsOfA [] (fixPunctA [] (stripEnds (collapseWs l))) from rfl]
  rw [fixPunctA_wordsOf _ [] [] (by simp)]
  simp only [List.reverse_nil, List.nil_append]
  rw [show wordsOfA [] (stripEnds (collapseWs l)) = wordsOf (stripEnds (collapseWs l))
    from rfl]
  rw [wordsOf_stripEnds]
  exact (collapseA_wordsOf l []).1

end ObdAudio

namespace ObdAudio

/-! ## Idempotence development: re-casing -/

/-- The property that makes a token invariant under step 5: an all-caps
word of length at least two is a known acronym. -/
def capsTokOK (w : List Char) : Prop :=
  2 ≤ w.length ∧ w.all isUpperAZ = true → w ∈ KNOWN_ACRONYMS

/-- The tokens relevant at a scan position: all tokens, or all tokens
after the current word continuation. -/
def wordsFrom (prevW : Bool) (l : List Char) : List (List Char) :=
  if prevW then wordsOf (l.dropWhile isWordChar) else wordsOf l

theorem upper_is_word {c : Char} (h : isUpperAZ c = true) : isWordChar c = true := by
  simp [isWordChar, h]

theorem toLower_word_of_upper {c : Char} (h : isUpperAZ c = true) :
    isWordChar c.toLower = true := by
  have key : ∀ n, n < 91 → 65 ≤ n → isWordChar (Char.ofNat (n + 32)) = true := by decide
  have hrange : 65 ≤ c.toNat ∧ c.toNat ≤ 90 := by
    simp only [isUpperAZ, Bool.and_eq_true, decide_eq_true_eq] at h
    exact ⟨h.1, h.2⟩
  simp only [Char.toLower]
  rw [if_pos (by omega)]
  exact key c.toNat (by omega) (by omega)

theorem flushRun_id (acc : List Char) (hau : acc.all isUpperAZ = true)
    (hok : capsTokOK acc) : flushRun acc = acc := by
  rw [flushRun]
  split
  · next h2 => rw [fixCaps, if_pos (hok ⟨h2, hau⟩)]
  · rfl

theorem flushRun_all_word (acc : List Char) (hau : acc.all isUpperAZ = true) :
    ∀ c ∈ flushRun acc, isWordChar c = true := by
  have haccw : ∀ c ∈ acc, isWordChar c = true := by
    intro c hc
    exact upper_is_word (List.all_eq_true.mp hau c hc)
  rw [flushRun]
  split
  · rw [fixCaps]
    split
    · exact haccw
    · cases acc with
      | nil => simp [capWord]
      | cons a as =>
        intro c hc
        rw [capWord] at hc
        rcases List.mem_cons.mp hc with rfl | hm
        · exact haccw c (by simp)
        · rw [List.mem_map] at hm
          obtain ⟨d, hd, rfl⟩ := hm
          exact toLower_word_of_upper
            (List.all_eq_true.mp hau d (by simp [hd]))
  · exact haccw

theorem flushRun_capsOK (acc : List Char) (hau : acc.all isUpperAZ = true) :
    capsTokOK (flushRun acc) := by
  rw [flushRun]
  split
  · next h2 =>
    rw [fixCaps]
    split
    · next hm => exact fun _ => hm
    · cases acc with
      | nil => simp at h2
      | cons a as =>
        cases as with
        | nil => simp at h2
        | cons d as' =>
          intro hcontra
          exfalso
          have h1 := List.all_eq_true.mp hcontra.2 d.toLower (by simp [capWord])
          have h2u := List.all_eq_true.mp hau d (by simp)
          rw [toLower_not_upper h2u] at h1
          cases h1
  · next h2 =>
    intro hcontra
    exfalso
    exact h2 hcontra.1

/-- A token containing a non-upper character is trivially acceptable. -/
theorem capsTok_of_hasNonUpper (cur : List Char)
    (h : ∃ c ∈ cur, isUpperAZ c = false) : capsTokOK cur.reverse := by
  obtain ⟨d, hd, hdu⟩ := h
  intro hcontra
  exfalso
  have := List.all_eq_true.mp hcontra.2 d (List.mem_reverse.mpr hd)
  rw [hdu] at this
  cases this

end ObdAudio

namespace ObdAudio

theorem wordsFrom_nw {c : Char} (cs : List Char) (hc : isWordChar c = false)
    (b : Bool) : wordsFrom b (c :: cs) = wordsOf cs := by
  cases b with
  | false => exact wordsOf_cons_nw cs hc
  | true =>
    rw [wordsFrom]
    simp only [if_true]
    rw [List.dropWhile_cons, if_neg (by simp [hc])]
    exact wordsOf_cons_nw cs hc

theorem wordsFrom_w_true {c : Char} (cs : List Char) (hc : isWordChar c = true) :
    wordsFrom true (c :: cs) = wordsFrom true cs := by
  rw [wordsFrom, wordsFrom]
  simp only [if_true]
  rw [List.dropWhile_cons, if_pos (by simp [hc])]

theorem wordsOf_w_split {c : Char} (cs : List Char) (hc : isWordChar c = true) :
    wordsOf (c :: cs) =
      (c :: cs.takeWhile isWordChar) :: wordsOf (cs.dropWhile isWordChar) := by
  rw [wordsOf, wordsOfA_cons_w [] cs hc, wordsOfA_split cs [c] (by simp)]
  rfl

/-- The re-casing scan is the identity when every token at a word boundary
is acceptable. -/
theorem recase_main : ∀ (n : Nat) (l : List Char), l.length ≤ n →
    (∀ prevW : Bool, (∀ w ∈ wordsFrom prevW l, capsTokOK w) →
      recaseA none prevW l = l) ∧
    (∀ acc : List Char, acc ≠ [] → acc.all isUpperAZ = true →
      capsTokOK (acc ++ l.takeWhile isWordChar) →
      (∀ w ∈ wordsOf (l.dropWhile isWordChar), capsTokOK w) →
      recaseA (some acc) true l = acc ++ l) := by
  intro n
  induction n with
  | zero =>
    intro l hl
    rw [List.length_eq_zero.mp (Nat.le_zero.mp hl)]
    constructor
    · intro prevW _
      rfl
    · intro acc hne hau hok _
      show flushRun acc = acc ++ []
      rw [List.append_nil]
      exact flushRun_id acc hau (by simpa using hok)
  | succ n ih =>
    intro l hl
    cases l with
    | nil =>
      constructor
      · intro prevW _
        rfl
      · intro acc hne hau hok _
        show flushRun acc = acc ++ []
        rw [List.append_nil]
        exact flushRun_id acc hau (by simpa using hok)
    | cons c cs =>
      have hcs : cs.length ≤ n := by
        simp only [List.length_cons] at hl
        omega
      constructor
      · intro prevW hyp
        rw [recaseA]
        split
        · next hcond =>
          simp only [Bool.and_eq_true, Bool.not_eq_true'] at hcond
          obtain ⟨hpw, hup⟩ := hcond
          subst hpw
          have hw : isWordChar c = true := upper_is_word hup
          have h1 : capsTokOK ([c] ++ cs.takeWhile isWordChar) := by
            apply hyp
            show _ ∈ wordsOf (c :: cs)
            rw [wordsOf_w_split cs hw]
            simp
          have h2 : ∀ w ∈ wordsOf (cs.dropWhile isWordChar), capsTokOK w := by
            intro w hw2
            apply hyp
            show w ∈ wordsOf (c :: cs)
            rw [wordsOf_w_split cs hw]
            exact List.mem_cons_of_mem _ hw2
          exact (ih cs hcs).2 [c] (by simp) (by simp [hup]) h1 h2
        · next hcond =>
          have htail : recaseA none (isWordChar c) cs = cs := by
            apply (ih cs hcs).1 (isWordChar c)
            cases hw : isWordChar c with
            | false =>
              intro w hw2
              have hw2' : w ∈ wordsOf cs := hw2
              apply hyp
              cases prevW with
              | false =>
                show w ∈ wordsOf (c :: cs)
                rw [wordsOf_cons_nw cs hw]
                exact hw2'
              | true =>
                show w ∈ wordsOf ((c :: cs).dropWhile isWordChar)
                rw [List.dropWhile_cons, if_neg (by simp [hw]), wordsOf_cons_nw cs hw]
                exact hw2'
            | true =>
              intro w hw2
              have hw2' : w ∈ wordsOf (cs.dropWhile isWordChar) := hw2
              apply hyp
              cases prevW with
              | true =>
                show w ∈ wordsOf ((c :: cs).dropWhile isWordChar)
                rw [List.dropWhile_cons, if_pos (by simp [hw])]
                exact hw2'
              | false =>
                show w ∈ wordsOf (c :: cs)
                rw [wordsOf_w_split cs hw]
                exact List.mem_cons_of_mem _ hw2'
          rw [htail]
      · intro acc hne hau hok hdrop
        rw [recaseA]
        split
        · next hup =>
          have hw : isWordChar c = true := upper_is_word hup
          have heq : recaseA (some (acc ++ [c])) true cs = (acc ++ [c]) ++ cs := by
            apply (ih cs hcs).2 (acc ++ [c]) (by simp)
            · rw [List.all_append]
              simp [hau, hup]
            · rw [List.takeWhile_cons, if_pos (by simp [hw])] at hok
              simpa [List.append_assoc] using hok
            · rw [List.dropWhile_cons, if_pos (by simp [hw])] at hdrop
              exact hdrop
          rw [heq]
          simp
        · split
          · next hup hw =>
            have heq : recaseA none true cs = cs := by
              apply (ih cs hcs).1 true
              rw [List.dropWhile_cons, if_pos (by simp [hw])] at hdrop
              intro w hw2
              have hw2' : w ∈ wordsOf (cs.dropWhile isWordChar) := hw2
              exact hdrop w hw2'
            rw [heq]
          · next hup hw =>
            have hwc : isWordChar c = false := by
              simpa using hw
            rw [List.dropWhile_cons, if_neg (by simp [hwc])] at hdrop
            have heq : recaseA none false cs = cs := by
              apply (ih cs hcs).1 false
              intro w hw2
              have hw2' : w ∈ wordsOf cs := hw2
              apply hdrop
              rw [wordsOf_cons_nw cs hwc]
              exact hw2'
            rw [heq]
            have hacc : flushRun acc = acc := by
              apply flushRun_id acc hau
              rw [List.takeWhile_cons, if_neg (by simp [hwc])] at hok
              simpa using hok
            rw [hacc]

end ObdAudio

namespace ObdAudio

/-- Every token of the re-casing scan's output is acceptable. -/
theorem recase_words_ok : ∀ (n : Nat) (l : List Char), l.length ≤ n →
    (∀ (cur : List Char) (prevW : Bool),
      (prevW = false → cur = []) →
      (prevW = true → cur ≠ [] ∧ ∃ c ∈ cur, isUpperAZ c = false) →
      ∀ w ∈ wordsOfA cur (recaseA none prevW l), capsTokOK w) ∧
    (∀ acc : List Char, acc ≠ [] → acc.all isUpperAZ = true →
      ∀ w ∈ wordsOfA [] (recaseA (some acc) true l), capsTokOK w) := by
  intro n
  induction n with
  | zero =>
    intro l hl
    rw [List.length_eq_zero.mp (Nat.le_zero.mp hl)]
    constructor
    · intro cur prevW h0 h1 w hw
      cases prevW with
      | false =>
        rw [h0 rfl] at hw
        simp [recaseA, wordsOfA] at hw
      | true =>
        obtain ⟨hne, hnu⟩ := h1 rfl
        simp only [recaseA, wordsOfA, if_neg hne] at hw
        rw [List.mem_singleton.mp hw]
        exact capsTok_of_hasNonUpper cur hnu
    · intro acc hne hau w hw
      show capsTokOK w
      have hall := flushRun_all_word acc hau
      rw [show recaseA (some acc) true [] = flushRun acc from rfl] at hw
      rw [wordsOfA_all_word (flushRun acc) [] hall] at hw
      rw [List.append_nil] at hw
      by_cases hfe : (flushRun acc).reverse = []
      · simp [wordsOfA, hfe] at hw
      · simp only [wordsOfA, if_neg hfe, List.reverse_reverse] at hw
        rw [List.mem_singleton.mp hw]
        exact flushRun_capsOK acc hau
  | succ n ih =>
    intro l hl
    cases l with
    | nil => exact ih [] (by simp)
    | cons c cs =>
      have hcs : cs.length ≤ n := by
        simp only [List.length_cons] at hl
        omega
      constructor
      · intro cur prevW h0 h1 w hw
        rw [recaseA] at hw
        split at hw
        · next hcond =>
          simp only [Bool.and_eq_true, Bool.not_eq_true'] at hcond
          rw [h0 hcond.1] at hw
          exact (ih cs hcs).2 [c] (by simp) (by simp [hcond.2]) w hw
        · next hcond =>
          cases hwc : isWordChar c with
          | true =>
            rw [wordsOfA_cons_w cur _ hwc] at hw
            refine (ih cs hcs).1 (c :: cur) (isWordChar c) ?_ ?_ w hw
            · intro h
              rw [hwc] at h
              cases h
            · intro _
              refine ⟨by simp, ?_⟩
              cases prevW with
              | false =>
                have hcu : isUpperAZ c = false := by
                  rcases hx : isUpperAZ c
                  · rfl
                  · exfalso
                    apply hcond
                    simp [hx]
                exact ⟨c, by simp, hcu⟩
              | true =>
                obtain ⟨-, d, hd, hdu⟩ := h1 rfl
                exact ⟨d, by simp [hd], hdu⟩
          | false =>
            rw [wordsOfA_nw_step cur hwc] at hw
            rcases List.mem_append.mp hw with h1' | h2'
            · by_cases hce : cur = []
              · rw [hce] at h1'
                simp [wordsOfA] at h1'
              · simp only [wordsOfA, if_neg hce] at h1'
                rw [List.mem_singleton.mp h1']
                have hpw : prevW = true := by
                  cases prevW
                  · exact absurd (h0 rfl) hce
                  · rfl
                exact capsTok_of_hasNonUpper cur (h1 hpw).2
            · refine (ih cs hcs).1 [] (isWordChar c) (fun _ => rfl) ?_ w h2'
              intro h
              rw [hwc] at h
              cases h
      · intro acc hne hau w hw
        rw [recaseA] at hw
        split at hw
        · next hup =>
          refine (ih cs hcs).2 (acc ++ [c]) (by simp) ?_ w hw
          rw [List.all_append]
          simp [hau, hup]
        · split at hw
          · next hup hwrd =>
            have haccw : ∀ d ∈ acc, isWordChar d = true :=
              fun d hd => upper_is_word (List.all_eq_true.mp hau d hd)
            rw [wordsOfA_word_pref acc [] _ haccw, List.append_nil,
              wordsOfA_cons_w _ _ hwrd] at hw
            refine (ih cs hcs).1 (c :: acc.reverse) true ?_ ?_ w hw
            · intro h
              cases h
            · intro _
              exact ⟨by simp, c, by simp, by simpa using hup⟩
          · next hup hwrd =>
            have hwc : isWordChar c = false := by simpa using hwrd
            have hall := flushRun_all_word acc hau
            rw [wordsOfA_word_pref (flushRun acc) [] _ hall, List.append_nil,
              wordsOfA_nw_step (flushRun acc).reverse hwc] at hw
            rcases List.mem_append.mp hw with h1' | h2'
            · by_cases hfe : (flushRun acc).reverse = []
              · rw [hfe] at h1'
                simp [wordsOfA] at h1'
              · simp only [wordsOfA, if_neg hfe, List.reverse_reverse] at h1'
                rw [List.mem_singleton.mp h1']
                exact flushRun_capsOK acc hau
            · exact (ih cs hcs).1 [] false (fun _ => rfl) (fun h => nomatch h) w h2'

end ObdAudio

namespace ObdAudio

/-! ## Idempotence development: whole-word substitution -/

theorem litPre_decomp : ∀ (pat l : List Char), litPre pat l = true →
    l = pat ++ l.drop pat.length := by
  intro pat
  induction pat with
  | nil => intro l _; rfl
  | cons p ps ih =>
    intro l h
    cases l with
    | nil => simp [litPre] at h
    | cons c cs =>
      simp only [litPre, Bool.and_eq_true, decide_eq_true_eq] at h
      obtain ⟨rfl, h2⟩ := h
      simp only [List.cons_append, List.drop_succ_cons, List.cons.injEq, true_and]
      exact ih cs h2

theorem litPre_refl_append : ∀ (pat x : List Char), litPre pat (pat ++ x) = true := by
  intro pat
  induction pat with
  | nil => intro x; rfl
  | cons p ps ih => intro x; simp [litPre, ih]

theorem takeWhile_word_append (pat : List Char)
    (hpw : ∀ c ∈ pat, isWordChar c = true) :
    ∀ x : List Char, (x = [] ∨ ∃ d ds, x = d :: ds ∧ isWordChar d = false) →
    (pat ++ x).takeWhile isWordChar = pat := by
  induction pat with
  | nil =>
    intro x hx
    rcases hx with rfl | ⟨d, ds, rfl, hd⟩
    · rfl
    · simp [List.takeWhile_cons, hd]
  | cons p ps ih =>
    intro x hx
    rw [List.cons_append, List.takeWhile_cons, if_pos (by simp [hpw p (by simp)])]
    rw [ih (fun c hc => hpw c (by simp [hc])) x hx]

/-- The whole-word substitution is the identity when no boundary token
equals the pattern. -/
theorem wordSub_id_aux (pat repl : List Char)
    (hpw : ∀ c ∈ pat, isWordChar c = true) (hpne : pat ≠ []) :
    ∀ (fuel : Nat) (l : List Char) (prevW : Bool),
      (∀ w ∈ wordsFrom prevW l, w ≠ pat) →
      wordSubF pat repl fuel prevW l = l := by
  intro fuel
  induction fuel with
  | zero => intro l prevW _; rfl
  | succ fuel ih =>
    intro l prevW hyp
    cases l with
    | nil => rfl
    | cons c cs =>
      rw [wordSubF]
      split
      · next hcond =>
        exfalso
        simp only [Bool.and_eq_true, Bool.not_eq_true'] at hcond
        obtain ⟨⟨hpv, hlit⟩, hbd⟩ := hcond
        subst hpv
        have hdec := litPre_decomp pat (c :: cs) hlit
        have hbd' : (c :: cs).drop pat.length = [] ∨
            ∃ d ds, (c :: cs).drop pat.length = d :: ds ∧ isWordChar d = false := by
          rcases hx : (c :: cs).drop pat.length with _ | ⟨d, ds⟩
          · exact Or.inl rfl
          · refine Or.inr ⟨d, ds, rfl, ?_⟩
            rw [hx] at hbd
            simpa using hbd
        have htok : pat ∈ wordsOf (c :: cs) := by
          rw [hdec, wordsOf]
          rw [wordsOfA_word_pref pat [] _ hpw, List.append_nil]
          rcases hbd' with hx | ⟨d, ds, hx, hd⟩
          · rw [hx]
            simp [wordsOfA, hpne]
          · rw [hx, wordsOfA_cons_nw_flush ds hd (by simp [hpne])]
            simp
        have hfrom : pat ∈ wordsFrom false (c :: cs) := htok
        exact hyp pat hfrom rfl
      · next hcond =>
        have htail : wordSubF pat repl fuel (isWordChar c) cs = cs := by
          apply ih cs (isWordChar c)
          cases hw : isWordChar c with
          | false =>
            intro w hw2
            have hw2' : w ∈ wordsOf cs := hw2
            apply hyp
            cases prevW with
            | false =>
              show w ∈ wordsOf (c :: cs)
              rw [wordsOf_cons_nw cs hw]
              exact hw2'
            | true =>
              show w ∈ wordsOf ((c :: cs).dropWhile isWordChar)
              rw [List.dropWhile_cons, if_neg (by simp [hw]), wordsOf_cons_nw cs hw]
              exact hw2'
          | true =>
            intro w hw2
            have hw2' : w ∈ wordsOf (cs.dropWhile isWordChar) := hw2
            apply hyp
            cases prevW with
            | true =>
              show w ∈ wordsOf ((c :: cs).dropWhile isWordChar)
              rw [List.dropWhile_cons, if_pos (by simp [hw])]
              exact hw2'
            | false =>
              show w ∈ wordsOf (c :: cs)
              rw [wordsOf_w_split cs hw]
              exact List.mem_cons_of_mem _ hw2'
        rw [htail]

end ObdAudio

namespace ObdAudio

theorem dropWhile_eq_drop_takeWhile (p : Char → Bool) : ∀ l : List Char,
    l.dropWhile p = l.drop (l.takeWhile p).length := by
  intro l
  induction l with
  | nil => rfl
  | cons c cs ih =>
    rw [List.dropWhile_cons, List.takeWhile_cons]
    split
    · next h => rw [List.length_cons, List.drop_succ_cons, ih]
    · next h => rfl

/-- Every token of a whole-word substitution's output either survives from
the input and differs from the pattern, or is a token of the
replacement. -/
theorem wordSub_words (pat repl : List Char)
    (hpw : ∀ c ∈ pat, isWordChar c = true) (hpne : pat ≠ []) :
    ∀ (fuel : Nat) (l : List Char), l.length ≤ fuel →
    ∀ (cur : List Char) (prevW : Bool),
      (prevW = false → cur = []) →
      (cur ≠ [] → cur.reverse ++ l.takeWhile isWordChar ≠ pat) →
      (cur = [] → prevW = true →
        l = [] ∨ ∃ d ds, l = d :: ds ∧ isWordChar d = false) →
      ∀ w ∈ wordsOfA cur (wordSubF pat repl fuel prevW l),
        (w ∈ wordsOfA cur l ∧ w ≠ pat) ∨ w ∈ wordsOf repl := by
  intro fuel
  induction fuel with
  | zero =>
    intro l hl cur prevW h0 hcur h3 w hw
    rw [List.length_eq_zero.mp (Nat.le_zero.mp hl)] at hw hcur ⊢
    by_cases hce : cur = []
    · subst hce
      simp [wordsOfA] at hw
    · simp only [show wordSubF pat repl 0 prevW [] = [] from rfl] at hw
      simp only [wordsOfA, if_neg hce] at hw
      rw [List.mem_singleton.mp hw]
      refine Or.inl ⟨by simp [wordsOfA, hce], ?_⟩
      have := hcur hce
      simpa using this
  | succ fuel ih =>
    intro l hl cur prevW h0 hcur h3 w hw
    cases l with
    | nil =>
      by_cases hce : cur = []
      · subst hce
        simp [wordsOfA] at hw
      · simp only [show wordSubF pat repl (fuel + 1) prevW [] = [] from rfl] at hw
        simp only [wordsOfA, if_neg hce] at hw
        rw [List.mem_singleton.mp hw]
        refine Or.inl ⟨by simp [wordsOfA, hce], ?_⟩
        have := hcur hce
        simpa using this
    | cons c cs =>
      have hcs : cs.length ≤ fuel := by
        simp only [List.length_cons] at hl
        omega
      rw [wordSubF] at hw
      split at hw
      · next hcond =>
        simp only [Bool.and_eq_true, Bool.not_eq_true'] at hcond
        obtain ⟨⟨hpv, hlit⟩, hbd⟩ := hcond
        have hc0 : cur = [] := h0 hpv
        subst hc0
        have hbd' : (c :: cs).drop pat.length = [] ∨
            ∃ d ds, (c :: cs).drop pat.length = d :: ds ∧ isWordChar d = false := by
          rcases hx : (c :: cs).drop pat.length with _ | ⟨d, ds⟩
          · exact Or.inl rfl
          · refine Or.inr ⟨d, ds, rfl, ?_⟩
            rw [hx] at hbd
            simpa using hbd
        have hRECshape : wordSubF pat repl fuel true ((c :: cs).drop pat.length) = [] ∨
            ∃ d ds, wordSubF pat repl fuel true ((c :: cs).drop pat.length) = d :: ds ∧
              isWordChar d = false := by
          rcases hbd' with hx | ⟨d, ds, hx, hd⟩
          · rw [hx]
            cases fuel <;> exact Or.inl rfl
          · rw [hx]
            cases fuel with
            | zero => exact Or.inr ⟨d, ds, rfl, hd⟩
            | succ fuel' =>
              rw [wordSubF, if_neg (by simp)]
              exact Or.inr ⟨d, _, rfl, hd⟩
        rw [wordsOfA_append_nw repl [] _ hRECshape] at hw
        rcases List.mem_append.mp hw with hrepl | hrec
        · exact Or.inr hrepl
        · have hrest_len : ((c :: cs).drop pat.length).length ≤ fuel := by
            rw [List.length_drop]
            have hp1 : 0 < pat.length := List.length_pos.mpr hpne
            simp only [List.length_cons] at hl ⊢
            omega
          have hmain := ih _ hrest_len [] true (fun h => nomatch h)
            (fun h => absurd rfl h) (fun _ _ => hbd') w hrec
          rcases hmain with ⟨hmem, hne⟩ | hrepl2
          · refine Or.inl ⟨?_, hne⟩
            have hdec := litPre_decomp pat (c :: cs) hlit
            rw [show wordsOfA ([] : List Char) (c :: cs)
                = wordsOfA [] (pat ++ (c :: cs).drop pat.length) from by rw [← hdec]]
            rw [wordsOfA_word_pref pat [] _ hpw, List.append_nil]
            rcases hbd' with hx | ⟨d, ds, hx, hd⟩
            · rw [hx] at hmem
              simp [wordsOfA] at hmem
            · rw [hx] at hmem ⊢
              rw [wordsOfA_cons_nw_flush ds hd (by simp [hpne])]
              rw [wordsOfA_cons_nw_skip ds hd] at hmem
              exact List.mem_cons_of_mem _ hmem
          · exact Or.inr hrepl2
      · next hcond =>
        cases hwc : isWordChar c with
        | true =>
          rw [wordsOfA_cons_w cur _ hwc] at hw
          have htokhyp : (c :: cur).reverse ++ cs.takeWhile isWordChar ≠ pat := by
            by_cases hce : cur = []
            · subst hce
              cases hpv : prevW with
              | true =>
                rcases h3 rfl hpv with hx | ⟨d, ds, hx, hd⟩
                · cases hx
                · have hcd := (List.cons.inj hx).1
                  rw [hcd] at hwc
                  rw [hwc] at hd
                  cases hd
              | false =>
                intro heq
                simp only [List.reverse_cons, List.reverse_nil, List.nil_append,
                  List.singleton_append] at heq
                apply hcond
                have hsplitl : c :: cs = (c :: cs.takeWhile isWordChar) ++
                    cs.dropWhile isWordChar := by
                  rw [List.cons_append, List.takeWhile_append_dropWhile]
                have hlit2 : litPre pat (c :: cs) = true := by
                  rw [← heq, hsplitl]
                  have : ((c :: cs.takeWhile isWordChar) ++ cs.dropWhile isWordChar)
                      = (c :: cs.takeWhile isWordChar) ++ cs.dropWhile isWordChar := rfl
                  exact litPre_refl_append _ _
                have hdrop2 : (c :: cs).drop pat.length = cs.dropWhile isWordChar := by
                  rw [← heq]
                  simp only [List.length_cons, List.drop_succ_cons]
                  exact (dropWhile_eq_drop_takeWhile isWordChar cs).symm
                simp only [hpv, Bool.not_false, Bool.true_and, Bool.and_eq_true]
                refine ⟨hlit2, ?_⟩
                rw [hdrop2]
                have hhd := headOkB_dropWhile isWordChar cs
                rcases hx : cs.dropWhile isWordChar with _ | ⟨d, ds⟩
                · rfl
                · rw [hx] at hhd
                  simpa [headOkB] using hhd
            · intro heq
              apply hcur hce
              rw [List.takeWhile_cons, if_pos (by simp [hwc])]
              rw [List.reverse_cons] at heq
              rw [List.append_cons]
              exact heq
          have hmain := ih cs hcs (c :: cur) (isWordChar c)
            (fun h => by rw [hwc] at h; cases h)
            (fun _ => htokhyp)
            (fun h => nomatch h) w (by rw [hwc] at hw ⊢; exact hw)
          rcases hmain with ⟨hmem, hne⟩ | hrepl2
          · exact Or.inl ⟨by rw [wordsOfA_cons_w cur _ hwc]; exact hmem, hne⟩
          · exact Or.inr hrepl2
        | false =>
          rw [wordsOfA_nw_step cur hwc] at hw
          rcases List.mem_append.mp hw with hflush | hrec
          · by_cases hce : cur = []
            · subst hce
              simp [wordsOfA] at hflush
            · simp only [wordsOfA, if_neg hce] at hflush
              rw [List.mem_singleton.mp hflush]
              refine Or.inl ⟨?_, ?_⟩
              · rw [wordsOfA_nw_step cur hwc cs]
                apply List.mem_append_left
                simp [wordsOfA, hce]
              · have := hcur hce
                rw [List.takeWhile_cons, if_neg (by simp [hwc])] at this
                simpa using this
          · have hmain := ih cs hcs [] (isWordChar c)
              (fun _ => rfl) (fun h => absurd rfl h)
              (fun _ h => by rw [hwc] at h; cases h) w hrec
            rcases hmain with ⟨hmem, hne⟩ | hrepl2
            · refine Or.inl ⟨?_, hne⟩
              rw [wordsOfA_nw_step cur hwc cs]
              exact List.mem_append_right _ hmem
            · exact Or.inr hrepl2

end ObdAudio

namespace ObdAudio

/-! ## Idempotence development: assembly -/

theorem step5_words_ok (l : List Char) : ∀ w ∈ wordsOf (step5 l), capsTokOK w :=
  (recase_words_ok l.length l le_rfl).1 [] false (fun _ => rfl) (fun h => nomatch h)

theorem step5_id_of (l : List Char) (h : ∀ w ∈ wordsOf l, capsTokOK w) :
    step5 l = l :=
  (recase_main l.length l le_rfl).1 false h

theorem wordSub_words_top (pat repl l : List Char)
    (hpw : ∀ c ∈ pat, isWordChar c = true) (hpne : pat ≠ []) :
    ∀ w ∈ wordsOf (wordSub pat repl l),
      (w ∈ wordsOf l ∧ w ≠ pat) ∨ w ∈ wordsOf repl :=
  wordSub_words pat repl hpw hpne l.length l le_rfl [] false (fun _ => rfl)
    (fun h => absurd rfl h) (fun _ h => nomatch h)

theorem wordSub_id_top (pat repl l : List Char)
    (hpw : ∀ c ∈ pat, isWordChar c = true) (hpne : pat ≠ [])
    (h : ∀ w ∈ wordsOf l, w ≠ pat) : wordSub pat repl l = l :=
  wordSub_id_aux pat repl hpw hpne l.length l false h

theorem fold_words :
    ∀ (tbl : List (List Char × List Char)),
      (∀ pr ∈ tbl, (∀ c ∈ pr.1, isWordChar c = true) ∧ pr.1 ≠ []) →
      ∀ (t : List Char),
      ∀ w ∈ wordsOf (tbl.foldl (fun t pr => wordSub pr.1 pr.2 t) t),
        (w ∈ wordsOf t ∧ ∀ pr ∈ tbl, w ≠ pr.1) ∨ ∃ pr ∈ tbl, w ∈ wordsOf pr.2 := by
  intro tbl
  induction tbl with
  | nil =>
    intro _ t w hw
    exact Or.inl ⟨hw, by simp⟩
  | cons pr tl ihf =>
    intro hside t w hw
    simp only [List.foldl_cons] at hw
    rcases ihf (fun q hq => hside q (by simp [hq])) (wordSub pr.1 pr.2 t) w hw with
      ⟨hmem', htl⟩ | ⟨pr', hpr', hmem'⟩
    · rcases wordSub_words_top pr.1 pr.2 t (hside pr (by simp)).1 (hside pr (by simp)).2
          w hmem' with ⟨hmem, hne⟩ | hrepl
      · refine Or.inl ⟨hmem, ?_⟩
        intro pr' hpr'
        rcases List.mem_cons.mp hpr' with rfl | hpr2
        · exact hne
        · exact htl pr' hpr2
      · exact Or.inr ⟨pr, by simp, hrepl⟩
    · exact Or.inr ⟨pr', by simp [hpr'], hmem'⟩

theorem fold_id :
    ∀ (tbl : List (List Char × List Char)),
      (∀ pr ∈ tbl, (∀ c ∈ pr.1, isWordChar c = true) ∧ pr.1 ≠ []) →
      ∀ (t : List Char),
      (∀ w ∈ wordsOf t, ∀ pr ∈ tbl, w ≠ pr.1) →
      tbl.foldl (fun t pr => wordSub pr.1 pr.2 t) t = t := by
  intro tbl
  induction tbl with
  | nil => intro _ t _; rfl
  | cons pr tl ihf =>
    intro hside t hyp
    simp only [List.foldl_cons]
    have h1 : wordSub pr.1 pr.2 t = t :=
      wordSub_id_top pr.1 pr.2 t (hside pr (by simp)).1 (hside pr (by simp)).2
        (fun w hw => hyp w hw pr (by simp))
    rw [h1]
    exact ihf (fun q hq => hside q (by simp [hq])) t
      (fun w hw pr' hpr' => hyp w hw pr' (by simp [hpr']))

theorem fixes_side :
    ∀ pr ∈ PRONUNCIATION_FIXES, (∀ c ∈ pr.1, isWordChar c = true) ∧ pr.1 ≠ [] := by
  decide

instance (w : List Char) : Decidable (capsTokOK w) :=
  inferInstanceAs (Decidable (_ → _))

theorem fixes_repl_capsOK :
    ∀ pr ∈ PRONUNCIATION_FIXES, ∀ w ∈ wordsOf pr.2, capsTokOK w := by
  decide

theorem fixes_cross :
    ∀ pr ∈ PRONUNCIATION_FIXES, ∀ w ∈ wordsOf pr.2,
      ∀ pr' ∈ PRONUNCIATION_FIXES, w ≠ pr'.1 := by
  decide

/-- Tokens after step 6: acceptable whenever the input's were, and never a
pronunciation pattern. -/
theorem step6_words (l : List Char) (hcaps : ∀ w ∈ wordsOf l, capsTokOK w) :
    ∀ w ∈ wordsOf (step6 l),
      capsTokOK w ∧ ∀ pr ∈ PRONUNCIATION_FIXES, w ≠ pr.1 := by
  intro w hw
  rw [step6] at hw
  rcases fold_words PRONUNCIATION_FIXES fixes_side l w hw with
    ⟨hmem, hne⟩ | ⟨pr, hpr, hmem⟩
  · exact ⟨hcaps w hmem, hne⟩
  · exact ⟨fixes_repl_capsOK pr hpr w hmem, fixes_cross pr hpr w hmem⟩

theorem step6_id_of (l : List Char)
    (h : ∀ w ∈ wordsOf l, ∀ pr ∈ PRONUNCIATION_FIXES, w ≠ pr.1) : step6 l = l :=
  fold_id PRONUNCIATION_FIXES fixes_side l h

end ObdAudio

namespace ObdAudio

/-! ## Idempotence development: full pipeline -/

theorem clean_eq (hacks : Bool) (l : List Char) :
    cleanTextForTTS hacks l =
      step7 (if hacks then step6 (step5 (step4 (step3 (step2 (step1 l)))))
             else step5 (step4 (step3 (step2 (step1 l))))) := by
  cases hacks <;> rfl

/-- A second pass over a step-7 output is the identity whenever the text
entering step 7 was free of `[`, `<`, `*` and had only invariant tokens. -/
theorem clean_secondpass (hacks : Bool) (z : List Char)
    (hzb : '[' ∉ z) (hzl : '<' ∉ z) (hzs : '*' ∉ z)
    (hwz : ∀ w ∈ wordsOf z,
      capsTokOK w ∧ (hacks = true → ∀ pr ∈ PRONUNCIATION_FIXES, w ≠ pr.1)) :
    cleanTextForTTS hacks (step7 z) = step7 z := by
  obtain ⟨hok, htr, hhd⟩ := step7_nf z
  have hyb : '[' ∉ step7 z := step7_not_mem '[' (by decide) z hzb
  have hyl : '<' ∉ step7 z := step7_not_mem '<' (by decide) z hzl
  have hys : '*' ∉ step7 z := step7_not_mem '*' (by decide) z hzs
  have hwy : ∀ w ∈ wordsOf (step7 z),
      capsTokOK w ∧ (hacks = true → ∀ pr ∈ PRONUNCIATION_FIXES, w ≠ pr.1) := by
    intro w hw
    exact hwz w (by rwa [wordsOf_step7] at hw)
  rw [clean_eq]
  rw [step1_id _ hyb, step2_id _ hyb, step3_id _ hyl, step4_id _ hys]
  rw [step5_id_of _ (fun w hw => (hwy w hw).1)]
  cases hacks
  · exact step7_id _ hok htr hhd
  · rw [step6_id_of _ (fun w hw => (hwy w hw).2 rfl)]
    exact step7_id _ hok htr hhd

/-- Cleaning is idempotent on inputs without `[` or `<`. -/
theorem clean_idem_aux (hacks : Bool) (l : List Char)
    (h1 : '[' ∉ l) (h2 : '<' ∉ l) :
    cleanTextForTTS hacks (cleanTextForTTS hacks l) = cleanTextForTTS hacks l := by
  have e1 : step1 l = l := step1_id l h1
  have e2 : step2 l = l := step2_id l h1
  have e3 : step3 l = l := step3_id l h2
  have hy : cleanTextForTTS hacks l =
      step7 (if hacks then step6 (step5 (step4 l)) else step5 (step4 l)) := by
    rw [clean_eq, e1, e2, e3]
  have h4b : '[' ∉ step4 l := step4_not_mem '[' l h1
  have h4l : '<' ∉ step4 l := step4_not_mem '<' l h2
  have h4s : '*' ∉ step4 l := step4_no_star l
  have h5b : '[' ∉ step5 (step4 l) :=
    step5_not_mem '[' (fun _ hc => toLower_eq_bracket hc) _ h4b
  have h5l : '<' ∉ step5 (step4 l) :=
    step5_not_mem '<' (fun _ hc => toLower_eq_langle hc) _ h4l
  have h5s : '*' ∉ step5 (step4 l) :=
    step5_not_mem '*' (fun _ hc => toLower_eq_star hc) _ h4s
  have hzb : '[' ∉ (if hacks then step6 (step5 (step4 l)) else step5 (step4 l)) := by
    cases hacks
    · simpa using h5b
    · simpa using step6_not_mem '[' (by decide) _ h5b
  have hzl : '<' ∉ (if hacks then step6 (step5 (step4 l)) else step5 (step4 l)) := by
    cases hacks
    · simpa using h5l
    · simpa using step6_not_mem '<' (by decide) _ h5l
  have hzs : '*' ∉ (if hacks then step6 (step5 (step4 l)) else step5 (step4 l)) := by
    cases hacks
    · simpa using h5s
    · simpa using step6_not_mem '*' (by decide) _ h5s
  have hw5 : ∀ w ∈ wordsOf (step5 (step4 l)), capsTokOK w := step5_words_ok _
  have hwz : ∀ w ∈ wordsOf (if hacks then step6 (step5 (step4 l)) else step5 (step4 l)),
      capsTokOK w ∧ (hacks = true → ∀ pr ∈ PRONUNCIATION_FIXES, w ≠ pr.1) := by
    cases hacks
    · intro w hw
      exact ⟨hw5 w (by simpa using hw), fun h => nomatch h⟩
    · intro w hw
      have h := step6_words _ hw5 w (by simpa using hw)
      exact ⟨h.1, fun _ => h.2⟩
  rw [hy]
  exact clean_secondpass hacks _ hzb hzl hzs hwz

end ObdAudio

namespace ObdAudio

/-- C6 (amended): on input text free of `[` and `<` — in particular on any
already-clean text, since `_clean_text_for_tts` removes every `[` and `<` it
recognises — the normalizer is idempotent for each fixed value of the
`apply_pronunciation_hacks` flag:
`_clean_text_for_tts(_clean_text_for_tts(x)) == _clean_text_for_tts(x)`. -/
theorem c6_amended (hacks : Bool) (l : List Char)
    (h1 : '[' ∉ l) (h2 : '<' ∉ l) :
    cleanTextForTTS hacks (cleanTextForTTS hacks l) = cleanTextForTTS hacks l :=
  clean_idem_aux hacks l h1 h2

theorem c6_amended_witness :
    '[' ∉ chars "Hello   WORLD, visit  IVR now.." ∧
    '<' ∉ chars "Hello   WORLD, visit  IVR now.." ∧
    cleanTextForTTS true (cleanTextForTTS true (chars "Hello   WORLD, visit  IVR now..")) =
      cleanTextForTTS true (chars "Hello   WORLD, visit  IVR now..") :=
  ⟨by decide, by decide, c6_amended true _ (by decide) (by decide)⟩

end ObdAudio
